import Mathlib

/-!
A verification development for cpp-code-quest.

A shallow embedding of the string matcher (`StringUtils`), the challenge
attempt loop (`Level`) and the level iterator (`GameEngine`) of the game,
followed by theorems about them.

Conventions of the embedding.

* A `std::string` is a `CppString`, a list of characters. A `char` of the
  program is a `Char`; the ASCII literals of the source are the same literals
  here.
* `std::cin` is an `IStream`: the characters that are still unread, a finite
  sequence that ends where the operator's input ends. The stream is at
  end-of-file when the list is empty.
* A `double` is the rational number it denotes, and `double` arithmetic
  rounds to the nearest `double`.
* What the program prints is abstracted to a list of events, one per call of
  a printing helper of the source, in program order.
* `std::this_thread::sleep_for` has no effect on the state and is left out.
-/

namespace CppCodeQuest

/-- A `std::string`: the sequence of its characters. -/
abbrev CppString := List Char

/-- The unread part of `std::cin`. -/
abbrev IStream := List Char

namespace StringUtils

/-- The search of `std::string::find` over the suffix `s` of the subject that
starts at index `pos`: the lowest index at which `sub` occurs, `none` for
`npos`. -/
def findAux (sub : CppString) : CppString → Nat → Option Nat
  | [], pos => if sub.isPrefixOf [] then some pos else none
  | c :: t, pos => if sub.isPrefixOf (c :: t) then some pos else findAux sub t (pos + 1)

/-- The call `str.find(substr, pos)` of the standard library: the lowest index
`i ≥ pos` with `substr` occurring at `i`, `none` for `npos`. -/
def find (str substr : CppString) (pos : Nat) : Option Nat :=
  if pos ≤ str.length then findAux substr (str.drop pos) pos else none

/-- `StringUtils::contains`: `str.find(substr) != std::string::npos`. -/
def contains (str substr : CppString) : Bool :=
  find str substr 0 != none

/-- `StringUtils::containsAll`: the loop returns `false` at the first needle
that is not contained, `true` when the needles are exhausted. -/
def containsAll (str : CppString) : List CppString → Bool
  | [] => true
  | substr :: rest => if !contains str substr then false else containsAll str rest

/-- `StringUtils::containsAny`: the loop returns `true` at the first needle
that is contained, `false` when the needles are exhausted. -/
def containsAny (str : CppString) : List CppString → Bool
  | [] => false
  | substr :: rest => if contains str substr then true else containsAny str rest

/-- The call `str.substr(pos, n)`, for `pos` within the string. -/
def substr (str : CppString) (pos n : Nat) : CppString :=
  (str.drop pos).take n

/-- The variables of `StringUtils::split(str, delimiter)` at a test of its loop
condition; `end_` is the variable `end`, `none` for `npos`. -/
structure SplitState where
  result : List CppString
  start : Nat
  end_ : Option Nat
  deriving DecidableEq, Repr

/-- The variables of `split` before the loop. -/
def splitInit (str delimiter : CppString) : SplitState :=
  { result := [], start := 0, end_ := find str delimiter 0 }

/-- One run of the body of the loop of `split`, entered with `end` equal
to `e`. -/
def splitBody (str delimiter : CppString) (st : SplitState) (e : Nat) : SplitState :=
  { result := st.result ++ [substr str st.start (e - st.start)],
    start := e + delimiter.length,
    end_ := find str delimiter (e + delimiter.length) }

/-- The loop of `split` and the statements after it, with at most `fuel` tests
of the loop condition: `none` when the loop has not ended by then. -/
def splitLoop (str delimiter : CppString) : Nat → SplitState → Option (List CppString)
  | 0, _ => none
  | fuel + 1, st =>
    match st.end_ with
    | some e => splitLoop str delimiter fuel (splitBody str delimiter st e)
    | none => some (st.result ++ [str.drop st.start])

/-- `StringUtils::split(const std::string&, const std::string&)`, with at most
`fuel` tests of the loop condition. -/
def split (fuel : Nat) (str delimiter : CppString) : Option (List CppString) :=
  splitLoop str delimiter fuel (splitInit str delimiter)

/-- `StringUtils::join`. -/
def join (strings : List CppString) (delimiter : CppString) : CppString :=
  match strings with
  | [] => []
  | first :: rest => rest.foldl (fun result s => result ++ (delimiter ++ s)) first

/-- The loop of `StringUtils::replaceAll`, which is entered with a non-empty
`from`: `while ((pos = result.find(from, pos)) != npos)` with the body
`result.replace(pos, from.length(), to); pos += to.length();`. -/
def replaceAllLoop (from_ : CppString) (hfrom : from_ ≠ []) (to_ result : CppString)
    (pos : Nat) : CppString :=
  if h : (find result from_ pos).isSome = true then
    replaceAllLoop from_ hfrom to_
      (result.take ((find result from_ pos).get h) ++ to_ ++
        result.drop ((find result from_ pos).get h + from_.length))
      ((find result from_ pos).get h + to_.length)
  else result
termination_by result.length - pos
decreasing_by
  have key : ∀ (t : CppString) (q p : Nat), findAux from_ t q = some p →
      q ≤ p ∧ p + from_.length ≤ q + t.length := by
    intro t
    induction t with
    | nil =>
      intro q p hp
      cases from_ with
      | nil => exact absurd rfl hfrom
      | cons c r => simp [findAux, List.isPrefixOf] at hp
    | cons c r ih =>
      intro q p hp
      rw [findAux] at hp
      by_cases hpre : from_.isPrefixOf (c :: r) = true
      · rw [if_pos hpre] at hp
        have hle := (List.isPrefixOf_iff_prefix.1 hpre).length_le
        have : q = p := by injection hp
        omega
      · rw [if_neg hpre] at hp
        have := ih (q + 1) p hp
        simp only [List.length_cons]
        omega
  have hne : 0 < from_.length := List.length_pos.2 hfrom
  obtain ⟨p, hp⟩ := Option.isSome_iff_exists.1 h
  have hget : (find result from_ pos).get h = p := by simp [hp]
  rw [hget]
  unfold find at hp
  split at hp
  · rename_i hle
    have := key _ _ _ hp
    simp only [List.length_drop] at this
    simp only [List.length_append, List.length_take, List.length_drop]
    omega
  · exact absurd hp (by simp)

/-- `StringUtils::replaceAll`. -/
def replaceAll (str from_ to_ : CppString) : CppString :=
  if h : from_ = [] then str else replaceAllLoop from_ h to_ str 0

/-- The range of `int`. -/
def inInt (n : Int) : Bool := decide (-2147483648 ≤ n) && decide (n ≤ 2147483647)

/-- The loop of `StringUtils::hasBalancedBraces` from given values of the three
counters, and the `return` after it. The counters are of type `int`; `none`
stands for a signed overflow, on which the behaviour is undefined. -/
def hasBalancedBracesLoop (braceCount parenCount bracketCount : Int) :
    CppString → Option Bool
  | [] => some (braceCount == 0 && parenCount == 0 && bracketCount == 0)
  | c :: rest =>
    let braceCount1 :=
      if c = '\x7b' then braceCount + 1 else if c = '\x7d' then braceCount - 1 else braceCount
    let parenCount1 :=
      if c = '(' then parenCount + 1 else if c = ')' then parenCount - 1 else parenCount
    let bracketCount1 :=
      if c = '[' then bracketCount + 1 else if c = ']' then bracketCount - 1 else bracketCount
    if !(inInt braceCount1 && inInt parenCount1 && inInt bracketCount1) then none
    else if braceCount1 < 0 ∨ parenCount1 < 0 ∨ bracketCount1 < 0 then some false
    else hasBalancedBracesLoop braceCount1 parenCount1 bracketCount1 rest

/-- `StringUtils::hasBalancedBraces`. -/
def hasBalancedBraces (code : CppString) : Option Bool :=
  hasBalancedBracesLoop 0 0 0 code

end StringUtils

/-! ## `std::getline` -/

/-- The call `std::getline(std::cin, line)` on a stream whose unread part is
`inp`: whether the extraction succeeded, the line, and the unread part
afterwards. At end-of-file nothing is extracted, the call fails and the line
is empty. Otherwise the characters before the first newline are the line and
the newline is consumed; a last line without a newline is returned too and
leaves the stream at end-of-file. -/
def getline (inp : IStream) : Bool × CppString × IStream :=
  match inp with
  | [] => (false, [], [])
  | _ :: _ => (true, inp.takeWhile (fun c => c != '\n'), (inp.dropWhile (fun c => c != '\n')).tail)

/-! ## `Level` -/

/-- The console effects of `Level::play`, one constructor per printing or
reading step of the source. -/
inductive Event where
  /-- The call `displayStory()`. -/
  | displayStory
  /-- The call `displayConcept()`. -/
  | displayConcept
  /-- The call `showChallenge()`. -/
  | showChallenge
  /-- The banner `Attempt n/3`. -/
  | attemptBanner (n : Nat)
  /-- The call `getUserCode()`: the submission it returned and the part of the
  input it left unread. -/
  | getUserCode (code : CppString) (rest : IStream)
  /-- The call `validateSolution(code)` and its result. -/
  | validate (code : CppString) (ok : Bool)
  /-- The call `showFeedback(success, message)`. -/
  | showFeedback (success : Bool) (message : CppString)
  /-- The four lines of the retry / hint / solution menu. -/
  | menu
  /-- The menu line read by `std::getline(std::cin, choice)`. -/
  | choice (line : CppString)
  /-- The call `showHint()`. -/
  | showHint
  /-- The call `showSolution()`. -/
  | showSolution
  deriving DecidableEq, Repr

/-- The class `Level`: eight text fields, the validator and the flag. -/
structure Level where
  title_ : CppString
  story_ : CppString
  character_ : CppString
  dialogue_ : CppString
  concept_ : CppString
  conceptExplanation_ : CppString
  challenge_ : CppString
  reward_ : CppString
  validator_ : CppString → Bool
  completed_ : Bool

/-- What a call of `Level::play` leaves behind: the level, the unread input
and the console effects in order. -/
structure PlayResult where
  level : Level
  input : IStream
  trace : List Event

namespace Level

/-- The constructor `Level::Level`: the flag starts as `false`. -/
def new (title story character dialogue conceptName conceptExplanation challenge reward : CppString)
    (validator : CppString → Bool) : Level :=
  { title_ := title, story_ := story, character_ := character, dialogue_ := dialogue,
    concept_ := conceptName, conceptExplanation_ := conceptExplanation, challenge_ := challenge,
    reward_ := reward, validator_ := validator, completed_ := false }

/-- `Level::getReward`. -/
def getReward (l : Level) : CppString := l.reward_

/-- `Level::isCompleted`. -/
def isCompleted (l : Level) : Bool := l.completed_

/-- `Level::validateSolution`. -/
def validateSolution (l : Level) (code : CppString) : Bool := l.validator_ code

/-- The constant `maxAttempts` of `Level::play`. -/
def maxAttempts : Nat := 3

/-- The loop of `Level::getUserCode`:
`while (std::getline(std::cin, line) && line != "DONE") code += line + "\n";`
It returns the code and the unread input. -/
def getUserCodeLoop (code : CppString) (inp : IStream) : CppString × IStream :=
  if h : (getline inp).1 = true then
    if (getline inp).2.1 != "DONE".toList then
      getUserCodeLoop (code ++ ((getline inp).2.1 ++ "\n".toList)) (getline inp).2.2
    else (code, (getline inp).2.2)
  else (code, (getline inp).2.2)
termination_by inp.length
decreasing_by
  cases inp with
  | nil => simp [getline] at h
  | cons c t =>
    simp only [getline, List.length_tail]
    have h1 : ((c :: t).dropWhile (fun c => c != '\n')).length ≤ (c :: t).length :=
      (List.dropWhile_sublist _).length_le
    have h2 : 0 < (c :: t).length := by simp
    omega

/-- `Level::getUserCode`: the loop started on the empty code. -/
def getUserCode (inp : IStream) : CppString × IStream :=
  getUserCodeLoop [] inp

/-- The `while (attempts < maxAttempts && !completed_)` loop of `Level::play`,
entered with the current value of `attempts`. -/
def playLoop (l : Level) (attempts : Nat) (inp : IStream) : PlayResult :=
  if h : attempts < maxAttempts ∧ l.completed_ = false then
    let userCode := (getUserCode inp).1
    let inp1 := (getUserCode inp).2
    let head := [Event.attemptBanner (attempts + 1), Event.getUserCode userCode inp1]
    if l.validateSolution userCode then
      { level := { l with completed_ := true }, input := inp1,
        trace := head ++ [Event.validate userCode true,
          Event.showFeedback true ("🎉 Excellent! You've mastered ".toList ++ l.concept_ ++ "!".toList)] }
    else
      if attempts + 1 < maxAttempts then
        let choice := (getline inp1).2.1
        let inp2 := (getline inp1).2.2
        let asked := head ++ [Event.validate userCode false,
          Event.showFeedback false "🔧 Not quite right. Try again!".toList,
          Event.menu, Event.choice choice]
        if choice = "2".toList then
          let r := playLoop l (attempts + 1) inp2
          { r with trace := asked ++ [Event.showHint] ++ r.trace }
        else if choice = "3".toList then
          { level := { l with completed_ := true }, input := inp2,
            trace := asked ++ [Event.showSolution] }
        else
          let r := playLoop l (attempts + 1) inp2
          { r with trace := asked ++ r.trace }
      else
        let r := playLoop { l with completed_ := true } (attempts + 1) inp1
        { r with trace := head ++ [Event.validate userCode false,
            Event.showFeedback false "🤔 Don't worry! Let's see the solution.".toList,
            Event.showSolution] ++ r.trace }
  else { level := l, input := inp, trace := [] }
termination_by maxAttempts - attempts
decreasing_by all_goals omega

/-- `Level::play`: the three display calls, then the attempt loop from
`attempts = 0`. -/
def play (l : Level) (inp : IStream) : PlayResult :=
  let r := playLoop l 0 inp
  { r with trace := [Event.displayStory, Event.displayConcept, Event.showChallenge] ++ r.trace }

/-- `Level::getHintText`: the hint is looked up by the title. -/
def getHintText (l : Level) : CppString :=
  if l.title_ = "The Temple of Auto".toList then
    ("Use 'auto' for variable declarations and create a lambda " ++
     "like: auto lambda = [](auto x) \x7b return x * 2; \x7d;").toList
  else if l.title_ = "The Lambda Sanctuary".toList then
    ("Use generalized capture: [p = std::move(ptr)](auto x) \x7b " ++
     "return *p * x; \x7d").toList
  else if l.title_ = "The Smart Pointer Forge".toList then
    ("Use std::make_unique<int>(42) and " ++
     "std::make_shared<string>(\"Hello\")").toList
  else if l.title_ = "The Valley of Move Semantics".toList then
    ("Create a template function with T&& parameter and use " ++
     "std::forward<T>(arg)").toList
  else if l.title_ = "The Citadel of Structured Bindings".toList then
    ("Use auto [a, b] = std::make_pair(42, \"Hello\"); and if " ++
     "constexpr (condition)").toList
  else "Think about the modern C++ features introduced in C++14/17!".toList

/-- `Level::getSolutionText`: the reference solution is looked up by the title. -/
def getSolutionText (l : Level) : CppString :=
  if l.title_ = "The Temple of Auto".toList then
    ("#include <iostream>\n" ++
     "#include <string>\n" ++
     "\n" ++
     "int main() \x7b\n" ++
     "    auto number = 42;\n" ++
     "    auto text = \"Hello C++14\";\n" ++
     "    auto lambda = [](auto x) \x7b return x * 2; \x7d;\n" ++
     "    auto result = lambda(5);\n" ++
     "    \n" ++
     "    std::cout << \"Number: \" << number << std::endl;\n" ++
     "    std::cout << \"Text: \" << text << std::endl;\n" ++
     "    std::cout << \"Lambda result: \" << result << std::endl;\n" ++
     "    \n" ++
     "    return 0;\n" ++
     "\x7d").toList
  else if l.title_ = "The Lambda Sanctuary".toList then
    ("#include <iostream>\n" ++
     "#include <memory>\n" ++
     "\n" ++
     "int main() \x7b\n" ++
     "    auto ptr = std::make_unique<int>(42);\n" ++
     "    auto lambda = [p = std::move(ptr)](auto multiplier) \x7b\n" ++
     "        return *p * multiplier;\n" ++
     "    \x7d;\n" ++
     "    auto result = lambda(3);\n" ++
     "    \n" ++
     "    std::cout << \"Result: \" << result << std::endl;\n" ++
     "    \n" ++
     "    return 0;\n" ++
     "\x7d").toList
  else if l.title_ = "The Smart Pointer Forge".toList then
    ("#include <iostream>\n" ++
     "#include <memory>\n" ++
     "#include <string>\n" ++
     "\n" ++
     "int main() \x7b\n" ++
     "    auto unique = std::make_unique<int>(42);\n" ++
     "    auto shared1 = std::make_shared<std::string>(\"Hello\");\n" ++
     "    auto shared2 = shared1; // shared ownership\n" ++
     "    \n" ++
     "    std::cout << *unique << \" \" << *shared1 << std::endl;\n" ++
     "    std::cout << \"Shared count: \" << shared1.use_count() << " ++
     "std::endl;\n" ++
     "    \n" ++
     "    return 0;\n" ++
     "\x7d").toList
  else if l.title_ = "The Valley of Move Semantics".toList then
    ("#include <iostream>\n" ++
     "#include <utility>\n" ++
     "#include <string>\n" ++
     "\n" ++
     "template<typename T>\n" ++
     "auto wrapper(T&& arg) \x7b\n" ++
     "    return std::forward<T>(arg);\n" ++
     "\x7d\n" ++
     "\n" ++
     "int main() \x7b\n" ++
     "    auto result = wrapper(std::string(\"moved\"));\n" ++
     "    auto moved = std::move(result);\n" ++
     "    \n" ++
     "    std::cout << \"Forwarded: \" << moved << std::endl;\n" ++
     "    \n" ++
     "    return 0;\n" ++
     "\x7d").toList
  else if l.title_ = "The Citadel of Structured Bindings".toList then
    ("#include <iostream>\n" ++
     "#include <utility>\n" ++
     "#include <type_traits>\n" ++
     "\n" ++
     "template<typename T>\n" ++
     "auto process(T value) \x7b\n" ++
     "    if constexpr (std::is_integral_v<T>) \x7b\n" ++
     "        return value * 2;\n" ++
     "    \x7d else \x7b\n" ++
     "        return value;\n" ++
     "    \x7d\n" ++
     "\x7d\n" ++
     "\n" ++
     "int main() \x7b\n" ++
     "    auto pair = std::make_pair(42, \"Hello\");\n" ++
     "    auto [number, text] = pair;\n" ++
     "    \n" ++
     "    std::cout << \"Number: \" << number << std::endl;\n" ++
     "    std::cout << \"Text: \" << text << std::endl;\n" ++
     "    \n" ++
     "    auto processed = process(number);\n" ++
     "    std::cout << \"Processed: \" << processed << std::endl;\n" ++
     "    \n" ++
     "    return 0;\n" ++
     "\x7d").toList
  else "// Solution not available for this level".toList

/-- The submissions graded in a trace, each with its result, in order. -/
def gradings : List Event → List (CppString × Bool)
  | [] => []
  | Event.validate code ok :: rest => (code, ok) :: gradings rest
  | _ :: rest => gradings rest

end Level

/-! ## `double` arithmetic

A finite `double` is modelled by the rational number it denotes. An
arithmetic operation returns the exact result rounded to the nearest value
with a 53-bit significand, ties to the even significand, as IEEE 754
prescribes. Overflow and the subnormal range are not modelled: the quotient
of two `size_t` values and a hundred times it lie in the normal range. -/

namespace Double

/-- The integer nearest to `q`, the even one of the two at a tie. -/
def roundHalfEven (q : ℚ) : ℤ :=
  if q - ⌊q⌋ < 1 / 2 then ⌊q⌋
  else if 1 / 2 < q - ⌊q⌋ then ⌊q⌋ + 1
  else if ⌊q⌋ % 2 = 0 then ⌊q⌋ else ⌊q⌋ + 1

/-- The `double` nearest to the real number `q`: with `2 ^ e ≤ |q| < 2 ^ (e + 1)`,
the multiple of `2 ^ (e - 52)` nearest to `q`. -/
def nearest (q : ℚ) : ℚ :=
  if q = 0 then 0
  else (roundHalfEven (q / 2 ^ (Int.log 2 |q| - 52)) : ℚ) * 2 ^ (Int.log 2 |q| - 52)

/-- The conversion of a `size_t` to `double`. -/
def ofNat (n : Nat) : ℚ := nearest (n : ℚ)

/-- The division of two `double` values, the divisor not zero. -/
def div (a b : ℚ) : ℚ := nearest (a / b)

/-- The product of two `double` values. -/
def mul (a b : ℚ) : ℚ := nearest (a * b)

end Double

/-! ## `GameEngine` -/

/-- The class `GameEngine`: the levels, the inventory and the index of the
current level (a `size_t`, which never leaves `[0, levels_.size()]`). -/
structure GameEngine where
  levels_ : List Level
  inventory_ : List CppString
  currentLevel_ : Nat

/-- The places of `GameEngine::run` at which the engine state is recorded. -/
inductive Point where
  /-- The condition of the `while` loop is about to be evaluated. -/
  | loopTest
  /-- The call `playLevel(currentLevel_)` has just returned. -/
  | afterPlayLevel
  /-- The function `run` returns. -/
  | exit
  deriving DecidableEq, Repr

/-- The console effects of `GameEngine::run`, together with the engine states
it passes through. A state is recorded after every change of `inventory_` or
`currentLevel_`; in between, only the `completed_` flag of the level that is
being played changes. -/
inductive EngineEvent where
  /-- The call `showWelcome()`. -/
  | showWelcome
  /-- The engine state at a place of `run`. -/
  | state (p : Point) (g : GameEngine)
  /-- A console effect of `Level::play`. -/
  | level (e : Event)
  /-- The line `Level completed! You earned: reward`. -/
  | levelCompleted (reward : CppString)
  /-- The line `Progress: p%`. -/
  | showProgress (percentage : ℚ)
  /-- The listing printed by `showInventory()` for a non-empty inventory. -/
  | showInventory (items : List CppString)
  /-- The call `askYesNo(question)`: the line read and the answer. -/
  | askYesNo (response : CppString) (answer : Bool)
  /-- The call `clearScreen()`. -/
  | clearScreen
  /-- The line `Game saved! Thanks for playing!`. -/
  | saved
  /-- The call `showVictory()`, which lists the inventory. -/
  | showVictory (items : List CppString)

/-- What a call on the engine leaves behind: the engine, the unread input and
the effects in order. -/
structure EngineResult where
  engine : GameEngine
  input : IStream
  trace : List EngineEvent

/-- What the loop of `run` leaves behind; `returned` tells that the loop was
left by the `return` statement in its body. -/
structure LoopResult extends EngineResult where
  returned : Bool

namespace GameEngine

/-- The validator of level 1, the lambda passed at lines 50-53. -/
def validator1 (code : CppString) : Bool :=
  StringUtils.containsAll code ["auto".toList, "lambda".toList, "[]".toList] ||
  StringUtils.containsAll code ["auto".toList, "[".toList, "auto".toList]

/-- The validator of level 2. -/
def validator2 (code : CppString) : Bool :=
  StringUtils.containsAll code ["auto".toList, "std::move".toList, "unique_ptr".toList] ||
  StringUtils.contains code "= std::move".toList

/-- The validator of level 3. -/
def validator3 (code : CppString) : Bool :=
  StringUtils.containsAll code ["make_unique".toList, "make_shared".toList] ||
  StringUtils.contains code "std::make_unique".toList

/-- The validator of level 4. -/
def validator4 (code : CppString) : Bool :=
  StringUtils.containsAll code ["std::forward".toList, "&&".toList] ||
  StringUtils.containsAll code ["forward".toList, "template".toList]

/-- The validator of level 5. -/
def validator5 (code : CppString) : Bool :=
  StringUtils.containsAll code ["auto [".toList, "] =".toList] ||
  StringUtils.contains code "if constexpr".toList

/-- Level 1 as built by `initializeLevels`. -/
def level1 : Level :=
  Level.new "The Temple of Auto".toList
    ("🏛️ You enter an ancient temple where the Oracle of Types dwells. " ++
     "The walls are covered with cryptic C++ symbols, and the air shimmers with template magic.").toList
    "🔮 Oracle of Types".toList
    ("Welcome, young programmer! The age of verbose type declarations is ending. " ++
     "I shall teach you the power of 'auto' - let the compiler deduce types for you!").toList
    "Auto Type Deduction (C++14)".toList
    ("The 'auto' keyword lets the compiler automatically deduce variable types. " ++
     "C++14 extended this to function return types and lambda parameters.").toList
    "Create variables using auto and show a generic lambda with auto parameters.".toList
    "📜 Auto Deduction Scroll".toList
    validator1

/-- Level 2 as built by `initializeLevels`. -/
def level2 : Level :=
  Level.new "The Lambda Sanctuary".toList
    ("🌟 Deep in the Lambda Sanctuary, you find a mysterious altar surrounded by floating code fragments. " ++
     "The Guardian of Closures materializes before you.").toList
    "👻 Guardian of Closures".toList
    ("Ah, a seeker of functional wisdom! Lambdas are the soul of modern C++. " ++
     "Show me you understand capture by value, reference, and generalized capture!").toList
    "Advanced Lambdas (C++14)".toList
    "C++14 introduced generalized capture (init capture) allowing you to move variables into lambdas.".toList
    "Create a lambda with generalized capture that moves a unique_ptr.".toList
    "🏅 Lambda Mastery Badge".toList
    validator2

/-- Level 3 as built by `initializeLevels`. -/
def level3 : Level :=
  Level.new "The Smart Pointer Forge".toList
    ("🔨 You arrive at an ancient forge where Smart Pointers are crafted. " ++
     "The Master Smith challenges you to prove your worth.").toList
    "🧙‍♂️ Master Smith".toList
    ("Raw pointers are the bane of C++! Here we craft smart pointers that manage memory automatically. " ++
     "Show me you can wield unique_ptr, shared_ptr, and make_unique!").toList
    "Smart Pointers & make_unique (C++14)".toList
    "C++14 introduced std::make_unique. Smart pointers automatically manage memory.".toList
    "Create and use smart pointers with make_unique and make_shared.".toList
    "🛡️ Memory Guardian Shield".toList
    validator3

/-- Level 4 as built by `initializeLevels`. -/
def level4 : Level :=
  Level.new "The Valley of Move Semantics".toList
    ("🏔️ In the Valley of Move Semantics, you encounter the Spirit of Efficiency. " ++
     "Ancient runes speak of perfect forwarding and std::forward.").toList
    "⚡ Spirit of Efficiency".toList
    ("Performance is everything! Learn to move resources instead of copying them. " ++
     "Master std::move, std::forward, and perfect forwarding!").toList
    "Move Semantics & Perfect Forwarding (C++14/17)".toList
    "Move semantics transfer resources instead of copying. Perfect forwarding preserves value categories.".toList
    "Implement a function template with perfect forwarding using std::forward.".toList
    "🚀 Move Semantics Mastery".toList
    validator4

/-- Level 5 as built by `initializeLevels`. -/
def level5 : Level :=
  Level.new "The Citadel of Structured Bindings".toList
    ("🏰 At the peak of your journey, you reach the Citadel of Structured Bindings. " ++
     "The C++17 Archmaster awaits with the most modern features.").toList
    "👑 C++17 Archmaster".toList
    ("Welcome to the pinnacle of modern C++! Here we unpack tuples, decompose pairs, " ++
     "and use structured bindings with elegant syntax!").toList
    "Modern C++17 Features".toList
    "C++17 introduced structured bindings, if constexpr, and fold expressions.".toList
    "Use structured bindings to unpack a pair and if constexpr for compile-time conditionals.".toList
    "👑 C++17 Grandmaster Crown".toList
    validator5

/-- `GameEngine::initializeLevels`: five `push_back` calls. -/
def initializeLevels (g : GameEngine) : GameEngine :=
  { g with levels_ := g.levels_ ++ [level1] ++ [level2] ++ [level3] ++ [level4] ++ [level5] }

/-- The constructor `GameEngine::GameEngine`. -/
def new : GameEngine :=
  initializeLevels { levels_ := [], inventory_ := [], currentLevel_ := 0 }

/-- `GameEngine::isGameComplete`. -/
def isGameComplete (g : GameEngine) : Bool :=
  decide (g.currentLevel_ ≥ g.levels_.length)

/-- `GameEngine::addToInventory`. -/
def addToInventory (g : GameEngine) (item : CppString) : GameEngine :=
  { g with inventory_ := g.inventory_ ++ [item] }

/-- `GameEngine::getProgressPercentage`:
`(static_cast<double>(currentLevel_) / levels_.size()) * 100.0`, the result
given as the rational number that the `double` denotes. -/
def getProgressPercentage (g : GameEngine) : ℚ :=
  if g.levels_.isEmpty then 0
  else Double.mul (Double.div (Double.ofNat g.currentLevel_) (Double.ofNat g.levels_.length)) 100

/-- `GameEngine::showInventory`: nothing for an empty inventory. -/
def showInventory (g : GameEngine) : List EngineEvent :=
  if g.inventory_.isEmpty then [] else [EngineEvent.showInventory g.inventory_]

/-- `GameEngine::waitForInput`: `std::cin.ignore()` discards one character. -/
def waitForInput (inp : IStream) : IStream := inp.tail

/-- `GameEngine::askYesNo`: the answer and the unread input. -/
def askYesNo (inp : IStream) : Bool × IStream :=
  let response := (getline inp).2.1
  (match response with
   | [] => false
   | c :: _ => c == 'y' || c == 'Y',
   (getline inp).2.2)

/-- `GameEngine::playLevel`. -/
def playLevel (g : GameEngine) (levelIndex : Nat) (inp : IStream) : EngineResult :=
  if h : levelIndex ≥ g.levels_.length then
    { engine := g, input := inp, trace := [] }
  else
    let r := Level.play (g.levels_.get ⟨levelIndex, by omega⟩) inp
    let g1 := { g with levels_ := g.levels_.set levelIndex r.level }
    if r.level.isCompleted then
      { engine := addToInventory g1 r.level.getReward, input := r.input,
        trace := r.trace.map EngineEvent.level ++ [EngineEvent.levelCompleted r.level.getReward] }
    else
      { engine := g1, input := r.input, trace := r.trace.map EngineEvent.level }

/-- The `while (!isGameComplete())` loop of `GameEngine::run`. -/
def runLoop (g : GameEngine) (inp : IStream) : LoopResult :=
  if h : g.isGameComplete = false then
    let r := g.playLevel g.currentLevel_ inp
    let played := [EngineEvent.state Point.loopTest g] ++ r.trace ++
      [EngineEvent.state Point.afterPlayLevel r.engine]
    if h2 : r.engine.currentLevel_ < r.engine.levels_.length then
      let shown := played ++ [EngineEvent.showProgress r.engine.getProgressPercentage] ++
        r.engine.showInventory ++
        [EngineEvent.askYesNo (getline r.input).2.1 (askYesNo r.input).1]
      if (askYesNo r.input).1 then
        let r2 := runLoop { r.engine with currentLevel_ := r.engine.currentLevel_ + 1 }
          (askYesNo r.input).2
        { r2 with trace := shown ++ [EngineEvent.clearScreen] ++ r2.trace }
      else
        { engine := r.engine, input := (askYesNo r.input).2,
          trace := shown ++ [EngineEvent.saved], returned := true }
    else
      let r2 := runLoop r.engine r.input
      { r2 with trace := played ++ r2.trace }
  else
    { engine := g, input := inp, trace := [EngineEvent.state Point.loopTest g], returned := false }
termination_by g.levels_.length - g.currentLevel_
decreasing_by
  all_goals
    have hl : (g.playLevel g.currentLevel_ inp).engine.levels_.length = g.levels_.length := by
      unfold playLevel addToInventory
      split
      · rfl
      · dsimp only
        split <;> simp
    have hc : (g.playLevel g.currentLevel_ inp).engine.currentLevel_ = g.currentLevel_ := by
      unfold playLevel addToInventory
      split
      · rfl
      · dsimp only
        split <;> simp
    simp only [isGameComplete, decide_eq_false_iff_not, not_le, ge_iff_le] at h
    simp only [r, hl, hc] at h2 ⊢
    omega

/-- `GameEngine::run`: the welcome screen, the loop, and the victory screen
unless the loop was left by `return`. -/
def run (g : GameEngine) (inp : IStream) : EngineResult :=
  let r := runLoop g (waitForInput inp)
  if r.returned then
    { engine := r.engine, input := r.input,
      trace := [EngineEvent.showWelcome] ++ r.trace ++ [EngineEvent.state Point.exit r.engine] }
  else
    { engine := r.engine, input := r.input,
      trace := [EngineEvent.showWelcome] ++ r.trace ++
        [EngineEvent.showVictory r.engine.inventory_, EngineEvent.state Point.exit r.engine] }

/-- The answers given to the continue prompt in a trace, in order. -/
def answers : List EngineEvent → List Bool
  | [] => []
  | EngineEvent.askYesNo _ answer :: rest => answer :: answers rest
  | _ :: rest => answers rest

/-- The engine states recorded in a trace, in order. -/
def states : List EngineEvent → List GameEngine
  | [] => []
  | EngineEvent.state _ g :: rest => g :: states rest
  | _ :: rest => states rest

end GameEngine

/-! ## `GameUtils`: configuration and progress files

The file system is left out: `save_game_progress` is the text it hands to
`write_file`, and `load_game_progress` starts from what `read_file` returned.
The text form of a `double` belongs to the standard library and is a
parameter. -/

namespace GameUtils

/-- The exceptions that `std::stoi` and `std::stod` throw. -/
inductive Exception where
  /-- `std::invalid_argument`: no conversion could be performed. -/
  | invalid_argument
  /-- `std::out_of_range`: the value does not fit the result type. -/
  | out_of_range
  deriving DecidableEq, Repr

/-- `isspace` in the "C" locale. -/
def isspace (c : Char) : Bool :=
  c == ' ' || c == '\t' || c == '\n' || c == '\x0b' || c == '\x0c' || c == '\r'

/-- The value of a string of decimal digits. -/
def digitsValue (ds : CppString) : Nat :=
  ds.foldl (fun acc c => 10 * acc + (c.toNat - '0'.toNat)) 0

/-- `std::stoi(str)`: as `strtol` in base 10 it skips white space, reads an
optional sign and the longest run of decimal digits, and ignores what
follows; with no digit it throws `invalid_argument`, with a value outside
`int` it throws `out_of_range`. -/
def stoi (str : CppString) : Except Exception Int :=
  let s1 := str.dropWhile isspace
  let negative := s1.head? == some '-'
  let s2 := if s1.head? == some '-' || s1.head? == some '+' then s1.tail else s1
  let digits := s2.takeWhile Char.isDigit
  if digits.isEmpty then Except.error Exception.invalid_argument
  else
    let v : Int := if negative then -(digitsValue digits : Int) else (digitsValue digits : Int)
    if v < -2147483648 ∨ 2147483647 < v then Except.error Exception.out_of_range
    else Except.ok v

/-- The text that `operator<<` writes for an `int`. -/
def intToString (n : Int) : CppString :=
  if n < 0 then '-' :: Nat.toDigits 10 n.natAbs else Nat.toDigits 10 n.natAbs

/-- The text form of `double`: the value `0.0`, the text that `operator<<`
writes for a value, and `std::stod`. -/
structure DoubleText (D : Type) where
  zero : D
  put : D → CppString
  stod : CppString → Except Exception D

/-- The struct `GameConfig`; the map is given by its lookup. -/
structure GameConfig where
  settings : CppString → Option CppString

namespace GameConfig

/-- `GameConfig::get_string`. -/
def get_string (c : GameConfig) (key default_value : CppString) : CppString :=
  match c.settings key with
  | some value => value
  | none => default_value

/-- `GameConfig::get_bool`. -/
def get_bool (c : GameConfig) (key : CppString) (default_value : Bool) : Bool :=
  match c.settings key with
  | some value =>
    value == "true".toList || value == "1".toList || value == "yes".toList ||
      value == "on".toList
  | none => default_value

end GameConfig

/-- The struct `GameProgress`, over the type `D` of `double` values. -/
structure GameProgress (D : Type) where
  player_name : CppString
  current_level : Int
  experience : D
  completed_levels : Int
  inventory : List CppString

namespace FileUtils

/-- The default constructor `GameProgress()`. -/
def newProgress {D : Type} (dt : DoubleText D) : GameProgress D :=
  { player_name := [], current_level := 0, experience := dt.zero, completed_levels := 0,
    inventory := [] }

/-- `FileUtils::save_game_progress`: the text that is handed to `write_file`. -/
def save_game_progress {D : Type} (dt : DoubleText D) (progress : GameProgress D) : CppString :=
  "# C++ Code Quest Save File\n".toList ++
  ("player_name=".toList ++ progress.player_name ++ "\n".toList) ++
  ("current_level=".toList ++ intToString progress.current_level ++ "\n".toList) ++
  ("experience=".toList ++ dt.put progress.experience ++ "\n".toList) ++
  ("completed_levels=".toList ++ intToString progress.completed_levels ++ "\n".toList) ++
  "# Inventory items\n".toList ++
  progress.inventory.flatMap (fun item => "inventory_item=".toList ++ item ++ "\n".toList)

/-- The call `line.find(c)`: the index of the first `c`, `none` for `npos`. -/
def findChar (line : CppString) (c : Char) : Option Nat :=
  if c ∈ line then some (line.indexOf c) else none

/-- The body of the `while` loop of `load_game_progress`, on one line. -/
def load_game_progress_line {D : Type} (dt : DoubleText D) (progress : GameProgress D)
    (line : CppString) : Except Exception (GameProgress D) :=
  if line.isEmpty || line.head? == some '#' then Except.ok progress
  else
    match findChar line '=' with
    | none => Except.ok progress
    | some pos =>
      let key := line.take pos
      let value := line.drop (pos + 1)
      if key = "player_name".toList then
        Except.ok { progress with player_name := value }
      else if key = "current_level".toList then
        match stoi value with
        | Except.ok v => Except.ok { progress with current_level := v }
        | Except.error e => Except.error e
      else if key = "experience".toList then
        match dt.stod value with
        | Except.ok v => Except.ok { progress with experience := v }
        | Except.error e => Except.error e
      else if key = "completed_levels".toList then
        match stoi value with
        | Except.ok v => Except.ok { progress with completed_levels := v }
        | Except.error e => Except.error e
      else if key = "inventory_item".toList then
        Except.ok { progress with inventory := progress.inventory ++ [value] }
      else Except.ok progress

/-- The loop `while (std::getline(iss, line))` of `load_game_progress`. -/
def load_game_progress_loop {D : Type} (dt : DoubleText D) (progress : GameProgress D)
    (content : IStream) : Except Exception (GameProgress D) :=
  if h : (getline content).1 = true then
    match load_game_progress_line dt progress (getline content).2.1 with
    | Except.ok next => load_game_progress_loop dt next (getline content).2.2
    | Except.error e => Except.error e
  else Except.ok progress
termination_by content.length
decreasing_by
  cases content with
  | nil => simp [getline] at h
  | cons c t =>
    simp only [getline, List.length_tail]
    have h1 : ((c :: t).dropWhile (fun c => c != '\n')).length ≤ (c :: t).length :=
      (List.dropWhile_sublist _).length_le
    have h2 : 0 < (c :: t).length := by simp
    omega

/-- `FileUtils::load_game_progress`, from the result of `read_file`: `none`
for a file that could not be read. An exception leaves the function. -/
def load_game_progress {D : Type} (dt : DoubleText D) (content : Option CppString) :
    Except Exception (Option (GameProgress D)) :=
  match content with
  | none => Except.ok none
  | some text =>
    match load_game_progress_loop dt (newProgress dt) text with
    | Except.ok progress => Except.ok (some progress)
    | Except.error e => Except.error e

/-- The content of a text file given by its lines, each line followed by a
newline character. -/
def joinLines (ls : List CppString) : CppString :=
  ls.flatMap (fun l => l ++ ['\n'])

/-- The text form of `double` restricted to the one value `0.0`, which
`operator<<` writes as `0` and `std::stod` reads back from `0`; other texts
are outside this instance. It serves for concrete files whose experience is
zero. -/
def zeroText : DoubleText Unit where
  zero := ()
  put := fun _ => "0".toList
  stod := fun s => if s = "0".toList then Except.ok () else Except.error Exception.invalid_argument

/-- Two values of type `double`: `0.0` and `DBL_MIN`, the least positive normal
value, `2.2250738585072014e-308`. -/
inductive SampleDouble where
  | zero
  | dblMin
  deriving DecidableEq, Repr

/-- The text form of `double` restricted to the values of `SampleDouble`.
With its default six significant digits `operator<<` writes `0.0` as `0` and
`DBL_MIN` as `2.22507e-308`. The second text denotes a number below `DBL_MIN`:
`strtod` reports `ERANGE` on it and `std::stod` throws `out_of_range`. Other
texts are outside this instance. -/
def sampleText : DoubleText SampleDouble where
  zero := SampleDouble.zero
  put := fun x =>
    match x with
    | SampleDouble.zero => "0".toList
    | SampleDouble.dblMin => "2.22507e-308".toList
  stod := fun s =>
    if s = "0".toList then Except.ok SampleDouble.zero
    else if s = "2.22507e-308".toList then Except.error Exception.out_of_range
    else Except.error Exception.invalid_argument

end FileUtils

end GameUtils

/-! ## The string matcher -/

namespace StringUtils

theorem findAux_isSome_iff (sub s : CppString) (pos : Nat) :
    (findAux sub s pos).isSome = true ↔ sub <:+: s := by
  induction s generalizing pos with
  | nil =>
    cases sub <;> simp [findAux, List.isPrefixOf]
  | cons c t ih =>
    rw [findAux, List.infix_cons_iff]
    by_cases hp : sub.isPrefixOf (c :: t) = true
    · simp [hp, List.isPrefixOf_iff_prefix.mp hp]
    · have hn : ¬ sub <+: c :: t := fun h => hp (List.isPrefixOf_iff_prefix.mpr h)
      simp [hp, hn, ih]

/-- `contains` decides whether the needle occurs as a contiguous block. -/
theorem contains_iff_occurs (str substr : CppString) :
    contains str substr = true ↔ substr <:+: str := by
  rw [← findAux_isSome_iff substr str 0]
  simp [contains, find, Option.isSome_iff_ne_none]

theorem containsAll_iff_forall (str : CppString) (needles : List CppString) :
    containsAll str needles = true ↔ ∀ n ∈ needles, contains str n = true := by
  induction needles with
  | nil => simp [containsAll]
  | cons n rest ih =>
    by_cases hn : contains str n = true
    · simp [containsAll, hn, ih]
    · simp [containsAll, hn]

theorem containsAny_iff_exists (str : CppString) (needles : List CppString) :
    containsAny str needles = true ↔ ∃ n ∈ needles, contains str n = true := by
  induction needles with
  | nil => simp [containsAny]
  | cons n rest ih =>
    by_cases hn : contains str n = true
    · simp [containsAny, hn]
    · simp [containsAny, hn, ih]

/-- C1: `containsAll(s, needles)` is true exactly when `contains(s, n)` is true
for every needle `n`, and `containsAll(s, [])` is true. -/
theorem containsAll_spec (s : CppString) (needles : List CppString) :
    (containsAll s needles = true ↔ ∀ n ∈ needles, contains s n = true) ∧
    containsAll s [] = true :=
  ⟨containsAll_iff_forall s needles, rfl⟩

/-- C2: `containsAny(s, needles)` is true exactly when at least one needle
occurs in `s` as a contiguous block of characters, compared character by
character, and `containsAny(s, [])` is false. -/
theorem containsAny_spec (s : CppString) (needles : List CppString) :
    (containsAny s needles = true ↔ ∃ n ∈ needles, n <:+: s) ∧
    containsAny s [] = false := by
  refine ⟨?_, rfl⟩
  rw [containsAny_iff_exists]
  simp only [contains_iff_occurs]

end StringUtils

namespace GameEngine

/-- C7, refuted as stated: the validator of the first challenge, `The Temple
of Auto`, does not return `false` on the submission
`auto x = [](auto y){ return y; };`. -/
theorem validator1_generic_lambda_not_rejected :
    (new.levels_.head?).map
        (fun l => (l.title_, l.validateSolution "auto x = [](auto y){ return y; };".toList)) ≠
      some ("The Temple of Auto".toList, false) := by
  decide

/-- C7, amended: the validator of the first challenge, `The Temple of Auto`,
returns `true` on the submission `auto x = [](auto y){ return y; };`: its
first alternative fails for want of `lambda`, its second alternative holds
because `auto` and `[` both occur. -/
theorem validator1_generic_lambda_accepted :
    (new.levels_.head?).map
        (fun l => (l.title_, l.validateSolution "auto x = [](auto y){ return y; };".toList)) =
      some ("The Temple of Auto".toList, true) ∧
    StringUtils.containsAll "auto x = [](auto y){ return y; };".toList
      ["auto".toList, "lambda".toList, "[]".toList] = false ∧
    StringUtils.containsAll "auto x = [](auto y){ return y; };".toList
      ["auto".toList, "[".toList, "auto".toList] = true := by
  decide

/-- C8: a submission in which both `std::forward` and `&&` occur passes the
validator of the challenge at curriculum index 3, `The Valley of Move
Semantics`. -/
theorem validator4_forward_and_rvalue_ref (s : CppString)
    (h1 : "std::forward".toList <:+: s) (h2 : "&&".toList <:+: s) :
    (new.levels_.get? 3).map (fun l => (l.title_, l.validateSolution s)) =
      some ("The Valley of Move Semantics".toList, true) := by
  have hall : StringUtils.containsAll s ["std::forward".toList, "&&".toList] = true := by
    rw [StringUtils.containsAll_iff_forall]
    intro n hn
    simp only [List.mem_cons, List.mem_singleton, List.not_mem_nil, or_false] at hn
    rcases hn with rfl | rfl
    · exact (StringUtils.contains_iff_occurs _ _).mpr h1
    · exact (StringUtils.contains_iff_occurs _ _).mpr h2
  have hv : level4.validateSolution s = true := by
    show validator4 s = true
    unfold validator4
    rw [hall, Bool.true_or]
  have hl : new.levels_.get? 3 = some level4 := rfl
  rw [hl, Option.map_some', hv]
  rfl

theorem validator4_forward_and_rvalue_ref_witness :
    "std::forward".toList <:+: "f(T&& a) { g(std::forward<T>(a)); }".toList ∧
    "&&".toList <:+: "f(T&& a) { g(std::forward<T>(a)); }".toList ∧
    (new.levels_.get? 3).map
        (fun l => (l.title_, l.validateSolution "f(T&& a) { g(std::forward<T>(a)); }".toList)) =
      some ("The Valley of Move Semantics".toList, true) :=
  have h1 : "std::forward".toList <:+: "f(T&& a) { g(std::forward<T>(a)); }".toList :=
    (StringUtils.contains_iff_occurs _ _).mp (by decide)
  have h2 : "&&".toList <:+: "f(T&& a) { g(std::forward<T>(a)); }".toList :=
    (StringUtils.contains_iff_occurs _ _).mp (by decide)
  ⟨h1, h2, validator4_forward_and_rvalue_ref _ h1 h2⟩

end GameEngine

namespace Level

/-! ## The attempt loop -/

theorem playLoop_exit (l : Level) (a : Nat) (inp : IStream)
    (h : ¬ (a < maxAttempts ∧ l.completed_ = false)) :
    playLoop l a inp = { level := l, input := inp, trace := [] } := by
  rw [playLoop, dif_neg h]

theorem playLoop_success (l : Level) (a : Nat) (inp : IStream)
    (ha : a < maxAttempts) (hc : l.completed_ = false)
    (hv : l.validateSolution (getUserCode inp).1 = true) :
    playLoop l a inp =
      { level := { l with completed_ := true }, input := (getUserCode inp).2,
        trace := [Event.attemptBanner (a + 1),
          Event.getUserCode (getUserCode inp).1 (getUserCode inp).2,
          Event.validate (getUserCode inp).1 true,
          Event.showFeedback true
            ("🎉 Excellent! You've mastered ".toList ++ l.concept_ ++ "!".toList)] } := by
  rw [playLoop, dif_pos ⟨ha, hc⟩]
  simp only [hv, if_true, List.cons_append, List.nil_append]

theorem playLoop_hint (l : Level) (a : Nat) (inp : IStream)
    (ha : a + 1 < maxAttempts) (hc : l.completed_ = false)
    (hv : l.validateSolution (getUserCode inp).1 = false)
    (h2 : (getline (getUserCode inp).2).2.1 = "2".toList) :
    playLoop l a inp =
      { playLoop l (a + 1) (getline (getUserCode inp).2).2.2 with
        trace := Event.attemptBanner (a + 1) ::
          Event.getUserCode (getUserCode inp).1 (getUserCode inp).2 ::
          Event.validate (getUserCode inp).1 false ::
          Event.showFeedback false "🔧 Not quite right. Try again!".toList ::
          Event.menu :: Event.choice "2".toList :: Event.showHint ::
          (playLoop l (a + 1) (getline (getUserCode inp).2).2.2).trace } := by
  rw [playLoop, dif_pos ⟨by omega, hc⟩]
  simp only [hv, ha, h2, if_true, List.cons_append, List.nil_append, List.append_assoc]
  simp

theorem playLoop_solution (l : Level) (a : Nat) (inp : IStream)
    (ha : a + 1 < maxAttempts) (hc : l.completed_ = false)
    (hv : l.validateSolution (getUserCode inp).1 = false)
    (h3 : (getline (getUserCode inp).2).2.1 = "3".toList) :
    playLoop l a inp =
      { level := { l with completed_ := true }, input := (getline (getUserCode inp).2).2.2,
        trace := [Event.attemptBanner (a + 1),
          Event.getUserCode (getUserCode inp).1 (getUserCode inp).2,
          Event.validate (getUserCode inp).1 false,
          Event.showFeedback false "🔧 Not quite right. Try again!".toList,
          Event.menu, Event.choice "3".toList, Event.showSolution] } := by
  rw [playLoop, dif_pos ⟨by omega, hc⟩]
  simp only [hv, ha, h3, if_true, List.cons_append, List.nil_append, List.append_assoc]
  simp

theorem playLoop_retry (l : Level) (a : Nat) (inp : IStream)
    (ha : a + 1 < maxAttempts) (hc : l.completed_ = false)
    (hv : l.validateSolution (getUserCode inp).1 = false)
    (h2 : (getline (getUserCode inp).2).2.1 ≠ "2".toList)
    (h3 : (getline (getUserCode inp).2).2.1 ≠ "3".toList) :
    playLoop l a inp =
      { playLoop l (a + 1) (getline (getUserCode inp).2).2.2 with
        trace := Event.attemptBanner (a + 1) ::
          Event.getUserCode (getUserCode inp).1 (getUserCode inp).2 ::
          Event.validate (getUserCode inp).1 false ::
          Event.showFeedback false "🔧 Not quite right. Try again!".toList ::
          Event.menu :: Event.choice (getline (getUserCode inp).2).2.1 ::
          (playLoop l (a + 1) (getline (getUserCode inp).2).2.2).trace } := by
  rw [playLoop, dif_pos ⟨by omega, hc⟩]
  simp only [hv, ha, h2, h3, if_true, if_false, List.cons_append, List.nil_append,
    List.append_assoc]
  simp

theorem playLoop_reveal (l : Level) (a : Nat) (inp : IStream)
    (ha : a < maxAttempts) (ha1 : ¬ a + 1 < maxAttempts) (hc : l.completed_ = false)
    (hv : l.validateSolution (getUserCode inp).1 = false) :
    playLoop l a inp =
      { level := { l with completed_ := true }, input := (getUserCode inp).2,
        trace := [Event.attemptBanner (a + 1),
          Event.getUserCode (getUserCode inp).1 (getUserCode inp).2,
          Event.validate (getUserCode inp).1 false,
          Event.showFeedback false "🤔 Don't worry! Let's see the solution.".toList,
          Event.showSolution] } := by
  rw [playLoop, dif_pos ⟨ha, hc⟩]
  simp only [hv, ha1, if_false, List.cons_append, List.nil_append, List.append_assoc]
  rw [playLoop_exit _ _ _ (by simp)]
  simp

/-- Induction over the iterations of the attempt loop, one case per path
through its body. -/
theorem playLoop_induction (motive : Level → Nat → IStream → Prop)
    (exit : ∀ l a inp, ¬ (a < maxAttempts ∧ l.completed_ = false) → motive l a inp)
    (success : ∀ l a inp, a < maxAttempts → l.completed_ = false →
      l.validateSolution (getUserCode inp).1 = true → motive l a inp)
    (hint : ∀ l a inp, a + 1 < maxAttempts → l.completed_ = false →
      l.validateSolution (getUserCode inp).1 = false →
      (getline (getUserCode inp).2).2.1 = "2".toList →
      motive l (a + 1) (getline (getUserCode inp).2).2.2 → motive l a inp)
    (solution : ∀ l a inp, a + 1 < maxAttempts → l.completed_ = false →
      l.validateSolution (getUserCode inp).1 = false →
      (getline (getUserCode inp).2).2.1 = "3".toList → motive l a inp)
    (retry : ∀ l a inp, a + 1 < maxAttempts → l.completed_ = false →
      l.validateSolution (getUserCode inp).1 = false →
      (getline (getUserCode inp).2).2.1 ≠ "2".toList →
      (getline (getUserCode inp).2).2.1 ≠ "3".toList →
      motive l (a + 1) (getline (getUserCode inp).2).2.2 → motive l a inp)
    (reveal : ∀ l a inp, a < maxAttempts → ¬ a + 1 < maxAttempts → l.completed_ = false →
      l.validateSolution (getUserCode inp).1 = false → motive l a inp)
    (l : Level) (a : Nat) (inp : IStream) : motive l a inp := by
  induction l, a, inp using playLoop.induct with
  | case1 l a inp h _ hv => exact success l a inp h.1 h.2 hv
  | case2 l a inp h _ _ hv ha _ _ h2 ih =>
    exact hint l a inp ha h.2 (by simpa using hv) h2 ih
  | case3 l a inp h _ _ hv ha _ h2 h3 =>
    exact solution l a inp ha h.2 (by simpa using hv) h3
  | case4 l a inp h _ _ hv ha _ _ h2 h3 ih =>
    exact retry l a inp ha h.2 (by simpa using hv) h2 h3 ih
  | case5 l a inp h _ _ hv ha _ =>
    exact reveal l a inp h.1 ha h.2 (by simpa using hv)
  | case6 l a inp h => exact exit l a inp h

theorem gradings_append (t₁ t₂ : List Event) :
    gradings (t₁ ++ t₂) = gradings t₁ ++ gradings t₂ := by
  induction t₁ with
  | nil => rfl
  | cons e t ih => cases e <;> simp [gradings, ih]

/-- When a list that starts with `hd` is cut at an element that does not
occur in `hd`, the cut lies after `hd`. -/
theorem split_after_head {α : Type} (hd : List α) {e : α} {rest pre post : List α}
    (hne : e ∉ hd) (h : hd ++ rest = pre ++ e :: post) :
    ∃ mid, pre = hd ++ mid ∧ rest = mid ++ e :: post := by
  induction hd generalizing pre with
  | nil => exact ⟨pre, rfl, h⟩
  | cons x hd ih =>
    cases pre with
    | nil =>
      simp only [List.cons_append, List.nil_append, List.cons.injEq] at h
      exact absurd (by simp [h.1]) hne
    | cons y pre =>
      simp only [List.cons_append, List.cons.injEq] at h
      obtain ⟨mid, h1, h2⟩ := ih (fun hm => hne (List.mem_cons_of_mem _ hm)) h.2
      exact ⟨mid, by simp [h.1, h1], h2⟩

/-- The loop ends with the level completed, unless it is entered with no
attempt left on a level that is not completed. -/
theorem playLoop_completed (l : Level) (a : Nat) (inp : IStream)
    (h : a < maxAttempts ∨ l.completed_ = true) :
    (playLoop l a inp).level.completed_ = true := by
  induction l, a, inp using playLoop_induction with
  | exit l a inp hx =>
    rw [playLoop_exit l a inp hx]
    rcases h with h | h
    · simp only [not_and, Bool.not_eq_false] at hx
      exact hx h
    · exact h
  | success l a inp ha hc hv => rw [playLoop_success l a inp ha hc hv]
  | hint l a inp ha hc hv h2 ih =>
    rw [playLoop_hint l a inp ha hc hv h2]
    exact ih (Or.inl ha)
  | solution l a inp ha hc hv h3 => rw [playLoop_solution l a inp ha hc hv h3]
  | retry l a inp ha hc hv h2 h3 ih =>
    rw [playLoop_retry l a inp ha hc hv h2 h3]
    exact ih (Or.inl ha)
  | reveal l a inp ha ha1 hc hv => rw [playLoop_reveal l a inp ha ha1 hc hv]

/-- The loop grades at most as many submissions as attempts are left. -/
theorem playLoop_gradings_le (l : Level) (a : Nat) (inp : IStream) :
    (gradings (playLoop l a inp).trace).length ≤ maxAttempts - a := by
  induction l, a, inp using playLoop_induction with
  | exit l a inp hx => rw [playLoop_exit l a inp hx]; simp [gradings]
  | success l a inp ha hc hv =>
    rw [playLoop_success l a inp ha hc hv]; simp [gradings]; omega
  | hint l a inp ha hc hv h2 ih =>
    rw [playLoop_hint l a inp ha hc hv h2]
    simp only [gradings, List.length_cons]
    omega
  | solution l a inp ha hc hv h3 =>
    rw [playLoop_solution l a inp ha hc hv h3]; simp [gradings]; omega
  | retry l a inp ha hc hv h2 h3 ih =>
    rw [playLoop_retry l a inp ha hc hv h2 h3]
    simp only [gradings, List.length_cons]
    omega
  | reveal l a inp ha ha1 hc hv =>
    rw [playLoop_reveal l a inp ha ha1 hc hv]; simp [gradings]; omega

/-- When every attempt that is left ends in a failed grading, the loop ends
with the forced reveal: the last failure is followed by the feedback line and
the solution, and by nothing else. -/
theorem playLoop_all_failed (l : Level) (a : Nat) (inp : IStream) (ha : a < maxAttempts)
    (hf : (gradings (playLoop l a inp).trace).map Prod.snd =
      List.replicate (maxAttempts - a) false) :
    (∃ code, [Event.validate code false,
        Event.showFeedback false "🤔 Don't worry! Let's see the solution.".toList,
        Event.showSolution] <:+ (playLoop l a inp).trace) ∧
    (playLoop l a inp).level.completed_ = true := by
  induction l, a, inp using playLoop_induction with
  | exit l a inp hx =>
    rw [playLoop_exit l a inp hx] at hf
    have h1 : maxAttempts - a = (maxAttempts - a - 1) + 1 := by omega
    rw [h1, List.replicate_succ] at hf
    simp [gradings] at hf
  | success l a inp _ hc hv =>
    rw [playLoop_success l a inp ha hc hv] at hf
    have h1 : maxAttempts - a = (maxAttempts - a - 1) + 1 := by omega
    rw [h1, List.replicate_succ] at hf
    simp [gradings] at hf
  | hint l a inp ha1 hc hv h2 ih =>
    rw [playLoop_hint l a inp ha1 hc hv h2] at hf ⊢
    have h1 : maxAttempts - a = (maxAttempts - (a + 1)) + 1 := by omega
    rw [h1, List.replicate_succ] at hf
    simp only [gradings, List.map_cons, List.cons.injEq, true_and] at hf
    obtain ⟨⟨code, hsuf⟩, hdone⟩ := ih ha1 hf
    refine ⟨⟨code, ?_⟩, hdone⟩
    dsimp only
    iterate 7 refine List.IsSuffix.trans ?_ (List.suffix_cons _ _)
    exact hsuf
  | solution l a inp ha1 hc hv h3 =>
    rw [playLoop_solution l a inp ha1 hc hv h3] at hf
    have h1 : maxAttempts - a = (maxAttempts - a - 2) + 1 + 1 := by omega
    rw [h1, List.replicate_succ, List.replicate_succ] at hf
    simp [gradings] at hf
  | retry l a inp ha1 hc hv h2 h3 ih =>
    rw [playLoop_retry l a inp ha1 hc hv h2 h3] at hf ⊢
    have h1 : maxAttempts - a = (maxAttempts - (a + 1)) + 1 := by omega
    rw [h1, List.replicate_succ] at hf
    simp only [gradings, List.map_cons, List.cons.injEq, true_and] at hf
    obtain ⟨⟨code, hsuf⟩, hdone⟩ := ih ha1 hf
    refine ⟨⟨code, ?_⟩, hdone⟩
    dsimp only
    iterate 6 refine List.IsSuffix.trans ?_ (List.suffix_cons _ _)
    exact hsuf
  | reveal l a inp _ ha1 hc hv =>
    rw [playLoop_reveal l a inp ha ha1 hc hv]
    exact ⟨⟨_, [_, _], rfl⟩, rfl⟩

/-- Every grading recorded in the trace of the loop carries the verdict of the
validator of the level. -/
theorem playLoop_validate_sound (l : Level) (a : Nat) (inp : IStream)
    (code : CppString) (ok : Bool) (h : Event.validate code ok ∈ (playLoop l a inp).trace) :
    l.validateSolution code = ok := by
  induction l, a, inp using playLoop_induction with
  | exit l a inp hx =>
    rw [playLoop_exit l a inp hx] at h
    simp at h
  | success l a inp ha hc hv =>
    rw [playLoop_success l a inp ha hc hv] at h
    simp at h
    rw [h.1, h.2, hv]
  | hint l a inp ha hc hv h2 ih =>
    rw [playLoop_hint l a inp ha hc hv h2] at h
    simp at h
    rcases h with h | h
    · rw [h.1, h.2, hv]
    · exact ih h
  | solution l a inp ha hc hv h3 =>
    rw [playLoop_solution l a inp ha hc hv h3] at h
    simp at h
    rw [h.1, h.2, hv]
  | retry l a inp ha hc hv h2 h3 ih =>
    rw [playLoop_retry l a inp ha hc hv h2 h3] at h
    simp at h
    rcases h with h | h
    · rw [h.1, h.2, hv]
    · exact ih h
  | reveal l a inp ha ha1 hc hv =>
    rw [playLoop_reveal l a inp ha ha1 hc hv] at h
    simp at h
    rw [h.1, h.2, hv]

/-- The menu line `3` ends the loop: it is followed by the solution alone, the
level is completed, and it answers a menu shown after a failed grading. -/
theorem playLoop_solution_chosen (l : Level) (a : Nat) (inp : IStream)
    (pre post : List Event)
    (h : (playLoop l a inp).trace = pre ++ Event.choice "3".toList :: post) :
    post = [Event.showSolution] ∧ (playLoop l a inp).level.completed_ = true ∧
    ∃ pre' code, pre = pre' ++ [Event.validate code false,
      Event.showFeedback false "🔧 Not quite right. Try again!".toList, Event.menu] := by
  induction l, a, inp using playLoop_induction generalizing pre with
  | exit l a inp hx =>
    rw [playLoop_exit l a inp hx] at h
    simp at h
  | success l a inp ha hc hv =>
    rw [playLoop_success l a inp ha hc hv] at h
    have hmem : Event.choice "3".toList ∈ pre ++ Event.choice "3".toList :: post := by simp
    rw [← h] at hmem
    simp at hmem
  | hint l a inp ha hc hv h2 ih =>
    rw [playLoop_hint l a inp ha hc hv h2] at h ⊢
    obtain ⟨mid, hpre, hmid⟩ := split_after_head ([Event.attemptBanner (a + 1),
        Event.getUserCode (getUserCode inp).1 (getUserCode inp).2,
        Event.validate (getUserCode inp).1 false,
        Event.showFeedback false "🔧 Not quite right. Try again!".toList,
        Event.menu, Event.choice "2".toList, Event.showHint]) (by simp) h
    obtain ⟨hpost, hdone, pre', code, hpre'⟩ := ih mid hmid
    exact ⟨hpost, hdone, _ ++ pre', code, by rw [hpre, hpre', List.append_assoc]⟩
  | solution l a inp ha hc hv h3 =>
    rw [playLoop_solution l a inp ha hc hv h3] at h ⊢
    obtain ⟨mid, hpre, hmid⟩ := split_after_head ([Event.attemptBanner (a + 1),
        Event.getUserCode (getUserCode inp).1 (getUserCode inp).2,
        Event.validate (getUserCode inp).1 false,
        Event.showFeedback false "🔧 Not quite right. Try again!".toList,
        Event.menu]) (by simp) h
    cases mid with
    | nil =>
      simp only [List.nil_append, List.cons.injEq, true_and] at hmid
      exact ⟨hmid.symm, rfl, [Event.attemptBanner (a + 1),
        Event.getUserCode (getUserCode inp).1 (getUserCode inp).2], (getUserCode inp).1,
        by simp [hpre]⟩
    | cons x mid =>
      simp only [List.cons_append, List.cons.injEq] at hmid
      have hmem : Event.choice "3".toList ∈ [Event.showSolution] := by
        rw [hmid.2]; simp
      simp at hmem
  | retry l a inp ha hc hv h2 h3 ih =>
    rw [playLoop_retry l a inp ha hc hv h2 h3] at h ⊢
    obtain ⟨mid, hpre, hmid⟩ := split_after_head ([Event.attemptBanner (a + 1),
        Event.getUserCode (getUserCode inp).1 (getUserCode inp).2,
        Event.validate (getUserCode inp).1 false,
        Event.showFeedback false "🔧 Not quite right. Try again!".toList,
        Event.menu, Event.choice (getline (getUserCode inp).2).2.1])
      (by simpa using fun hh => h3 hh.symm) h
    obtain ⟨hpost, hdone, pre', code, hpre'⟩ := ih mid hmid
    exact ⟨hpost, hdone, _ ++ pre', code, by rw [hpre, hpre', List.append_assoc]⟩
  | reveal l a inp ha ha1 hc hv =>
    rw [playLoop_reveal l a inp ha ha1 hc hv] at h
    have hmem : Event.choice "3".toList ∈ pre ++ Event.choice "3".toList :: post := by simp
    rw [← h] at hmem
    simp at hmem

/-- The menu is shown only while an attempt is left: the gradings before a
menu, counted with the attempts already used, stay below `maxAttempts`. -/
theorem playLoop_menu_attempts (l : Level) (a : Nat) (inp : IStream)
    (pre post : List Event)
    (h : (playLoop l a inp).trace = pre ++ Event.menu :: post) :
    a + (gradings pre).length < maxAttempts := by
  induction l, a, inp using playLoop_induction generalizing pre with
  | exit l a inp hx =>
    rw [playLoop_exit l a inp hx] at h
    simp at h
  | success l a inp ha hc hv =>
    rw [playLoop_success l a inp ha hc hv] at h
    have hmem : Event.menu ∈ pre ++ Event.menu :: post := by simp
    rw [← h] at hmem
    simp at hmem
  | hint l a inp ha hc hv h2 ih =>
    rw [playLoop_hint l a inp ha hc hv h2] at h
    obtain ⟨mid, hpre, hmid⟩ := split_after_head ([Event.attemptBanner (a + 1),
        Event.getUserCode (getUserCode inp).1 (getUserCode inp).2,
        Event.validate (getUserCode inp).1 false,
        Event.showFeedback false "🔧 Not quite right. Try again!".toList]) (by simp) h
    cases mid with
    | nil =>
      rw [hpre]
      simp only [gradings, List.append_nil, List.length_cons, List.length_nil]
      omega
    | cons x mid =>
      simp only [List.cons_append, List.cons.injEq] at hmid
      obtain ⟨mid2, hmid2, hrec⟩ := split_after_head ([Event.choice "2".toList, Event.showHint]) (by simp) hmid.2
      have := ih mid2 hrec
      rw [hpre, hmid2, ← hmid.1, gradings_append]
      simp only [List.cons_append, List.nil_append, List.length_append]
      simp only [gradings, List.length_cons, List.length_nil]
      omega
  | solution l a inp ha hc hv h3 =>
    rw [playLoop_solution l a inp ha hc hv h3] at h
    obtain ⟨mid, hpre, hmid⟩ := split_after_head ([Event.attemptBanner (a + 1),
        Event.getUserCode (getUserCode inp).1 (getUserCode inp).2,
        Event.validate (getUserCode inp).1 false,
        Event.showFeedback false "🔧 Not quite right. Try again!".toList]) (by simp) h
    cases mid with
    | nil =>
      rw [hpre]
      simp only [gradings, List.append_nil, List.length_cons, List.length_nil]
      omega
    | cons x mid =>
      simp only [List.cons_append, List.cons.injEq] at hmid
      have hmem : Event.menu ∈ [Event.choice "3".toList, Event.showSolution] := by
        rw [hmid.2]; simp
      simp at hmem
  | retry l a inp ha hc hv h2 h3 ih =>
    rw [playLoop_retry l a inp ha hc hv h2 h3] at h
    obtain ⟨mid, hpre, hmid⟩ := split_after_head ([Event.attemptBanner (a + 1),
        Event.getUserCode (getUserCode inp).1 (getUserCode inp).2,
        Event.validate (getUserCode inp).1 false,
        Event.showFeedback false "🔧 Not quite right. Try again!".toList]) (by simp) h
    cases mid with
    | nil =>
      rw [hpre]
      simp only [gradings, List.append_nil, List.length_cons, List.length_nil]
      omega
    | cons x mid =>
      simp only [List.cons_append, List.cons.injEq] at hmid
      obtain ⟨mid2, hmid2, hrec⟩ := split_after_head ([Event.choice (getline (getUserCode inp).2).2.1]) (by simp) hmid.2
      have := ih mid2 hrec
      rw [hpre, hmid2, ← hmid.1, gradings_append]
      simp only [List.cons_append, List.nil_append, List.length_append]
      simp only [gradings, List.length_cons, List.length_nil]
      omega
  | reveal l a inp ha ha1 hc hv =>
    rw [playLoop_reveal l a inp ha ha1 hc hv] at h
    have hmem : Event.menu ∈ pre ++ Event.menu :: post := by simp
    rw [← h] at hmem
    simp at hmem

open GameEngine

/-! ## Claims about `Level::play` -/

theorem play_trace (l : Level) (inp : IStream) :
    (play l inp).trace =
      [Event.displayStory, Event.displayConcept, Event.showChallenge] ++
        (playLoop l 0 inp).trace := rfl

theorem getUserCode_done (rest : IStream) :
    getUserCode ('D' :: 'O' :: 'N' :: 'E' :: '\n' :: rest) = ([], rest) := by
  simp [getUserCode, getUserCodeLoop, getline]

/-- C4: one call of `play` grades at most three submissions, each with the
validator of the level; and when three gradings fail, the third failure is
followed by the feedback line and the solution and by nothing else (so by no
menu), it is the third grading of the call, and the level is completed. -/
theorem play_at_most_three_gradings (l : Level) (inp : IStream) :
    (gradings (play l inp).trace).length ≤ 3 ∧
    (∀ code ok, Event.validate code ok ∈ (play l inp).trace → l.validator_ code = ok) ∧
    ((gradings (play l inp).trace).map Prod.snd = [false, false, false] →
      ∃ pre code, (play l inp).trace = pre ++ [Event.validate code false,
        Event.showFeedback false "🤔 Don't worry! Let's see the solution.".toList,
        Event.showSolution] ∧ (gradings pre).length = 2 ∧
        (play l inp).level.completed_ = true) := by
  have hg : gradings (play l inp).trace = gradings (playLoop l 0 inp).trace := by
    rw [play_trace, gradings_append]
    rfl
  refine ⟨?_, ?_, ?_⟩
  · rw [hg]
    exact playLoop_gradings_le l 0 inp
  · intro code ok hmem
    rw [play_trace] at hmem
    simp only [List.cons_append, List.nil_append, List.mem_cons, reduceCtorEq, false_or] at hmem
    exact playLoop_validate_sound l 0 inp code ok hmem
  · intro hf
    rw [hg] at hf
    obtain ⟨⟨code, pre, hpre⟩, hdone⟩ := playLoop_all_failed l 0 inp (by decide) hf
    refine ⟨[Event.displayStory, Event.displayConcept, Event.showChallenge] ++ pre, code,
      ?_, ?_, hdone⟩
    · rw [play_trace, ← hpre, List.append_assoc]
    · have hlen := congrArg List.length hf
      rw [← hpre, gradings_append] at hlen
      simp only [gradings, List.map_append, List.length_append, List.length_map,
        List.length_cons, List.length_nil] at hlen
      rw [gradings_append]
      simp only [gradings, List.length_append, List.length_nil]
      omega

theorem play_at_most_three_gradings_witness :
    (gradings (play level1 "DONE\n1\nDONE\n1\nDONE\n".toList).trace).map Prod.snd =
      [false, false, false] ∧
    ∃ pre code, (play level1 "DONE\n1\nDONE\n1\nDONE\n".toList).trace =
      pre ++ [Event.validate code false,
        Event.showFeedback false "🤔 Don't worry! Let's see the solution.".toList,
        Event.showSolution] ∧ (gradings pre).length = 2 ∧
      (play level1 "DONE\n1\nDONE\n1\nDONE\n".toList).level.completed_ = true :=
  have hv : level1.validator_ [] = false := by decide
  have hf : (gradings (play level1 "DONE\n1\nDONE\n1\nDONE\n".toList).trace).map Prod.snd =
      [false, false, false] := by
    simp [play, playLoop, getUserCode_done, getline, maxAttempts, validateSolution, hv, level1,
      Level.new, gradings]
  ⟨hf, (play_at_most_three_gradings level1 "DONE\n1\nDONE\n1\nDONE\n".toList).2.2 hf⟩

/-- C6: a menu line `3` in `play` answers the menu shown after a failed first
or second grading; it is followed by the solution alone, so nothing more is
graded, and `completed_` is `true`. The menu, and with it the solution
choice, is shown only when fewer than `maxAttempts` gradings came before it. -/
theorem play_solution_choice (l : Level) (inp : IStream) :
    (∀ pre post, (play l inp).trace = pre ++ Event.choice "3".toList :: post →
      post = [Event.showSolution] ∧ (play l inp).level.completed_ = true ∧
      (∃ before code, pre = before ++ [Event.validate code false,
        Event.showFeedback false "🔧 Not quite right. Try again!".toList, Event.menu]) ∧
      1 ≤ (gradings pre).length ∧ (gradings pre).length ≤ 2) ∧
    (∀ pre post, (play l inp).trace = pre ++ Event.menu :: post →
      (gradings pre).length < maxAttempts) := by
  have hmenu : ∀ pre post, (play l inp).trace = pre ++ Event.menu :: post →
      (gradings pre).length < maxAttempts := by
    intro pre post h
    rw [play_trace] at h
    obtain ⟨mid, hpre, hmid⟩ := split_after_head ([Event.displayStory, Event.displayConcept, Event.showChallenge]) (by simp) h
    have := playLoop_menu_attempts l 0 inp mid post hmid
    rw [hpre, gradings_append]
    simp only [gradings, List.length_append, List.length_nil]
    omega
  refine ⟨?_, hmenu⟩
  intro pre post h
  have h0 := h
  rw [play_trace] at h
  obtain ⟨mid, hpre, hmid⟩ := split_after_head ([Event.displayStory, Event.displayConcept, Event.showChallenge]) (by simp) h
  obtain ⟨hpost, hdone, before, code, hbefore⟩ :=
    playLoop_solution_chosen l 0 inp mid post hmid
  have hpre2 : pre = ([Event.displayStory, Event.displayConcept, Event.showChallenge] ++ before ++
      [Event.validate code false,
        Event.showFeedback false "🔧 Not quite right. Try again!".toList]) ++ [Event.menu] := by
    rw [hpre, hbefore]
    simp
  have hlt := hmenu ([Event.displayStory, Event.displayConcept, Event.showChallenge] ++ before ++
      [Event.validate code false,
        Event.showFeedback false "🔧 Not quite right. Try again!".toList])
    (Event.choice "3".toList :: post) (by
      rw [h0]
      conv_lhs => rw [hpre2]
      simp)
  have hg : (gradings pre).length = (gradings ([Event.displayStory, Event.displayConcept,
      Event.showChallenge] ++ before ++ [Event.validate code false,
        Event.showFeedback false "🔧 Not quite right. Try again!".toList])).length := by
    conv_lhs => rw [hpre2]
    rw [gradings_append]
    simp [gradings]
  refine ⟨hpost, hdone,
    ⟨[Event.displayStory, Event.displayConcept, Event.showChallenge] ++ before, code, ?_⟩, ?_, ?_⟩
  · rw [hpre, hbefore, List.append_assoc]
  · rw [hg, gradings_append]
    simp [gradings]
  · rw [hg]
    simp only [maxAttempts] at hlt
    omega

theorem play_solution_choice_witness :
    (play level1 "DONE\n3\nrest".toList).trace =
      [Event.displayStory, Event.displayConcept, Event.showChallenge, Event.attemptBanner 1,
        Event.getUserCode [] "3\nrest".toList, Event.validate [] false,
        Event.showFeedback false "🔧 Not quite right. Try again!".toList, Event.menu] ++
      Event.choice "3".toList :: [Event.showSolution] ∧
    (play level1 "DONE\n3\nrest".toList).level.completed_ = true :=
  have hv : validator1 [] = false := by decide
  have ht : (play level1 "DONE\n3\nrest".toList).trace =
      [Event.displayStory, Event.displayConcept, Event.showChallenge, Event.attemptBanner 1,
        Event.getUserCode [] "3\nrest".toList, Event.validate [] false,
        Event.showFeedback false "🔧 Not quite right. Try again!".toList, Event.menu] ++
      Event.choice "3".toList :: [Event.showSolution] := by
    simp [play, playLoop, getUserCode_done, getline, maxAttempts, validateSolution, hv, level1,
      Level.new]
  ⟨ht, ((play_solution_choice level1 "DONE\n3\nrest".toList).1 _ _ ht).2.1⟩

/-! ## The level iterator -/

/-- The loop changes no field of the level but the flag. -/
theorem playLoop_level (l : Level) (a : Nat) (inp : IStream) :
    (playLoop l a inp).level = { l with completed_ := (playLoop l a inp).level.completed_ } := by
  induction l, a, inp using playLoop_induction with
  | exit l a inp hx => rw [playLoop_exit l a inp hx]
  | success l a inp ha hc hv => rw [playLoop_success l a inp ha hc hv]
  | hint l a inp ha hc hv h2 ih =>
    rw [playLoop_hint l a inp ha hc hv h2]
    exact ih
  | solution l a inp ha hc hv h3 => rw [playLoop_solution l a inp ha hc hv h3]
  | retry l a inp ha hc hv h2 h3 ih =>
    rw [playLoop_retry l a inp ha hc hv h2 h3]
    exact ih
  | reveal l a inp ha ha1 hc hv => rw [playLoop_reveal l a inp ha ha1 hc hv]

theorem play_level (l : Level) (inp : IStream) :
    (play l inp).level = { l with completed_ := true } := by
  have h1 : (play l inp).level = (playLoop l 0 inp).level := rfl
  rw [h1, playLoop_level, playLoop_completed l 0 inp (Or.inl (by decide))]

end Level

namespace GameEngine

theorem playLevel_eq (g : GameEngine) (i : Nat) (inp : IStream) (h : i < g.levels_.length) :
    playLevel g i inp =
      { engine := { levels_ := g.levels_.set i { g.levels_.get ⟨i, h⟩ with completed_ := true },
                    inventory_ := g.inventory_ ++ [(g.levels_.get ⟨i, h⟩).reward_],
                    currentLevel_ := g.currentLevel_ },
        input := (Level.play (g.levels_.get ⟨i, h⟩) inp).input,
        trace := (Level.play (g.levels_.get ⟨i, h⟩) inp).trace.map EngineEvent.level ++
          [EngineEvent.levelCompleted (g.levels_.get ⟨i, h⟩).reward_] } := by
  rw [playLevel, dif_neg (by omega)]
  simp only [Level.play_level, Level.isCompleted, Level.getReward, addToInventory, if_true]

theorem runLoop_done (g : GameEngine) (inp : IStream) (h : g.levels_.length ≤ g.currentLevel_) :
    runLoop g inp =
      { engine := g, input := inp, trace := [EngineEvent.state Point.loopTest g],
        returned := false } := by
  rw [runLoop, dif_neg (by simp [isGameComplete, h])]

/-- What `run` prints between the return of `playLevel` and the reading of the
answer, followed by the answer. -/
theorem runLoop_no (g : GameEngine) (inp : IStream) (h : g.currentLevel_ < g.levels_.length)
    (hn : (askYesNo (playLevel g g.currentLevel_ inp).input).1 = false) :
    runLoop g inp =
      { engine := (playLevel g g.currentLevel_ inp).engine,
        input := (askYesNo (playLevel g g.currentLevel_ inp).input).2,
        trace := [EngineEvent.state Point.loopTest g] ++
          (playLevel g g.currentLevel_ inp).trace ++
          [EngineEvent.state Point.afterPlayLevel (playLevel g g.currentLevel_ inp).engine] ++
          [EngineEvent.showProgress (playLevel g g.currentLevel_ inp).engine.getProgressPercentage] ++
          (playLevel g g.currentLevel_ inp).engine.showInventory ++
          [EngineEvent.askYesNo (getline (playLevel g g.currentLevel_ inp).input).2.1 false] ++
          [EngineEvent.saved],
        returned := true } := by
  have h2 : (playLevel g g.currentLevel_ inp).engine.currentLevel_ <
      (playLevel g g.currentLevel_ inp).engine.levels_.length := by
    rw [playLevel_eq g _ inp h]
    simpa using h
  rw [runLoop, dif_pos (by simp [isGameComplete, h]), dif_pos h2]
  simp only [hn]
  rfl

theorem runLoop_yes (g : GameEngine) (inp : IStream) (h : g.currentLevel_ < g.levels_.length)
    (hy : (askYesNo (playLevel g g.currentLevel_ inp).input).1 = true) :
    runLoop g inp =
      { runLoop { (playLevel g g.currentLevel_ inp).engine with
            currentLevel_ := (playLevel g g.currentLevel_ inp).engine.currentLevel_ + 1 }
          (askYesNo (playLevel g g.currentLevel_ inp).input).2 with
        trace := [EngineEvent.state Point.loopTest g] ++
          (playLevel g g.currentLevel_ inp).trace ++
          [EngineEvent.state Point.afterPlayLevel (playLevel g g.currentLevel_ inp).engine] ++
          [EngineEvent.showProgress (playLevel g g.currentLevel_ inp).engine.getProgressPercentage] ++
          (playLevel g g.currentLevel_ inp).engine.showInventory ++
          [EngineEvent.askYesNo (getline (playLevel g g.currentLevel_ inp).input).2.1 true] ++
          [EngineEvent.clearScreen] ++
          (runLoop { (playLevel g g.currentLevel_ inp).engine with
            currentLevel_ := (playLevel g g.currentLevel_ inp).engine.currentLevel_ + 1 }
          (askYesNo (playLevel g g.currentLevel_ inp).input).2).trace } := by
  have h2 : (playLevel g g.currentLevel_ inp).engine.currentLevel_ <
      (playLevel g g.currentLevel_ inp).engine.levels_.length := by
    rw [playLevel_eq g _ inp h]
    simpa using h
  rw [runLoop, dif_pos (by simp [isGameComplete, h]), dif_pos h2]
  simp only [hy, if_true]

/-- Induction over the iterations of the loop of `run`, one case per way an
iteration ends. -/
theorem runLoop_induction (motive : GameEngine → IStream → Prop)
    (done : ∀ g inp, g.levels_.length ≤ g.currentLevel_ → motive g inp)
    (no : ∀ g inp, g.currentLevel_ < g.levels_.length →
      (askYesNo (playLevel g g.currentLevel_ inp).input).1 = false → motive g inp)
    (yes : ∀ g inp, g.currentLevel_ < g.levels_.length →
      (askYesNo (playLevel g g.currentLevel_ inp).input).1 = true →
      motive { (playLevel g g.currentLevel_ inp).engine with
          currentLevel_ := (playLevel g g.currentLevel_ inp).engine.currentLevel_ + 1 }
        (askYesNo (playLevel g g.currentLevel_ inp).input).2 →
      motive g inp)
    (g : GameEngine) (inp : IStream) : motive g inp := by
  induction g, inp using runLoop.induct with
  | case1 g inp h _ h2 hy ih =>
    exact yes g inp (by simpa [isGameComplete] using h) hy ih
  | case2 g inp h _ h2 hn =>
    exact no g inp (by simpa [isGameComplete] using h) (by simpa using hn)
  | case3 g inp h _ h2 ih =>
    have hlt : g.currentLevel_ < g.levels_.length := by simpa [isGameComplete] using h
    have h3 : (playLevel g g.currentLevel_ inp).engine.currentLevel_ <
        (playLevel g g.currentLevel_ inp).engine.levels_.length := by
      rw [playLevel_eq g _ inp hlt]
      simpa using hlt
    exact absurd h3 h2
  | case4 g inp h =>
    exact done g inp (by simpa [isGameComplete] using h)

theorem states_append (t₁ t₂ : List EngineEvent) :
    states (t₁ ++ t₂) = states t₁ ++ states t₂ := by
  induction t₁ with
  | nil => rfl
  | cons e t ih => cases e <;> simp [states, ih]

theorem answers_append (t₁ t₂ : List EngineEvent) :
    answers (t₁ ++ t₂) = answers t₁ ++ answers t₂ := by
  induction t₁ with
  | nil => rfl
  | cons e t ih => cases e <;> simp [answers, ih]

theorem answers_map_level (t : List Event) : answers (t.map EngineEvent.level) = [] := by
  induction t with
  | nil => rfl
  | cons e t ih => simp [answers, ih]

theorem answers_showInventory (g : GameEngine) : answers g.showInventory = [] := by
  unfold showInventory
  split <;> rfl

theorem state_not_mem_showInventory (g s : GameEngine) (p : Point) :
    EngineEvent.state p s ∉ g.showInventory := by
  unfold showInventory
  split <;> simp

theorem playLevel_engine (g : GameEngine) (inp : IStream) (h : g.currentLevel_ < g.levels_.length) :
    (playLevel g g.currentLevel_ inp).engine.levels_.length = g.levels_.length ∧
    (playLevel g g.currentLevel_ inp).engine.currentLevel_ = g.currentLevel_ ∧
    (playLevel g g.currentLevel_ inp).engine.inventory_ =
      g.inventory_ ++ [(g.levels_.get ⟨g.currentLevel_, h⟩).reward_] ∧
    (playLevel g g.currentLevel_ inp).engine.levels_.drop (g.currentLevel_ + 1) =
      g.levels_.drop (g.currentLevel_ + 1) ∧
    answers (playLevel g g.currentLevel_ inp).trace = [] ∧
    ∀ p s, EngineEvent.state p s ∉ (playLevel g g.currentLevel_ inp).trace := by
  rw [playLevel_eq g _ inp h]
  refine ⟨by simp, rfl, rfl, ?_, ?_, ?_⟩
  · exact List.drop_set_of_lt _ _ (Nat.lt_succ_self _)
  · simp [answers_append, answers_map_level, answers]
  · intro p s
    simp

/-- The engine states that the loop of `run` passes through, when it is
entered with as many rewards as levels passed. -/
theorem runLoop_states (g : GameEngine) (inp : IStream)
    (hinv : g.inventory_.length = g.currentLevel_) (hle : g.currentLevel_ ≤ g.levels_.length) :
    (∀ p s, EngineEvent.state p s ∈ (runLoop g inp).trace →
      s.levels_.length = g.levels_.length ∧
      ((p = Point.loopTest ∧ s.inventory_.length = s.currentLevel_ ∧
          s.currentLevel_ ≤ s.levels_.length) ∨
       (p = Point.afterPlayLevel ∧ s.inventory_.length = s.currentLevel_ + 1 ∧
          s.currentLevel_ < s.levels_.length))) ∧
    (runLoop g inp).engine.levels_.length = g.levels_.length ∧
    ((runLoop g inp).returned = false →
      (runLoop g inp).engine.inventory_.length = (runLoop g inp).engine.currentLevel_ ∧
      (runLoop g inp).engine.currentLevel_ = (runLoop g inp).engine.levels_.length) ∧
    ((runLoop g inp).returned = true →
      (runLoop g inp).engine.inventory_.length = (runLoop g inp).engine.currentLevel_ + 1 ∧
      (runLoop g inp).engine.currentLevel_ < (runLoop g inp).engine.levels_.length) := by
  induction g, inp using runLoop_induction with
  | done g inp h =>
    rw [runLoop_done g inp h]
    refine ⟨?_, rfl, fun _ => ⟨hinv, le_antisymm hle h⟩, fun hr => by simp at hr⟩
    intro p s hmem
    simp only [List.mem_singleton, EngineEvent.state.injEq] at hmem
    obtain ⟨rfl, rfl⟩ := hmem
    exact ⟨rfl, Or.inl ⟨rfl, hinv, hle⟩⟩
  | no g inp h hn =>
    obtain ⟨hlen, hcur, hinvr, -, -, hst⟩ := playLevel_engine g inp h
    rw [runLoop_no g inp h hn]
    refine ⟨?_, hlen, fun hr => by simp at hr, fun _ => ⟨?_, ?_⟩⟩
    · intro p s hmem
      simp only [List.mem_append, List.mem_singleton, EngineEvent.state.injEq, reduceCtorEq,
        or_false, hst, state_not_mem_showInventory, false_or] at hmem
      rcases hmem with ⟨rfl, rfl⟩ | ⟨rfl, rfl⟩
      · exact ⟨rfl, Or.inl ⟨rfl, hinv, hle⟩⟩
      · refine ⟨hlen, Or.inr ⟨rfl, ?_, ?_⟩⟩
        · rw [hinvr, hcur]; simp [hinv]
        · rw [hlen, hcur]; exact h
    · show (playLevel g g.currentLevel_ inp).engine.inventory_.length = _
      rw [hinvr, hcur]; simp [hinv]
    · show (playLevel g g.currentLevel_ inp).engine.currentLevel_ < _
      rw [hlen, hcur]; exact h
  | yes g inp h hy ih =>
    obtain ⟨hlen, hcur, hinvr, -, -, hst⟩ := playLevel_engine g inp h
    obtain ⟨ih1, ih2, ih3, ih4⟩ := ih (by simp [hinvr, hcur, hinv]) (by
      show (playLevel g g.currentLevel_ inp).engine.currentLevel_ + 1 ≤
        (playLevel g g.currentLevel_ inp).engine.levels_.length
      rw [hlen, hcur]; exact h)
    rw [runLoop_yes g inp h hy]
    refine ⟨?_, ih2.trans hlen, ih3, ih4⟩
    intro p s hmem
    simp only [List.mem_append, List.mem_singleton, EngineEvent.state.injEq, reduceCtorEq,
      or_false, hst, state_not_mem_showInventory, false_or] at hmem
    rcases hmem with (⟨rfl, rfl⟩ | ⟨rfl, rfl⟩) | hrec
    · exact ⟨rfl, Or.inl ⟨rfl, hinv, hle⟩⟩
    · refine ⟨hlen, Or.inr ⟨rfl, ?_, ?_⟩⟩
      · rw [hinvr, hcur]; simp [hinv]
      · rw [hlen, hcur]; exact h
    · obtain ⟨hl, hrest⟩ := ih1 p s hrec
      exact ⟨hl.trans hlen, hrest⟩

/-! ## Claims about `GameEngine::run` -/

theorem run_of_returned (g : GameEngine) (inp : IStream)
    (h : (runLoop g (waitForInput inp)).returned = true) :
    run g inp =
      { engine := (runLoop g (waitForInput inp)).engine,
        input := (runLoop g (waitForInput inp)).input,
        trace := [EngineEvent.showWelcome] ++ (runLoop g (waitForInput inp)).trace ++
          [EngineEvent.state Point.exit (runLoop g (waitForInput inp)).engine] } := by
  simp only [run, h, if_true]

theorem run_of_finished (g : GameEngine) (inp : IStream)
    (h : (runLoop g (waitForInput inp)).returned = false) :
    run g inp =
      { engine := (runLoop g (waitForInput inp)).engine,
        input := (runLoop g (waitForInput inp)).input,
        trace := [EngineEvent.showWelcome] ++ (runLoop g (waitForInput inp)).trace ++
          [EngineEvent.showVictory (runLoop g (waitForInput inp)).engine.inventory_,
            EngineEvent.state Point.exit (runLoop g (waitForInput inp)).engine] } := by
  simp only [run, h, Bool.false_eq_true, if_false]

theorem run_engine (g : GameEngine) (inp : IStream) :
    (run g inp).engine = (runLoop g (waitForInput inp)).engine := by
  cases hr : (runLoop g (waitForInput inp)).returned with
  | false => rw [run_of_finished g inp hr]
  | true => rw [run_of_returned g inp hr]

theorem run_exit_mem (g : GameEngine) (inp : IStream) :
    EngineEvent.state Point.exit (run g inp).engine ∈ (run g inp).trace := by
  cases hr : (runLoop g (waitForInput inp)).returned with
  | false => rw [run_of_finished g inp hr]; simp
  | true => rw [run_of_returned g inp hr]; simp

theorem run_trace_mem (g : GameEngine) (inp : IStream) (e : EngineEvent)
    (h : e ∈ (run g inp).trace) :
    e = EngineEvent.showWelcome ∨ e ∈ (runLoop g (waitForInput inp)).trace ∨
    (e = EngineEvent.showVictory (run g inp).engine.inventory_ ∧
      (runLoop g (waitForInput inp)).returned = false) ∨
    e = EngineEvent.state Point.exit (run g inp).engine := by
  rw [run_engine]
  cases hr : (runLoop g (waitForInput inp)).returned with
  | false =>
    rw [run_of_finished g inp hr] at h
    simp only [List.mem_append, List.mem_singleton, List.mem_cons, List.not_mem_nil,
      or_false] at h
    tauto
  | true =>
    rw [run_of_returned g inp hr] at h
    simp only [List.mem_append, List.mem_singleton] at h
    tauto

/-- The play of the first level and the operator's refusal to go on. -/
theorem playLevel_declined_input :
    (askYesNo (playLevel new 0 (waitForInput "\nDONE\n3\nn\n".toList)).input).1 = false := by
  have hv : validator1 [] = false := by decide
  rw [playLevel_eq new 0 _ (by decide)]
  simp [waitForInput, Level.play, Level.playLoop, Level.getUserCode_done, getline,
    Level.maxAttempts, Level.validateSolution, hv, new, initializeLevels, level1, Level.new,
    askYesNo]

/-- C9, refuted as stated: when the operator fails the first challenge, asks
for the solution and then declines to continue, the engine state right after
the reward has been appended, and the state in which `run` returns, hold one
reward while `currentLevel_` is still 0, so `inventory_.size() <=
currentLevel_` fails there. -/
theorem run_reward_precedes_advance :
    (∃ g, EngineEvent.state Point.afterPlayLevel g ∈ (run new "\nDONE\n3\nn\n".toList).trace ∧
      g.inventory_.length = 1 ∧ g.currentLevel_ = 0 ∧
      ¬ (g.inventory_.length ≤ g.currentLevel_ ∧ g.currentLevel_ ≤ g.levels_.length)) ∧
    EngineEvent.state Point.exit (run new "\nDONE\n3\nn\n".toList).engine ∈
      (run new "\nDONE\n3\nn\n".toList).trace ∧
    (run new "\nDONE\n3\nn\n".toList).engine.inventory_.length = 1 ∧
    (run new "\nDONE\n3\nn\n".toList).engine.currentLevel_ = 0 := by
  have hlt : new.currentLevel_ < new.levels_.length := by decide
  have hloop := runLoop_no new (waitForInput "\nDONE\n3\nn\n".toList) hlt playLevel_declined_input
  obtain ⟨-, hcur, hinvr, -, -, -⟩ :=
    playLevel_engine new (waitForInput "\nDONE\n3\nn\n".toList) hlt
  have hinv1 : (playLevel new new.currentLevel_
      (waitForInput "\nDONE\n3\nn\n".toList)).engine.inventory_.length = 1 := by
    rw [hinvr]; rfl
  have hcur0 : (playLevel new new.currentLevel_
      (waitForInput "\nDONE\n3\nn\n".toList)).engine.currentLevel_ = 0 := by
    rw [hcur]; rfl
  have hret : (runLoop new (waitForInput "\nDONE\n3\nn\n".toList)).returned = true := by
    rw [hloop]
  have heng : (run new "\nDONE\n3\nn\n".toList).engine =
      (playLevel new new.currentLevel_ (waitForInput "\nDONE\n3\nn\n".toList)).engine := by
    rw [run_engine, hloop]
  have htrace : (run new "\nDONE\n3\nn\n".toList).trace =
      [EngineEvent.showWelcome] ++ (runLoop new (waitForInput "\nDONE\n3\nn\n".toList)).trace ++
        [EngineEvent.state Point.exit (run new "\nDONE\n3\nn\n".toList).engine] := by
    rw [run_engine, run_of_returned new _ hret]
  refine ⟨⟨_, ?_, hinv1, hcur0, ?_⟩, ?_, ?_, ?_⟩
  · rw [htrace, hloop]
    simp
  · rw [hinv1, hcur0]
    simp
  · exact run_exit_mem _ _
  · rw [heng, hinv1]
  · rw [heng, hcur0]

/-- C9, amended: in every engine state that `run` passes through,
`currentLevel_ <= levels_.size()`, `inventory_.size() <= levels_.size()` and
`currentLevel_ <= inventory_.size() <= currentLevel_ + 1`. The two counts are
equal whenever the loop condition is tested, which covers the initial state
and the state after each increment; the inventory is one ahead from the
moment a reward has been appended. -/
theorem run_states_invariant (inp : IStream) (p : Point) (g : GameEngine)
    (h : EngineEvent.state p g ∈ (run new inp).trace) :
    g.currentLevel_ ≤ g.levels_.length ∧ g.inventory_.length ≤ g.levels_.length ∧
    g.currentLevel_ ≤ g.inventory_.length ∧ g.inventory_.length ≤ g.currentLevel_ + 1 ∧
    (p = Point.loopTest → g.inventory_.length = g.currentLevel_) ∧
    (p = Point.afterPlayLevel → g.inventory_.length = g.currentLevel_ + 1) := by
  obtain ⟨hst, -, hfin, hret⟩ := runLoop_states new (waitForInput inp) rfl (by decide)
  rcases run_trace_mem new inp _ h with h | h | h | h
  · simp at h
  · obtain ⟨-, ⟨rfl, h1, h2⟩ | ⟨rfl, h1, h2⟩⟩ := hst p g h
    · exact ⟨h2, by omega, by omega, by omega, fun _ => h1, fun hp => by simp at hp⟩
    · exact ⟨by omega, by omega, by omega, by omega, fun hp => by simp at hp, fun _ => h1⟩
  · simp at h
  · simp only [EngineEvent.state.injEq] at h
    obtain ⟨rfl, rfl⟩ := h
    rw [run_engine]
    cases hr : (runLoop new (waitForInput inp)).returned with
    | false =>
      obtain ⟨h1, h2⟩ := hfin hr
      exact ⟨by omega, by omega, by omega, by omega, fun hp => by simp at hp,
        fun hp => by simp at hp⟩
    | true =>
      obtain ⟨h1, h2⟩ := hret hr
      exact ⟨by omega, by omega, by omega, by omega, fun hp => by simp at hp,
        fun hp => by simp at hp⟩

theorem run_states_invariant_witness :
    EngineEvent.state Point.exit (run new "\nDONE\n3\nn\n".toList).engine ∈
      (run new "\nDONE\n3\nn\n".toList).trace ∧
    (run new "\nDONE\n3\nn\n".toList).engine.inventory_.length ≤
      (run new "\nDONE\n3\nn\n".toList).engine.currentLevel_ + 1 :=
  have hmem : EngineEvent.state Point.exit (run new "\nDONE\n3\nn\n".toList).engine ∈
      (run new "\nDONE\n3\nn\n".toList).trace := run_exit_mem _ _
  ⟨hmem, (run_states_invariant _ _ _ hmem).2.2.2.1⟩

theorem answers_runLoop_yes (g : GameEngine) (inp : IStream)
    (h : g.currentLevel_ < g.levels_.length)
    (hy : (askYesNo (playLevel g g.currentLevel_ inp).input).1 = true) :
    answers (runLoop g inp).trace = true ::
      answers (runLoop { (playLevel g g.currentLevel_ inp).engine with
          currentLevel_ := (playLevel g g.currentLevel_ inp).engine.currentLevel_ + 1 }
        (askYesNo (playLevel g g.currentLevel_ inp).input).2).trace := by
  obtain ⟨-, -, -, -, hans, -⟩ := playLevel_engine g inp h
  rw [runLoop_yes g inp h hy]
  simp [answers_append, answers, hans, answers_showInventory]

/-- When no answer to the continue prompt is a refusal, the loop of `run` runs
to the end of the levels and appends the reward of each level it plays, in
order. -/
theorem runLoop_all_yes (g : GameEngine) (inp : IStream)
    (hle : g.currentLevel_ ≤ g.levels_.length)
    (hyes : ∀ a ∈ answers (runLoop g inp).trace, a = true) :
    (runLoop g inp).returned = false ∧
    (runLoop g inp).engine.currentLevel_ = g.levels_.length ∧
    (runLoop g inp).engine.inventory_ =
      g.inventory_ ++ (g.levels_.drop g.currentLevel_).map Level.reward_ ∧
    answers (runLoop g inp).trace =
      List.replicate (g.levels_.length - g.currentLevel_) true := by
  induction g, inp using runLoop_induction with
  | done g inp h =>
    rw [runLoop_done g inp h]
    refine ⟨rfl, le_antisymm hle h, ?_, ?_⟩
    · simp [List.drop_of_length_le h]
    · simp [answers, Nat.sub_eq_zero_of_le h]
  | no g inp h hn =>
    obtain ⟨-, -, -, -, hans, -⟩ := playLevel_engine g inp h
    rw [runLoop_no g inp h hn] at hyes
    have := hyes false (by
      simp [answers_append, answers, hans, answers_showInventory])
    simp at this
  | yes g inp h hy ih =>
    obtain ⟨hlen, hcur, hinvr, hdrop, hans, -⟩ := playLevel_engine g inp h
    have hstep := runLoop_yes g inp h hy
    set g2 : GameEngine := { (playLevel g g.currentLevel_ inp).engine with
      currentLevel_ := (playLevel g g.currentLevel_ inp).engine.currentLevel_ + 1 } with hg2
    have e1 : g2.levels_.length = g.levels_.length := hlen
    have e2 : g2.currentLevel_ = g.currentLevel_ + 1 := by rw [hg2, hcur]
    have e3 : g2.inventory_ = g.inventory_ ++ [(g.levels_.get ⟨g.currentLevel_, h⟩).reward_] :=
      hinvr
    have e4 : g2.levels_.drop (g.currentLevel_ + 1) = g.levels_.drop (g.currentLevel_ + 1) :=
      hdrop
    have htr : answers (runLoop g inp).trace = true ::
        answers (runLoop g2 (askYesNo (playLevel g g.currentLevel_ inp).input).2).trace :=
      answers_runLoop_yes g inp h hy
    obtain ⟨ih1, ih2, ih3, ih4⟩ := ih (by rw [e1, e2]; exact h)
      (fun a ha => hyes a (by rw [htr]; exact List.mem_cons_of_mem _ ha))
    rw [e1] at ih2
    rw [e2, e3, e4] at ih3
    rw [e1, e2] at ih4
    refine ⟨?_, ?_, ?_, ?_⟩
    · rw [hstep]; exact ih1
    · rw [hstep]; exact ih2
    · rw [hstep]
      show (runLoop g2 _).engine.inventory_ = _
      rw [ih3, List.drop_eq_getElem_cons h, List.map_cons, List.append_assoc]
      rfl
    · rw [htr, ih4]
      have : g.levels_.length - g.currentLevel_ =
          (g.levels_.length - (g.currentLevel_ + 1)) + 1 := by omega
      rw [this, List.replicate_succ]

/-- C10: when every answer to the continue prompt is a yes, `run` reaches the
victory screen with `currentLevel_ == 5` and with the inventory equal to the
five reward labels of the curriculum in curriculum order, each once; the
prompt was then answered five times. -/
theorem run_all_yes_victory (inp : IStream)
    (hyes : ∀ a ∈ answers (run new inp).trace, a = true) :
    (run new inp).engine.currentLevel_ = 5 ∧
    (run new inp).engine.inventory_ = new.levels_.map Level.getReward ∧
    (run new inp).engine.inventory_ =
      ["📜 Auto Deduction Scroll".toList, "🏅 Lambda Mastery Badge".toList,
       "🛡️ Memory Guardian Shield".toList, "🚀 Move Semantics Mastery".toList,
       "👑 C++17 Grandmaster Crown".toList] ∧
    (run new inp).engine.inventory_.Nodup ∧
    EngineEvent.showVictory (run new inp).engine.inventory_ ∈ (run new inp).trace ∧
    answers (run new inp).trace = [true, true, true, true, true] := by
  have hsub : ∀ a ∈ answers (runLoop new (waitForInput inp)).trace, a = true := by
    intro a ha
    apply hyes a
    cases hr : (runLoop new (waitForInput inp)).returned with
    | false =>
      rw [run_of_finished new inp hr]
      simp [answers_append, answers, ha]
    | true =>
      rw [run_of_returned new inp hr]
      simp [answers_append, answers, ha]
  obtain ⟨hret, hcur, hinv, hans⟩ := runLoop_all_yes new (waitForInput inp) (by decide) hsub
  have hinv2 : (run new inp).engine.inventory_ =
      ["📜 Auto Deduction Scroll".toList, "🏅 Lambda Mastery Badge".toList,
       "🛡️ Memory Guardian Shield".toList, "🚀 Move Semantics Mastery".toList,
       "👑 C++17 Grandmaster Crown".toList] := by
    rw [run_engine, hinv]
    rfl
  refine ⟨?_, ?_, hinv2, ?_, ?_, ?_⟩
  · rw [run_engine, hcur]
    rfl
  · rw [hinv2]
    rfl
  · rw [hinv2]
    decide
  · rw [run_of_finished new inp hret]
    simp
  · rw [run_of_finished new inp hret]
    show answers ([EngineEvent.showWelcome] ++ (runLoop new (waitForInput inp)).trace ++
      [EngineEvent.showVictory (runLoop new (waitForInput inp)).engine.inventory_,
        EngineEvent.state Point.exit (runLoop new (waitForInput inp)).engine]) = _
    rw [answers_append, answers_append, hans]
    rfl

theorem answers_run (g : GameEngine) (inp : IStream) :
    answers (run g inp).trace = answers (runLoop g (waitForInput inp)).trace := by
  cases hr : (runLoop g (waitForInput inp)).returned with
  | false =>
    rw [run_of_finished g inp hr]
    show answers ([EngineEvent.showWelcome] ++ (runLoop g (waitForInput inp)).trace ++
      [EngineEvent.showVictory (runLoop g (waitForInput inp)).engine.inventory_,
        EngineEvent.state Point.exit (runLoop g (waitForInput inp)).engine]) = _
    rw [answers_append, answers_append]
    simp [answers]
  | true =>
    rw [run_of_returned g inp hr]
    show answers ([EngineEvent.showWelcome] ++ (runLoop g (waitForInput inp)).trace ++
      [EngineEvent.state Point.exit (runLoop g (waitForInput inp)).engine]) = _
    rw [answers_append, answers_append]
    simp [answers]

theorem play_script_input (l : Level) (rest : IStream)
    (hv : l.validator_ [] = false) (hc : l.completed_ = false) :
    (Level.play l ('D' :: 'O' :: 'N' :: 'E' :: '\n' :: '3' :: '\n' :: rest)).input = rest := by
  simp [Level.play, Level.playLoop, Level.getUserCode_done, getline, Level.maxAttempts,
    Level.validateSolution, hv, hc]

/-- One iteration of the loop of `run` on the script: an empty submission that
fails, the menu line `3`, and the answer `y`. -/
theorem answers_runLoop_script (g : GameEngine) (rest : IStream)
    (h : g.currentLevel_ < g.levels_.length)
    (hv : (g.levels_.get ⟨g.currentLevel_, h⟩).validator_ [] = false)
    (hc : (g.levels_.get ⟨g.currentLevel_, h⟩).completed_ = false) :
    answers (runLoop g ("DONE\n3\ny\n".toList ++ rest)).trace =
      true :: answers (runLoop
        { levels_ := g.levels_.set g.currentLevel_
            { g.levels_.get ⟨g.currentLevel_, h⟩ with completed_ := true },
          inventory_ := g.inventory_ ++ [(g.levels_.get ⟨g.currentLevel_, h⟩).reward_],
          currentLevel_ := g.currentLevel_ + 1 } rest).trace := by
  have hin : (playLevel g g.currentLevel_ ("DONE\n3\ny\n".toList ++ rest)).input =
      'y' :: '\n' :: rest := by
    rw [playLevel_eq g _ _ h]
    exact play_script_input _ ('y' :: '\n' :: rest) hv hc
  have hy : (askYesNo (playLevel g g.currentLevel_ ("DONE\n3\ny\n".toList ++ rest)).input).1 =
      true := by
    rw [hin]
    simp [askYesNo, getline]
  have hrest : (askYesNo (playLevel g g.currentLevel_ ("DONE\n3\ny\n".toList ++ rest)).input).2 =
      rest := by
    rw [hin]
    simp [askYesNo, getline]
  have heq : ({ (playLevel g g.currentLevel_ ("DONE\n3\ny\n".toList ++ rest)).engine with
      currentLevel_ :=
        (playLevel g g.currentLevel_ ("DONE\n3\ny\n".toList ++ rest)).engine.currentLevel_ + 1 } :
      GameEngine) =
      { levels_ := g.levels_.set g.currentLevel_
          { g.levels_.get ⟨g.currentLevel_, h⟩ with completed_ := true },
        inventory_ := g.inventory_ ++ [(g.levels_.get ⟨g.currentLevel_, h⟩).reward_],
        currentLevel_ := g.currentLevel_ + 1 } := by
    rw [playLevel_eq g _ _ h]
  rw [answers_runLoop_yes g _ h hy, hrest, heq]

theorem run_all_yes_victory_witness :
    (∀ a ∈ answers (run new
      "\nDONE\n3\ny\nDONE\n3\ny\nDONE\n3\ny\nDONE\n3\ny\nDONE\n3\ny\n".toList).trace, a = true) ∧
    (run new "\nDONE\n3\ny\nDONE\n3\ny\nDONE\n3\ny\nDONE\n3\ny\nDONE\n3\ny\n".toList).engine.currentLevel_
      = 5 ∧
    (run new "\nDONE\n3\ny\nDONE\n3\ny\nDONE\n3\ny\nDONE\n3\ny\nDONE\n3\ny\n".toList).engine.inventory_
      = new.levels_.map Level.getReward :=
  have hinp : waitForInput "\nDONE\n3\ny\nDONE\n3\ny\nDONE\n3\ny\nDONE\n3\ny\nDONE\n3\ny\n".toList =
      "DONE\n3\ny\n".toList ++ ("DONE\n3\ny\n".toList ++ ("DONE\n3\ny\n".toList ++
        ("DONE\n3\ny\n".toList ++ ("DONE\n3\ny\n".toList ++ [])))) := by decide
  have hans : answers (run new
      "\nDONE\n3\ny\nDONE\n3\ny\nDONE\n3\ny\nDONE\n3\ny\nDONE\n3\ny\n".toList).trace =
      [true, true, true, true, true] := by
    rw [answers_run, hinp,
      answers_runLoop_script _ _ (by decide) (by decide) (by decide),
      answers_runLoop_script _ _ (by decide) (by decide) (by decide),
      answers_runLoop_script _ _ (by decide) (by decide) (by decide),
      answers_runLoop_script _ _ (by decide) (by decide) (by decide),
      answers_runLoop_script _ _ (by decide) (by decide) (by decide),
      runLoop_done _ _ (by decide)]
    rfl
  have hyes : ∀ a ∈ answers (run new
      "\nDONE\n3\ny\nDONE\n3\ny\nDONE\n3\ny\nDONE\n3\ny\nDONE\n3\ny\n".toList).trace, a = true := by
    rw [hans]
    decide
  ⟨hyes, (run_all_yes_victory _ hyes).1, (run_all_yes_victory _ hyes).2.1⟩

end GameEngine
end CppCodeQuest

namespace CppCodeQuest

/-! ## Reading lines -/

theorem takeWhile_line (l rest : List Char) (h : '\n' ∉ l) :
    (l ++ '\n' :: rest).takeWhile (fun c => c != '\n') = l := by
  induction l with
  | nil => simp
  | cons c t ih =>
    simp only [List.mem_cons, not_or] at h
    have hc : (c != '\n') = true := by simpa using fun hh => h.1 hh.symm
    simp [List.takeWhile_cons, hc, ih h.2]

theorem dropWhile_line (l rest : List Char) (h : '\n' ∉ l) :
    (l ++ '\n' :: rest).dropWhile (fun c => c != '\n') = '\n' :: rest := by
  induction l with
  | nil => simp
  | cons c t ih =>
    simp only [List.mem_cons, not_or] at h
    have hc : (c != '\n') = true := by simpa using fun hh => h.1 hh.symm
    simp [List.dropWhile_cons, hc, ih h.2]

/-- A line that ends with a newline is extracted whole, and the newline is
consumed. -/
theorem getline_line (l rest : List Char) (h : '\n' ∉ l) :
    getline (l ++ '\n' :: rest) = (true, l, rest) := by
  have ht := takeWhile_line l rest h
  have hd := dropWhile_line l rest h
  cases l with
  | nil => simp [getline]
  | cons c t =>
    simp only [List.cons_append] at ht hd ⊢
    simp only [getline, ht, hd, List.tail_cons]

/-- A last line without a newline is extracted too, and leaves the stream at
end-of-file. -/
theorem getline_last (l : List Char) (h : '\n' ∉ l) (hne : l ≠ []) :
    getline l = (true, l, []) := by
  have ht : l.takeWhile (fun c => c != '\n') = l := by
    rw [List.takeWhile_eq_self_iff]
    intro c hc
    have : c ≠ '\n' := fun hh => h (by rw [← hh]; exact hc)
    simpa using this
  have hd : l.dropWhile (fun c => c != '\n') = [] := by
    rw [List.dropWhile_eq_nil_iff]
    intro c hc
    have : c ≠ '\n' := fun hh => h (by rw [← hh]; exact hc)
    simpa using this
  cases l with
  | nil => exact absurd rfl hne
  | cons c t => simp only [getline, ht, hd, List.tail_nil]

namespace Level

theorem getUserCodeLoop_lines (L : List CppString) (code : CppString) (rest : IStream)
    (hL : ∀ l ∈ L, '\n' ∉ l ∧ l ≠ "DONE".toList) :
    getUserCodeLoop code (L.flatMap (fun l => l ++ "\n".toList) ++ rest) =
      getUserCodeLoop (code ++ L.flatMap (fun l => l ++ "\n".toList)) rest := by
  induction L generalizing code with
  | nil => simp
  | cons l L ih =>
    have hl := hL l (List.mem_cons_self _ _)
    have hg : getline ((l :: L).flatMap (fun l => l ++ "\n".toList) ++ rest) =
        (true, l, L.flatMap (fun l => l ++ "\n".toList) ++ rest) := by
      have := getline_line l (L.flatMap (fun l => l ++ "\n".toList) ++ rest) hl.1
      simpa [List.flatMap_cons, List.append_assoc] using this
    rw [getUserCodeLoop, hg]
    simp only [dite_true, bne_iff_ne, ne_eq, hl.2, not_false_eq_true, if_true]
    rw [ih _ (fun x hx => hL x (List.mem_cons_of_mem _ hx))]
    simp [List.flatMap_cons, List.append_assoc]

/-- C13: when the input holds the lines `L`, none of them equal to `DONE`, then
a line `DONE`, then `rest`, `getUserCode` returns each line of `L` followed by
a newline, consumes the `DONE` line and leaves `rest` unread. The same holds
when the `DONE` line is the last of the input and has no newline. A line that
only contains `DONE` is a line of `L` like any other. -/
theorem getUserCode_until_done (L : List CppString) (rest : IStream)
    (hL : ∀ l ∈ L, '\n' ∉ l ∧ l ≠ "DONE".toList) :
    getUserCode (L.flatMap (fun l => l ++ "\n".toList) ++ ("DONE\n".toList ++ rest)) =
      (L.flatMap (fun l => l ++ "\n".toList), rest) ∧
    getUserCode (L.flatMap (fun l => l ++ "\n".toList) ++ "DONE".toList) =
      (L.flatMap (fun l => l ++ "\n".toList), []) := by
  constructor
  · rw [getUserCode, getUserCodeLoop_lines L [] _ hL, getUserCodeLoop]
    have hg : getline ("DONE\n".toList ++ rest) = (true, "DONE".toList, rest) :=
      getline_line "DONE".toList rest (by decide)
    rw [hg]
    simp
  · rw [getUserCode, getUserCodeLoop_lines L [] _ hL, getUserCodeLoop]
    have hg : getline "DONE".toList = (true, "DONE".toList, []) := by decide
    rw [hg]
    simp

theorem getUserCode_until_done_witness :
    (∀ l ∈ [" DONE".toList, "done".toList, "DONE ".toList, "int x = 1;".toList],
      '\n' ∉ l ∧ l ≠ "DONE".toList) ∧
    getUserCode (" DONE\ndone\nDONE \nint x = 1;\n".toList ++ ("DONE\n".toList ++ "3\ny\n".toList)) =
      (" DONE\ndone\nDONE \nint x = 1;\n".toList, "3\ny\n".toList) :=
  have hL : ∀ l ∈ [" DONE".toList, "done".toList, "DONE ".toList, "int x = 1;".toList],
      '\n' ∉ l ∧ l ≠ "DONE".toList := by decide
  ⟨hL, (getUserCode_until_done _ "3\ny\n".toList hL).1⟩

end Level
end CppCodeQuest

namespace CppCodeQuest
namespace GameEngine

/-- C14: on a response line, `askYesNo` answers yes exactly when the line is
not empty and its first character is `y` or `Y`; it consumes the line. The
empty line, a line with a blank before the `y`, and the end of the input are
answered no. -/
theorem askYesNo_spec (response : CppString) (rest : IStream) (h : '\n' ∉ response) :
    ((askYesNo (response ++ '\n' :: rest)).1 = true ↔
      ∃ c t, response = c :: t ∧ (c = 'y' ∨ c = 'Y')) ∧
    (askYesNo (response ++ '\n' :: rest)).2 = rest ∧
    (askYesNo ('\n' :: rest)).1 = false ∧
    (askYesNo (' ' :: 'y' :: '\n' :: rest)).1 = false ∧
    (askYesNo []).1 = false := by
  have hg := getline_line response rest h
  refine ⟨?_, ?_, ?_, ?_, ?_⟩
  · unfold askYesNo
    rw [hg]
    cases response with
    | nil => simp
    | cons c t => simp
  · unfold askYesNo
    rw [hg]
  · have := getline_line [] rest (by simp)
    unfold askYesNo
    rw [List.nil_append] at this
    rw [this]
  · have := getline_line [' ', 'y'] rest (by decide)
    unfold askYesNo
    simp only [List.cons_append, List.nil_append] at this
    rw [this]
    rfl
  · decide

theorem askYesNo_spec_witness :
    '\n' ∉ "Yes please".toList ∧
    (askYesNo ("Yes please".toList ++ '\n' :: "DONE\n".toList)).1 = true ∧
    (askYesNo ("Yes please".toList ++ '\n' :: "DONE\n".toList)).2 = "DONE\n".toList :=
  have h : '\n' ∉ "Yes please".toList := by decide
  ⟨h, (askYesNo_spec _ "DONE\n".toList h).1.mpr ⟨'Y', "es please".toList, rfl, Or.inr rfl⟩,
    (askYesNo_spec _ "DONE\n".toList h).2.1⟩

end GameEngine
end CppCodeQuest

namespace CppCodeQuest
namespace GameEngine

/-! ## Declining to continue -/

/-- When a list that ends with `tl` is cut at an element that does not occur
in `tl`, the cut lies before `tl`. -/
theorem split_before_tail {α : Type} (tl : List α) {e : α} {l pre post : List α}
    (hne : e ∉ tl) (h : l ++ tl = pre ++ e :: post) :
    ∃ mid, post = mid ++ tl ∧ l = pre ++ e :: mid := by
  induction l generalizing pre with
  | nil =>
    simp only [List.nil_append] at h
    exact absurd (by rw [h]; simp) hne
  | cons x l ih =>
    cases pre with
    | nil =>
      simp only [List.cons_append, List.nil_append, List.cons.injEq] at h
      exact ⟨l, h.2.symm, by simp [h.1]⟩
    | cons y pre =>
      simp only [List.cons_append, List.cons.injEq] at h
      obtain ⟨mid, h1, h2⟩ := ih h.2
      exact ⟨mid, h1, by simp [h.1, h2]⟩

theorem playLevel_trace_mem (g : GameEngine) (i : Nat) (inp : IStream) (e : EngineEvent)
    (h : e ∈ (playLevel g i inp).trace) :
    (∃ ev, e = EngineEvent.level ev) ∨ ∃ r, e = EngineEvent.levelCompleted r := by
  by_cases hi : i < g.levels_.length
  · rw [playLevel_eq g i inp hi] at h
    simp only [List.mem_append, List.mem_map, List.mem_singleton] at h
    rcases h with ⟨ev, -, rfl⟩ | rfl
    · exact Or.inl ⟨ev, rfl⟩
    · exact Or.inr ⟨_, rfl⟩
  · rw [playLevel, dif_pos (by omega)] at h
    simp at h

theorem showInventory_mem (g : GameEngine) (e : EngineEvent) (h : e ∈ g.showInventory) :
    e = EngineEvent.showInventory g.inventory_ := by
  unfold showInventory at h
  split at h <;> simp at h
  exact h

theorem showVictory_not_mem_runLoop (g : GameEngine) (inp : IStream) (items : List CppString) :
    EngineEvent.showVictory items ∉ (runLoop g inp).trace := by
  induction g, inp using runLoop_induction with
  | done g inp h =>
    rw [runLoop_done g inp h]
    simp
  | no g inp h hn =>
    rw [runLoop_no g inp h hn]
    intro hmem
    simp only [List.mem_append, List.mem_singleton, reduceCtorEq, or_false, false_or] at hmem
    rcases hmem with hmem | hmem
    · rcases playLevel_trace_mem _ _ _ _ hmem with ⟨ev, hev⟩ | ⟨r, hr⟩
      · simp at hev
      · simp at hr
    · have := showInventory_mem _ _ hmem
      simp at this
  | yes g inp h hy ih =>
    rw [runLoop_yes g inp h hy]
    intro hmem
    simp only [List.mem_append, List.mem_singleton, reduceCtorEq, or_false, false_or] at hmem
    rcases hmem with (hmem | hmem) | hmem
    · rcases playLevel_trace_mem _ _ _ _ hmem with ⟨ev, hev⟩ | ⟨r, hr⟩
      · simp at hev
      · simp at hr
    · have := showInventory_mem _ _ hmem
      simp at this
    · exact ih hmem

/-- The events of one iteration of the loop of `run` up to the prompt. -/
theorem askYesNo_not_mem_shown (g : GameEngine) (inp : IStream) (resp : CppString) (a : Bool) :
    EngineEvent.askYesNo resp a ∉
      [EngineEvent.state Point.loopTest g] ++ (playLevel g g.currentLevel_ inp).trace ++
        [EngineEvent.state Point.afterPlayLevel (playLevel g g.currentLevel_ inp).engine] ++
        [EngineEvent.showProgress (playLevel g g.currentLevel_ inp).engine.getProgressPercentage] ++
        (playLevel g g.currentLevel_ inp).engine.showInventory := by
  intro hmem
  simp only [List.mem_append, List.mem_singleton, reduceCtorEq, or_false, false_or] at hmem
  rcases hmem with hmem | hmem
  · rcases playLevel_trace_mem _ _ _ _ hmem with ⟨ev, hev⟩ | ⟨r, hr⟩
    · simp at hev
    · simp at hr
  · have := showInventory_mem _ _ hmem
    simp at this

/-- A refusal ends the loop of `run`: it is followed by the farewell line
alone, and the engine that the loop leaves is the engine that was recorded,
and whose progress and inventory were shown, right before the prompt. -/
theorem runLoop_declined (g : GameEngine) (inp : IStream) (resp : CppString)
    (pre post : List EngineEvent)
    (h : (runLoop g inp).trace = pre ++ EngineEvent.askYesNo resp false :: post) :
    post = [EngineEvent.saved] ∧ (runLoop g inp).returned = true ∧
    (∃ before, pre = before ++
      [EngineEvent.state Point.afterPlayLevel (runLoop g inp).engine,
        EngineEvent.showProgress (runLoop g inp).engine.getProgressPercentage] ++
      (runLoop g inp).engine.showInventory) ∧
    (runLoop g inp).engine.currentLevel_ < (runLoop g inp).engine.levels_.length := by
  induction g, inp using runLoop_induction generalizing pre with
  | done g inp hd =>
    rw [runLoop_done g inp hd] at h
    have hmem : EngineEvent.askYesNo resp false ∈
        pre ++ EngineEvent.askYesNo resp false :: post := by simp
    rw [← h] at hmem
    simp at hmem
  | no g inp hlt hn =>
    obtain ⟨hlen, hcur, -, -, -, -⟩ := playLevel_engine g inp hlt
    rw [runLoop_no g inp hlt hn] at h ⊢
    simp only [List.append_assoc] at h
    rw [← List.append_assoc, ← List.append_assoc, ← List.append_assoc,
      ← List.append_assoc] at h
    obtain ⟨mid, hpre, hmid⟩ := Level.split_after_head _ (askYesNo_not_mem_shown g inp resp false) h
    cases mid with
    | nil =>
      simp only [List.nil_append, List.singleton_append, List.cons.injEq,
        EngineEvent.askYesNo.injEq, and_true] at hmid
      refine ⟨hmid.2.symm, rfl, ⟨[EngineEvent.state Point.loopTest g] ++
        (playLevel g g.currentLevel_ inp).trace, ?_⟩, ?_⟩
      · rw [hpre]
        simp [List.append_assoc]
      · show (playLevel g g.currentLevel_ inp).engine.currentLevel_ <
          (playLevel g g.currentLevel_ inp).engine.levels_.length
        rw [hlen, hcur]
        exact hlt
    | cons x mid =>
      simp only [List.singleton_append, List.cons_append, List.cons.injEq] at hmid
      have hmem : EngineEvent.askYesNo resp false ∈ [] ++ [EngineEvent.saved] := by
        rw [hmid.2]; simp
      simp at hmem
  | yes g inp hlt hy ih =>
    rw [runLoop_yes g inp hlt hy] at h ⊢
    have hne : EngineEvent.askYesNo resp false ∉
        [EngineEvent.state Point.loopTest g] ++ (playLevel g g.currentLevel_ inp).trace ++
        [EngineEvent.state Point.afterPlayLevel (playLevel g g.currentLevel_ inp).engine] ++
        [EngineEvent.showProgress (playLevel g g.currentLevel_ inp).engine.getProgressPercentage] ++
        (playLevel g g.currentLevel_ inp).engine.showInventory ++
        [EngineEvent.askYesNo (getline (playLevel g g.currentLevel_ inp).input).2.1 true] ++
        [EngineEvent.clearScreen] := by
      intro hmem
      rw [List.mem_append, List.mem_append] at hmem
      rcases hmem with (hmem | hmem) | hmem
      · exact askYesNo_not_mem_shown g inp resp false hmem
      · simp at hmem
      · simp at hmem
    dsimp only at h ⊢
    generalize [EngineEvent.state Point.loopTest g] ++ (playLevel g g.currentLevel_ inp).trace ++
        [EngineEvent.state Point.afterPlayLevel (playLevel g g.currentLevel_ inp).engine] ++
        [EngineEvent.showProgress (playLevel g g.currentLevel_ inp).engine.getProgressPercentage] ++
        (playLevel g g.currentLevel_ inp).engine.showInventory ++
        [EngineEvent.askYesNo (getline (playLevel g g.currentLevel_ inp).input).2.1 true] ++
        [EngineEvent.clearScreen] = hd at h hne
    obtain ⟨mid, hpre, hmid⟩ := Level.split_after_head hd hne h
    obtain ⟨hpost, hret, ⟨before, hbefore⟩, hlt2⟩ := ih mid hmid
    refine ⟨hpost, hret, ⟨hd ++ before, ?_⟩, hlt2⟩
    rw [hpre, hbefore]
    simp only [List.append_assoc]

end GameEngine
end CppCodeQuest

namespace CppCodeQuest
namespace GameEngine

/-- C11: when an answer to the continue prompt of `run` is a no, after
whichever challenge, `run` returns at once: the refusal is followed by the
farewell line and the return alone, no victory screen is printed,
`currentLevel_` is below `levels_.size()`, and the engine that `run` leaves,
its inventory included, is the engine as it was recorded, and as its
inventory was listed, right before the prompt. -/
theorem run_declined (g : GameEngine) (inp : IStream) (resp : CppString)
    (pre post : List EngineEvent)
    (h : (run g inp).trace = pre ++ EngineEvent.askYesNo resp false :: post) :
    post = [EngineEvent.saved, EngineEvent.state Point.exit (run g inp).engine] ∧
    (∃ before, pre = before ++
      [EngineEvent.state Point.afterPlayLevel (run g inp).engine,
        EngineEvent.showProgress (run g inp).engine.getProgressPercentage] ++
      (run g inp).engine.showInventory) ∧
    (∀ items, EngineEvent.showVictory items ∉ (run g inp).trace) ∧
    (run g inp).engine.currentLevel_ < (run g inp).engine.levels_.length := by
  have key : ∃ mid, (runLoop g (waitForInput inp)).trace =
      mid ++ EngineEvent.askYesNo resp false :: [EngineEvent.saved] ∧
      pre = [EngineEvent.showWelcome] ++ mid ∧
      (runLoop g (waitForInput inp)).returned = true ∧
      post = [EngineEvent.saved, EngineEvent.state Point.exit (run g inp).engine] := by
    rw [run_engine]
    cases hr : (runLoop g (waitForInput inp)).returned with
    | false =>
      rw [run_of_finished g inp hr] at h
      simp only [List.append_assoc] at h
      obtain ⟨mid, hpre, hmid⟩ := Level.split_after_head [EngineEvent.showWelcome] (by simp) h
      obtain ⟨mid2, -, hloop⟩ := split_before_tail _ (by simp) hmid
      have := (runLoop_declined g _ resp mid mid2 hloop).2.1
      rw [hr] at this
      simp at this
    | true =>
      rw [run_of_returned g inp hr] at h
      simp only [List.append_assoc] at h
      obtain ⟨mid, hpre, hmid⟩ := Level.split_after_head [EngineEvent.showWelcome] (by simp) h
      obtain ⟨mid2, hpost, hloop⟩ := split_before_tail _ (by simp) hmid
      have hm2 := (runLoop_declined g _ resp mid mid2 hloop).1
      subst hm2
      exact ⟨mid, hloop, hpre, rfl, hpost⟩
  obtain ⟨mid, hloop, hpre, hret, hpost⟩ := key
  obtain ⟨-, -, ⟨before, hbefore⟩, hlt⟩ := runLoop_declined g _ resp mid _ hloop
  refine ⟨hpost, ⟨[EngineEvent.showWelcome] ++ before, ?_⟩, ?_, ?_⟩
  · rw [hpre, hbefore, run_engine]
    simp only [List.append_assoc]
  · intro items hmem
    rw [run_of_returned g inp hret] at hmem
    simp only [List.mem_append, List.mem_singleton, reduceCtorEq, or_false, false_or] at hmem
    exact showVictory_not_mem_runLoop g _ items hmem
  · rw [run_engine]
    exact hlt

theorem run_declined_witness :
    (∃ pre, (run new "\nDONE\n3\nn\n".toList).trace =
      pre ++ EngineEvent.askYesNo "n".toList false ::
        [EngineEvent.saved,
          EngineEvent.state Point.exit (run new "\nDONE\n3\nn\n".toList).engine]) ∧
    (∀ items, EngineEvent.showVictory items ∉ (run new "\nDONE\n3\nn\n".toList).trace) ∧
    (run new "\nDONE\n3\nn\n".toList).engine.currentLevel_ <
      (run new "\nDONE\n3\nn\n".toList).engine.levels_.length := by
  have hlt : new.currentLevel_ < new.levels_.length := by decide
  have hloop := runLoop_no new (waitForInput "\nDONE\n3\nn\n".toList) hlt playLevel_declined_input
  have hret : (runLoop new (waitForInput "\nDONE\n3\nn\n".toList)).returned = true := by
    rw [hloop]
  have hin : (getline (playLevel new new.currentLevel_
      (waitForInput "\nDONE\n3\nn\n".toList)).input).2.1 = "n".toList := by
    have hv : validator1 [] = false := by decide
    rw [playLevel_eq new _ _ hlt]
    simp [waitForInput, Level.play, Level.playLoop, Level.getUserCode_done, getline,
      Level.maxAttempts, Level.validateSolution, hv, new, initializeLevels, level1, Level.new]
  have htrace : (run new "\nDONE\n3\nn\n".toList).trace =
      ([EngineEvent.showWelcome] ++ ([EngineEvent.state Point.loopTest new] ++
        (playLevel new new.currentLevel_ (waitForInput "\nDONE\n3\nn\n".toList)).trace ++
        [EngineEvent.state Point.afterPlayLevel
          (playLevel new new.currentLevel_ (waitForInput "\nDONE\n3\nn\n".toList)).engine] ++
        [EngineEvent.showProgress (playLevel new new.currentLevel_
          (waitForInput "\nDONE\n3\nn\n".toList)).engine.getProgressPercentage] ++
        (playLevel new new.currentLevel_
          (waitForInput "\nDONE\n3\nn\n".toList)).engine.showInventory)) ++
      EngineEvent.askYesNo "n".toList false ::
        [EngineEvent.saved,
          EngineEvent.state Point.exit (run new "\nDONE\n3\nn\n".toList).engine] := by
    rw [run_engine, run_of_returned new _ hret, hloop, hin]
    simp only [List.append_assoc, List.cons_append, List.nil_append]
  exact ⟨⟨_, htrace⟩, (run_declined new _ _ _ _ htrace).2.2.1,
    (run_declined new _ _ _ _ htrace).2.2.2⟩

end GameEngine
end CppCodeQuest

namespace CppCodeQuest

/-! ## The progress percentage -/

namespace Double

theorem roundHalfEven_of_lt (q : ℚ) (f : ℤ) (h1 : (f : ℚ) ≤ q) (h2 : q - f < 1 / 2) :
    roundHalfEven q = f := by
  have hf : ⌊q⌋ = f := by
    rw [Int.floor_eq_iff]
    constructor
    · exact h1
    · linarith
  unfold roundHalfEven
  rw [hf, if_pos h2]

theorem roundHalfEven_of_gt (q : ℚ) (f : ℤ) (h1 : 1 / 2 < q - f) (h2 : q < f + 1) :
    roundHalfEven q = f + 1 := by
  have hf : ⌊q⌋ = f := by
    rw [Int.floor_eq_iff]
    constructor
    · linarith
    · exact h2
  unfold roundHalfEven
  rw [hf, if_neg (by linarith), if_pos h1]

theorem nearest_eq (q : ℚ) (e n : ℤ) (hq : 0 < q) (h1 : (2 : ℚ) ^ e ≤ q)
    (h2 : q < (2 : ℚ) ^ (e + 1)) (hn : roundHalfEven (q / 2 ^ (e - 52)) = n) :
    nearest q = (n : ℚ) * 2 ^ (e - 52) := by
  have hlog : Int.log 2 |q| = e := by
    rw [abs_of_pos hq]
    apply le_antisymm
    · have := (Int.lt_zpow_iff_log_lt (b := 2) (by norm_num) hq (x := e + 1)).mp
        (by exact_mod_cast h2)
      omega
    · exact (Int.zpow_le_iff_le_log (b := 2) (by norm_num) hq).mp (by exact_mod_cast h1)
  unfold nearest
  rw [if_neg (ne_of_gt hq), hlog, hn]

theorem ofNat_zero : ofNat 0 = 0 := by
  simp [ofNat, nearest]

theorem nearest_small (k : ℕ) (e : ℤ) (hk : 0 < k) (h1 : (2 : ℚ) ^ e ≤ k)
    (h2 : (k : ℚ) < (2 : ℚ) ^ (e + 1)) (m : ℤ) (hm : (k : ℚ) / 2 ^ (e - 52) = m) :
    nearest (k : ℚ) = k := by
  rw [nearest_eq (k : ℚ) e m (by exact_mod_cast hk) h1 h2
    (by rw [hm]; exact roundHalfEven_of_lt _ m le_rfl (by norm_num)), ← hm]
  have : (2 : ℚ) ^ (e - 52) ≠ 0 := zpow_ne_zero _ (by norm_num)
  field_simp

theorem ofNat_one : ofNat 1 = 1 := by
  have := nearest_small 1 0 (by norm_num) (by norm_num) (by norm_num) (2 ^ 52) (by norm_num)
  simpa [ofNat] using this

theorem ofNat_two : ofNat 2 = 2 := by
  have := nearest_small 2 1 (by norm_num) (by norm_num) (by norm_num) (2 ^ 52) (by norm_num)
  simpa [ofNat] using this

theorem ofNat_three : ofNat 3 = 3 := by
  have := nearest_small 3 1 (by norm_num) (by norm_num) (by norm_num) (3 * 2 ^ 51) (by norm_num)
  simpa [ofNat] using this

theorem ofNat_four : ofNat 4 = 4 := by
  have := nearest_small 4 2 (by norm_num) (by norm_num) (by norm_num) (2 ^ 52) (by norm_num)
  simpa [ofNat] using this

theorem ofNat_five : ofNat 5 = 5 := by
  have := nearest_small 5 2 (by norm_num) (by norm_num) (by norm_num) (5 * 2 ^ 50) (by norm_num)
  simpa [ofNat] using this

/-- `1.0 / 5.0` is `0.2` rounded up, and a hundred times it rounds to `20.0`. -/
theorem percentage_one_of_five : mul (div 1 5) 100 = 20 := by
  have hd : div 1 5 = 7205759403792794 / 2 ^ 55 := by
    unfold div
    rw [nearest_eq (1 / 5) (-3) 7205759403792794 (by norm_num) (by norm_num) (by norm_num)
      (by
        have := roundHalfEven_of_gt ((1 / 5 : ℚ) / 2 ^ ((-3 : ℤ) - 52)) 7205759403792793
          (by norm_num) (by norm_num)
        simpa using this)]
    norm_num
  unfold mul
  rw [hd, nearest_eq _ 4 5629499534213120 (by norm_num) (by norm_num) (by norm_num)
    (roundHalfEven_of_lt _ 5629499534213120 (by norm_num) (by norm_num))]
  norm_num

theorem percentage_two_of_five : mul (div 2 5) 100 = 40 := by
  have hd : div 2 5 = 7205759403792794 / 2 ^ 54 := by
    unfold div
    rw [nearest_eq (2 / 5) (-2) 7205759403792794 (by norm_num) (by norm_num) (by norm_num)
      (by
        have := roundHalfEven_of_gt ((2 / 5 : ℚ) / 2 ^ ((-2 : ℤ) - 52)) 7205759403792793
          (by norm_num) (by norm_num)
        simpa using this)]
    norm_num
  unfold mul
  rw [hd, nearest_eq _ 5 5629499534213120 (by norm_num) (by norm_num) (by norm_num)
    (roundHalfEven_of_lt _ 5629499534213120 (by norm_num) (by norm_num))]
  norm_num

theorem percentage_three_of_five : mul (div 3 5) 100 = 60 := by
  have hd : div 3 5 = 5404319552844595 / 2 ^ 53 := by
    unfold div
    rw [nearest_eq (3 / 5) (-1) 5404319552844595 (by norm_num) (by norm_num) (by norm_num)
      (roundHalfEven_of_lt _ 5404319552844595 (by norm_num) (by norm_num))]
    norm_num
  unfold mul
  rw [hd, nearest_eq _ 5 8444249301319680 (by norm_num) (by norm_num) (by norm_num)
    (by
      have := roundHalfEven_of_gt
        ((5404319552844595 / 2 ^ 53 * 100 : ℚ) / 2 ^ ((5 : ℤ) - 52)) 8444249301319679
        (by norm_num) (by norm_num)
      simpa using this)]
  norm_num

theorem percentage_four_of_five : mul (div 4 5) 100 = 80 := by
  have hd : div 4 5 = 7205759403792794 / 2 ^ 53 := by
    unfold div
    rw [nearest_eq (4 / 5) (-1) 7205759403792794 (by norm_num) (by norm_num) (by norm_num)
      (by
        have := roundHalfEven_of_gt ((4 / 5 : ℚ) / 2 ^ ((-1 : ℤ) - 52)) 7205759403792793
          (by norm_num) (by norm_num)
        simpa using this)]
    norm_num
  unfold mul
  rw [hd, nearest_eq _ 6 5629499534213120 (by norm_num) (by norm_num) (by norm_num)
    (roundHalfEven_of_lt _ 5629499534213120 (by norm_num) (by norm_num))]
  norm_num

theorem percentage_zero_of_five : mul (div 0 5) 100 = 0 := by
  simp [mul, div, nearest]

end Double
end CppCodeQuest

namespace CppCodeQuest
namespace GameEngine

/-- With five levels the percentage is twenty times the index of the current
level, with no rounding error left. -/
theorem getProgressPercentage_of_five (g : GameEngine) (h5 : g.levels_.length = 5)
    (hlt : g.currentLevel_ < 5) :
    g.getProgressPercentage = 20 * (g.currentLevel_ : ℚ) := by
  have hne : g.levels_.isEmpty = false := by
    cases hl : g.levels_ with
    | nil => rw [hl] at h5; simp at h5
    | cons x t => rfl
  unfold getProgressPercentage
  rw [hne, h5, Double.ofNat_five]
  simp only [Bool.false_eq_true, if_false]
  have hc : g.currentLevel_ = 0 ∨ g.currentLevel_ = 1 ∨ g.currentLevel_ = 2 ∨
      g.currentLevel_ = 3 ∨ g.currentLevel_ = 4 := by omega
  rcases hc with hc | hc | hc | hc | hc <;> rw [hc]
  · rw [Double.ofNat_zero, Double.percentage_zero_of_five]; norm_num
  · rw [Double.ofNat_one, Double.percentage_one_of_five]; norm_num
  · rw [Double.ofNat_two, Double.percentage_two_of_five]; norm_num
  · rw [Double.ofNat_three, Double.percentage_three_of_five]; norm_num
  · rw [Double.ofNat_four, Double.percentage_four_of_five]; norm_num

theorem showProgress_not_mem_playLevel (g : GameEngine) (i : Nat) (inp : IStream) (pct : ℚ) :
    EngineEvent.showProgress pct ∉ (playLevel g i inp).trace := by
  intro hmem
  rcases playLevel_trace_mem _ _ _ _ hmem with ⟨ev, hev⟩ | ⟨r, hr⟩
  · simp at hev
  · simp at hr

theorem showProgress_not_mem_showInventory (g : GameEngine) (pct : ℚ) :
    EngineEvent.showProgress pct ∉ g.showInventory := by
  intro hmem
  have := showInventory_mem _ _ hmem
  simp at this

/-- Where a progress line can stand in one iteration of the loop of `run`. -/
theorem progress_split (g0 s : GameEngine) (T rest pre post : List EngineEvent) (p pct : ℚ)
    (hT : EngineEvent.showProgress pct ∉ T)
    (h : [EngineEvent.state Point.loopTest g0] ++ (T ++
        ([EngineEvent.state Point.afterPlayLevel s] ++ ([EngineEvent.showProgress p] ++ rest))) =
      pre ++ EngineEvent.showProgress pct :: post) :
    (pre = [EngineEvent.state Point.loopTest g0] ++ T ++
        [EngineEvent.state Point.afterPlayLevel s] ∧ p = pct ∧ rest = post) ∨
    ∃ mid, pre = [EngineEvent.state Point.loopTest g0] ++ T ++
        [EngineEvent.state Point.afterPlayLevel s, EngineEvent.showProgress p] ++ mid ∧
      rest = mid ++ EngineEvent.showProgress pct :: post := by
  rw [← List.append_assoc] at h
  have hne : EngineEvent.showProgress pct ∉ [EngineEvent.state Point.loopTest g0] ++ T := by
    simpa using hT
  obtain ⟨mid, hpre, hmid⟩ := Level.split_after_head _ hne h
  cases mid with
  | nil =>
    simp at hmid
  | cons x mid =>
    cases mid with
    | nil =>
      simp only [List.singleton_append, List.cons_append, List.nil_append, List.cons.injEq,
        EngineEvent.showProgress.injEq] at hmid
      left
      exact ⟨by rw [hpre, ← hmid.1], hmid.2.1, hmid.2.2⟩
    | cons y mid =>
      simp only [List.singleton_append, List.cons_append, List.nil_append,
        List.cons.injEq] at hmid
      right
      refine ⟨mid, ?_, hmid.2.2⟩
      rw [hpre, ← hmid.1, ← hmid.2.1]
      simp only [List.append_assoc, List.cons_append, List.nil_append]

/-- A progress line in the loop of `run` comes right after the return of
`playLevel` and shows the percentage of the engine as it is then. -/
theorem runLoop_progress (g : GameEngine) (inp : IStream) (pct : ℚ)
    (pre post : List EngineEvent)
    (h : (runLoop g inp).trace = pre ++ EngineEvent.showProgress pct :: post) :
    ∃ before s, pre = before ++ [EngineEvent.state Point.afterPlayLevel s] ∧
      pct = s.getProgressPercentage ∧
      EngineEvent.state Point.afterPlayLevel s ∈ (runLoop g inp).trace := by
  induction g, inp using runLoop_induction generalizing pre with
  | done g inp hd =>
    rw [runLoop_done g inp hd] at h
    have hmem : EngineEvent.showProgress pct ∈
        pre ++ EngineEvent.showProgress pct :: post := by simp
    rw [← h] at hmem
    simp at hmem
  | no g inp hlt hn =>
    rw [runLoop_no g inp hlt hn] at h ⊢
    simp only [List.append_assoc] at h
    rcases progress_split _ _ _ _ _ _ _ _ (showProgress_not_mem_playLevel g _ inp pct) h with
      ⟨hpre, hp, -⟩ | ⟨mid, -, hrest⟩
    · exact ⟨_, _, hpre, hp.symm, by simp⟩
    · have hmem : EngineEvent.showProgress pct ∈
          (playLevel g g.currentLevel_ inp).engine.showInventory ++
          ([EngineEvent.askYesNo (getline (playLevel g g.currentLevel_ inp).input).2.1 false] ++
            [EngineEvent.saved]) := by
        rw [hrest]; simp
      simp only [List.mem_append, List.mem_singleton, reduceCtorEq, or_false] at hmem
      exact absurd hmem (showProgress_not_mem_showInventory _ _)
  | yes g inp hlt hy ih =>
    rw [runLoop_yes g inp hlt hy] at h ⊢
    dsimp only at h ⊢
    simp only [List.append_assoc] at h
    rcases progress_split _ _ _ _ _ _ _ _ (showProgress_not_mem_playLevel g _ inp pct) h with
      ⟨hpre, hp, -⟩ | ⟨mid, hpre, hrest⟩
    · exact ⟨_, _, hpre, hp.symm, by simp⟩
    · rw [← List.append_assoc, ← List.append_assoc] at hrest
      have hne : EngineEvent.showProgress pct ∉
          (playLevel g g.currentLevel_ inp).engine.showInventory ++
            [EngineEvent.askYesNo (getline (playLevel g g.currentLevel_ inp).input).2.1 true] ++
            [EngineEvent.clearScreen] := by
        intro hmem
        simp only [List.mem_append, List.mem_singleton, reduceCtorEq, or_false] at hmem
        exact absurd hmem (showProgress_not_mem_showInventory _ _)
      generalize (playLevel g g.currentLevel_ inp).engine.showInventory ++
            [EngineEvent.askYesNo (getline (playLevel g g.currentLevel_ inp).input).2.1 true] ++
            [EngineEvent.clearScreen] = hd2 at hrest hne
      obtain ⟨mid2, hmid2, hrec⟩ := Level.split_after_head hd2 hne hrest
      obtain ⟨before, s, hbefore, hpct, hmem⟩ := ih mid2 hrec
      refine ⟨[EngineEvent.state Point.loopTest g] ++ (playLevel g g.currentLevel_ inp).trace ++
          [EngineEvent.state Point.afterPlayLevel (playLevel g g.currentLevel_ inp).engine,
            EngineEvent.showProgress (playLevel g g.currentLevel_ inp).engine.getProgressPercentage] ++
          (hd2 ++ before), s, ?_, hpct, ?_⟩
      · rw [hpre, hmid2, hbefore]
        simp only [List.append_assoc]
      · simp only [List.mem_append]
        exact Or.inr hmem

end GameEngine
end CppCodeQuest

namespace CppCodeQuest
namespace GameEngine

/-- C12: every progress line of `run` is printed right after `playLevel` has
returned, from the engine as it is then: the reward of the challenge at index
`currentLevel_` has been appended and `currentLevel_` is not yet incremented.
The percentage shown is `100 * currentLevel_ / 5`, that is twenty times the
index of the challenge just completed: 0 after challenge 0, 20 after
challenge 1. With no levels `getProgressPercentage` returns 0. -/
theorem run_progress_percentage (inp : IStream) :
    (∀ pct pre post, (run new inp).trace = pre ++ EngineEvent.showProgress pct :: post →
      ∃ before s, pre = before ++ [EngineEvent.state Point.afterPlayLevel s] ∧
        pct = s.getProgressPercentage ∧ s.levels_.length = 5 ∧ s.currentLevel_ < 5 ∧
        s.inventory_.length = s.currentLevel_ + 1 ∧
        pct = 100 * (s.currentLevel_ : ℚ) / 5 ∧ pct = 20 * (s.currentLevel_ : ℚ)) ∧
    (∀ inv : List CppString,
      getProgressPercentage { levels_ := new.levels_, inventory_ := inv, currentLevel_ := 0 } = 0 ∧
      getProgressPercentage { levels_ := new.levels_, inventory_ := inv, currentLevel_ := 1 } =
        20) ∧
    (∀ (inv : List CppString) (cur : Nat),
      getProgressPercentage { levels_ := [], inventory_ := inv, currentLevel_ := cur } = 0) := by
  refine ⟨?_, ?_, ?_⟩
  · intro pct pre post h
    have hloop : ∃ mid mid2, pre = [EngineEvent.showWelcome] ++ mid ∧
        (runLoop new (waitForInput inp)).trace = mid ++ EngineEvent.showProgress pct :: mid2 := by
      cases hr : (runLoop new (waitForInput inp)).returned with
      | false =>
        rw [run_of_finished new inp hr] at h
        simp only [List.append_assoc] at h
        obtain ⟨mid, hpre, hmid⟩ := Level.split_after_head [EngineEvent.showWelcome] (by simp) h
        obtain ⟨mid2, -, hl⟩ := split_before_tail _ (by simp) hmid
        exact ⟨mid, mid2, hpre, hl⟩
      | true =>
        rw [run_of_returned new inp hr] at h
        simp only [List.append_assoc] at h
        obtain ⟨mid, hpre, hmid⟩ := Level.split_after_head [EngineEvent.showWelcome] (by simp) h
        obtain ⟨mid2, -, hl⟩ := split_before_tail _ (by simp) hmid
        exact ⟨mid, mid2, hpre, hl⟩
    obtain ⟨mid, mid2, hpre, hl⟩ := hloop
    obtain ⟨before, s, hbefore, hpct, hmem⟩ := runLoop_progress new _ pct mid mid2 hl
    obtain ⟨hst, -, -, -⟩ := runLoop_states new (waitForInput inp) rfl (by decide)
    obtain ⟨hlen, hcase⟩ := hst _ s hmem
    have h5 : s.levels_.length = 5 := hlen
    rcases hcase with ⟨hp, -, -⟩ | ⟨-, hinv, hlt⟩
    · simp at hp
    · have hlt5 : s.currentLevel_ < 5 := by omega
      have hval := getProgressPercentage_of_five s h5 hlt5
      refine ⟨[EngineEvent.showWelcome] ++ before, s, ?_, hpct, h5, hlt5, hinv, ?_, ?_⟩
      · rw [hpre, hbefore, List.append_assoc]
      · rw [hpct, hval]; ring
      · rw [hpct, hval]
  · intro inv
    have h0 := getProgressPercentage_of_five
      { levels_ := new.levels_, inventory_ := inv, currentLevel_ := 0 } rfl (Nat.zero_lt_succ 4)
    have h1 := getProgressPercentage_of_five
      { levels_ := new.levels_, inventory_ := inv, currentLevel_ := 1 } rfl (Nat.one_lt_succ_succ 3)
    exact ⟨by rw [h0]; simp, by rw [h1]; simp⟩
  · intro inv cur
    rfl

theorem run_progress_percentage_witness :
    ∃ pre post, (run new "\nDONE\n3\nn\n".toList).trace =
        pre ++ EngineEvent.showProgress 0 :: post ∧
      ∃ before s, pre = before ++ [EngineEvent.state Point.afterPlayLevel s] ∧
        s.currentLevel_ = 0 ∧ s.inventory_.length = 1 := by
  have hlt : new.currentLevel_ < new.levels_.length := by decide
  have hloop := runLoop_no new (waitForInput "\nDONE\n3\nn\n".toList) hlt playLevel_declined_input
  have hret : (runLoop new (waitForInput "\nDONE\n3\nn\n".toList)).returned = true := by
    rw [hloop]
  obtain ⟨hlen, hcur, -, -, -, -⟩ :=
    playLevel_engine new (waitForInput "\nDONE\n3\nn\n".toList) hlt
  have hzero : (playLevel new new.currentLevel_
      (waitForInput "\nDONE\n3\nn\n".toList)).engine.getProgressPercentage = 0 := by
    rw [getProgressPercentage_of_five _ hlen (by rw [hcur]; decide), hcur]
    simp [new, initializeLevels]
  have htrace : (run new "\nDONE\n3\nn\n".toList).trace =
      ([EngineEvent.showWelcome] ++ ([EngineEvent.state Point.loopTest new] ++
        (playLevel new new.currentLevel_ (waitForInput "\nDONE\n3\nn\n".toList)).trace ++
        [EngineEvent.state Point.afterPlayLevel
          (playLevel new new.currentLevel_ (waitForInput "\nDONE\n3\nn\n".toList)).engine])) ++
      EngineEvent.showProgress 0 ::
        ((playLevel new new.currentLevel_
          (waitForInput "\nDONE\n3\nn\n".toList)).engine.showInventory ++
        [EngineEvent.askYesNo (getline (playLevel new new.currentLevel_
          (waitForInput "\nDONE\n3\nn\n".toList)).input).2.1 false] ++
        [EngineEvent.saved] ++
        [EngineEvent.state Point.exit (runLoop new
          (waitForInput "\nDONE\n3\nn\n".toList)).engine]) := by
    rw [run_of_returned new _ hret, hloop, hzero]
    simp only [List.append_assoc, List.cons_append, List.nil_append]
  obtain ⟨before, s, hb, -, -, -, hinv, hpct, hval⟩ :=
    (run_progress_percentage "\nDONE\n3\nn\n".toList).1 0 _ _ htrace
  have hs : s.currentLevel_ = 0 := by
    have : (20 : ℚ) * (s.currentLevel_ : ℚ) = 0 := hval.symm
    have h2 : (s.currentLevel_ : ℚ) = 0 := by linarith
    exact_mod_cast h2
  exact ⟨_, _, htrace, before, s, hb, hs, by rw [hinv, hs]⟩

end GameEngine
end CppCodeQuest

namespace CppCodeQuest
namespace GameEngine

/-! ## Hints and solutions -/

/-- C15: for a level whose title is none of the five curriculum titles,
`getHintText` returns the generic hint and `getSolutionText` the text
`// Solution not available for this level`; for a level with one of the five
titles, and so for each level built by `initializeLevels`, neither function
returns its fallback. -/
theorem hint_solution_fallback :
    new.levels_.map Level.title_ =
      ["The Temple of Auto".toList, "The Lambda Sanctuary".toList,
       "The Smart Pointer Forge".toList, "The Valley of Move Semantics".toList,
       "The Citadel of Structured Bindings".toList] ∧
    (∀ l : Level, l.title_ ∉ new.levels_.map Level.title_ →
      l.getHintText = "Think about the modern C++ features introduced in C++14/17!".toList ∧
      l.getSolutionText = "// Solution not available for this level".toList) ∧
    (∀ l : Level, l.title_ ∈ new.levels_.map Level.title_ →
      l.getHintText ≠ "Think about the modern C++ features introduced in C++14/17!".toList ∧
      l.getSolutionText ≠ "// Solution not available for this level".toList) := by
  have htitles : new.levels_.map Level.title_ =
      ["The Temple of Auto".toList, "The Lambda Sanctuary".toList,
       "The Smart Pointer Forge".toList, "The Valley of Move Semantics".toList,
       "The Citadel of Structured Bindings".toList] := by decide
  refine ⟨htitles, ?_, ?_⟩
  · intro l hl
    rw [htitles] at hl
    simp only [List.mem_cons, List.mem_singleton, List.not_mem_nil, or_false, not_or] at hl
    obtain ⟨h1, h2, h3, h4, h5⟩ := hl
    constructor
    · unfold Level.getHintText
      rw [if_neg h1, if_neg h2, if_neg h3, if_neg h4, if_neg h5]
    · unfold Level.getSolutionText
      rw [if_neg h1, if_neg h2, if_neg h3, if_neg h4, if_neg h5]
  · intro l hl
    rw [htitles] at hl
    simp only [List.mem_cons, List.mem_singleton, List.not_mem_nil, or_false] at hl
    rcases hl with h | h | h | h | h
    · constructor
      · unfold Level.getHintText
        rw [if_pos h]
        decide
      · unfold Level.getSolutionText
        rw [if_pos h]
        decide
    · constructor
      · unfold Level.getHintText
        rw [h]
        decide
      · unfold Level.getSolutionText
        rw [h]
        decide
    · constructor
      · unfold Level.getHintText
        rw [h]
        decide
      · unfold Level.getSolutionText
        rw [h]
        decide
    · constructor
      · unfold Level.getHintText
        rw [h]
        decide
      · unfold Level.getSolutionText
        rw [h]
        decide
    · constructor
      · unfold Level.getHintText
        rw [h]
        decide
      · unfold Level.getSolutionText
        rw [h]
        decide

theorem hint_solution_fallback_witness :
    "The Temple of auto".toList ∉ new.levels_.map Level.title_ ∧
    ({ level1 with title_ := "The Temple of auto".toList } : Level).getHintText =
      "Think about the modern C++ features introduced in C++14/17!".toList ∧
    level4.title_ ∈ new.levels_.map Level.title_ ∧
    level4.getSolutionText ≠ "// Solution not available for this level".toList :=
  have h1 : "The Temple of auto".toList ∉ new.levels_.map Level.title_ := by decide
  have h4 : level4.title_ ∈ new.levels_.map Level.title_ := by decide
  ⟨h1, (hint_solution_fallback.2.1 { level1 with title_ := "The Temple of auto".toList } h1).1,
    h4, (hint_solution_fallback.2.2 level4 h4).2⟩

end GameEngine
end CppCodeQuest

namespace CppCodeQuest
namespace GameUtils

/-! ## Configuration values -/

/-- C20: for a key that is present, `get_bool` is true exactly when the
stored value is one of `true`, `1`, `yes`, `on`, whatever the default; values
that differ from these in case or in anything else give false even with the
default `true`; for an absent key `get_bool` returns the default. -/
theorem get_bool_spec (c : GameConfig) (key : CppString) (d : Bool) :
    (∀ v, c.settings key = some v →
      (c.get_bool key d = true ↔
        v ∈ ["true".toList, "1".toList, "yes".toList, "on".toList])) ∧
    (∀ v ∈ ["True".toList, "TRUE".toList, "Yes".toList, "ON".toList, " true".toList,
        "0".toList, "false".toList, [], "y".toList],
      c.settings key = some v → c.get_bool key true = false) ∧
    (c.settings key = none → c.get_bool key d = d) := by
  refine ⟨?_, ?_, ?_⟩
  · intro v hv
    unfold GameConfig.get_bool
    rw [hv]
    simp only [Bool.or_eq_true, beq_iff_eq, List.mem_cons, List.mem_singleton,
      List.not_mem_nil, or_false, or_assoc]
  · intro v hmem hv
    unfold GameConfig.get_bool
    rw [hv]
    simp only [List.mem_cons, List.mem_singleton, List.not_mem_nil, or_false] at hmem
    rcases hmem with h | h | h | h | h | h | h | h | h <;> subst h <;> decide
  · intro hv
    unfold GameConfig.get_bool
    rw [hv]

theorem get_bool_spec_witness :
    (GameConfig.mk (fun k => if k = "sound_enabled".toList then some "true".toList else none)).settings
      "sound_enabled".toList = some "true".toList ∧
    (GameConfig.mk (fun k => if k = "sound_enabled".toList then some "true".toList else none)).get_bool
      "sound_enabled".toList false = true ∧
    (GameConfig.mk (fun k => if k = "sound_enabled".toList then some "true".toList else none)).get_bool
      "fullscreen".toList true = true :=
  ⟨by decide,
   ((get_bool_spec _ "sound_enabled".toList false).1 "true".toList (by decide)).mpr (by decide),
   (get_bool_spec _ "fullscreen".toList true).2.2 (by decide)⟩

end GameUtils
end CppCodeQuest
namespace CppCodeQuest
namespace GameUtils
namespace FileUtils

/-! ## Reading a progress file -/

variable {D : Type}

theorem load_loop_nil (dt : DoubleText D) (p : GameProgress D) :
    load_game_progress_loop dt p [] = Except.ok p := by
  rw [load_game_progress_loop]
  simp [getline]

/-- The loop of `load_game_progress` on a first line that ends with a newline. -/
theorem load_loop_line (dt : DoubleText D) (p : GameProgress D) (l : CppString)
    (rest : IStream) (hl : '\n' ∉ l) :
    load_game_progress_loop dt p (l ++ '\n' :: rest) =
      match load_game_progress_line dt p l with
      | Except.ok next => load_game_progress_loop dt next rest
      | Except.error e => Except.error e := by
  rw [load_game_progress_loop, getline_line l rest hl]
  simp only [dite_true]

/-- The loop of `load_game_progress` on a last line without a newline. -/
theorem load_loop_last (dt : DoubleText D) (p : GameProgress D) (l : CppString)
    (hl : '\n' ∉ l) (hne : l ≠ []) :
    load_game_progress_loop dt p l = load_game_progress_line dt p l := by
  rw [load_game_progress_loop, getline_last l hl hne]
  simp only [dite_true]
  cases load_game_progress_line dt p l with
  | error e => rfl
  | ok next => exact load_loop_nil dt next

theorem findChar_key (k v : CppString) (hk : '=' ∉ k) :
    findChar (k ++ '=' :: v) '=' = some k.length := by
  unfold findChar
  rw [if_pos (by simp), List.indexOf_append_of_not_mem hk, List.indexOf_cons_self]
  rfl

/-- A line `key=value`, the key without `=` and the line not a comment: the
key is what stands before the first `=`, the value is all that follows it. -/
theorem load_line_key_value (dt : DoubleText D) (p : GameProgress D) (k v : CppString)
    (hk : '=' ∉ k) (hc : k.head? ≠ some '#') :
    load_game_progress_line dt p (k ++ '=' :: v) =
      if k = "player_name".toList then
        Except.ok { p with player_name := v }
      else if k = "current_level".toList then
        match stoi v with
        | Except.ok n => Except.ok { p with current_level := n }
        | Except.error e => Except.error e
      else if k = "experience".toList then
        match dt.stod v with
        | Except.ok x => Except.ok { p with experience := x }
        | Except.error e => Except.error e
      else if k = "completed_levels".toList then
        match stoi v with
        | Except.ok n => Except.ok { p with completed_levels := n }
        | Except.error e => Except.error e
      else if k = "inventory_item".toList then
        Except.ok { p with inventory := p.inventory ++ [v] }
      else Except.ok p := by
  have hhead : ((k ++ '=' :: v).isEmpty || (k ++ '=' :: v).head? == some '#') = false := by
    cases k with
    | nil => simp
    | cons c t =>
      have : c ≠ '#' := fun h => hc (by simp [h])
      simp [this]
  unfold load_game_progress_line
  rw [hhead, findChar_key k v hk]
  simp only [Bool.false_eq_true, if_false, List.take_left', List.drop_left',
    List.take_append_eq_append_take, List.take_length, Nat.sub_self, List.take_zero,
    List.append_nil]
  have hdrop : List.drop (k.length + 1) (k ++ '=' :: v) = v := by
    rw [← List.drop_drop, List.drop_left']
    · rfl
    · rfl
  rw [hdrop]

end FileUtils
end GameUtils
end CppCodeQuest
namespace CppCodeQuest
namespace GameUtils

/-! ## Integers as text -/

theorem digitsValue_append (xs : CppString) (d : Char) :
    digitsValue (xs ++ [d]) = 10 * digitsValue xs + (d.toNat - '0'.toNat) := by
  simp [digitsValue, List.foldl_append]

theorem digitChar_spec (k : Nat) (hk : k < 10) :
    (Nat.digitChar k).isDigit = true ∧ (Nat.digitChar k).toNat - '0'.toNat = k ∧
      isspace (Nat.digitChar k) = false ∧ Nat.digitChar k ≠ '-' ∧ Nat.digitChar k ≠ '+' := by
  interval_cases k <;> decide

theorem toDigitsCore_spec (fuel : Nat) : ∀ (n : Nat) (ds : List Char), n < fuel →
    ∃ xs : List Char, Nat.toDigitsCore 10 fuel n ds = xs ++ ds ∧ xs ≠ [] ∧
      (∀ c ∈ xs, c.isDigit = true) ∧ digitsValue xs = n := by
  induction fuel with
  | zero => intro n ds h; omega
  | succ f ih =>
    intro n ds h
    have hd := digitChar_spec (n % 10) (Nat.mod_lt _ (by decide))
    simp only [Nat.toDigitsCore]
    by_cases h0 : n / 10 = 0
    · rw [if_pos h0]
      refine ⟨[Nat.digitChar (n % 10)], rfl, by simp, by simpa using hd.1, ?_⟩
      have : digitsValue [Nat.digitChar (n % 10)] = 10 * digitsValue [] +
          ((Nat.digitChar (n % 10)).toNat - '0'.toNat) := digitsValue_append [] _
      rw [this, hd.2.1]
      simp only [digitsValue, List.foldl_nil]
      omega
    · rw [if_neg h0]
      obtain ⟨xs, hx, hne, hdig, hval⟩ := ih (n / 10) (Nat.digitChar (n % 10) :: ds) (by omega)
      refine ⟨xs ++ [Nat.digitChar (n % 10)], by rw [hx]; simp, by simp, ?_, ?_⟩
      · intro c hc
        rcases List.mem_append.1 hc with hc | hc
        · exact hdig c hc
        · rw [List.mem_singleton.1 hc]; exact hd.1
      · rw [digitsValue_append, hval, hd.2.1]
        omega

/-- The decimal text of a natural number: a non-empty string of digits with
the value of the number. -/
theorem toDigits_spec (n : Nat) :
    Nat.toDigits 10 n ≠ [] ∧ (∀ c ∈ Nat.toDigits 10 n, c.isDigit = true) ∧
      digitsValue (Nat.toDigits 10 n) = n := by
  obtain ⟨xs, hx, hne, hdig, hval⟩ := toDigitsCore_spec (n + 1) n [] (Nat.lt_succ_self n)
  have : Nat.toDigits 10 n = xs := by
    unfold Nat.toDigits
    rw [hx, List.append_nil]
  rw [this]
  exact ⟨hne, hdig, hval⟩

theorem isDigit_facts (c : Char) (h : c.isDigit = true) :
    isspace c = false ∧ c ≠ '-' ∧ c ≠ '+' ∧ c ≠ '\n' ∧ c ≠ '=' ∧ c ≠ '#' := by
  have h1 : 48 ≤ c.val ∧ c.val ≤ 57 := by
    simpa [Char.isDigit] using h
  refine ⟨?_, ?_, ?_, ?_, ?_, ?_⟩
  · have : c ≠ ' ' ∧ c ≠ '\t' ∧ c ≠ '\n' ∧ c ≠ '\x0b' ∧ c ≠ '\x0c' ∧ c ≠ '\r' := by
      refine ⟨?_, ?_, ?_, ?_, ?_, ?_⟩ <;> (intro hc; rw [hc] at h; exact absurd h (by decide))
    simp [isspace, this]
  all_goals (intro hc; rw [hc] at h; exact absurd h (by decide))

/-- The function `std::stoi` on a non-empty string of digits followed by a character
that is not a digit, or by nothing. -/
theorem stoi_digits (ds tl : CppString) (hne : ds ≠ []) (hdig : ∀ c ∈ ds, c.isDigit = true)
    (htl : tl.head?.all (fun c => !c.isDigit) = true) (hr : digitsValue ds ≤ 2147483647) :
    stoi (ds ++ tl) = Except.ok (digitsValue ds : Int) := by
  obtain ⟨d, t, rfl⟩ := List.exists_cons_of_ne_nil hne
  have hd := isDigit_facts d (hdig d (List.mem_cons_self _ _))
  have htake : List.takeWhile Char.isDigit (d :: t ++ tl) = d :: t := by
    have h1 : List.takeWhile Char.isDigit ((d :: t) ++ tl) =
        (d :: t) ++ List.takeWhile Char.isDigit tl :=
      List.takeWhile_append_of_pos hdig
    have h2 : List.takeWhile Char.isDigit tl = [] := by
      cases tl with
      | nil => rfl
      | cons c r =>
        have : c.isDigit = false := by simpa using htl
        simp [List.takeWhile, this]
    rw [h1, h2, List.append_nil]
  have hdrop : List.dropWhile isspace (d :: t ++ tl) = d :: t ++ tl := by
    simp [List.dropWhile, hd.1]
  unfold stoi
  simp only [hdrop]
  have hh : ((d :: t ++ tl).head? == some '-') = false := by simp [hd.2.1]
  have hp : ((d :: t ++ tl).head? == some '+') = false := by simp [hd.2.2.1]
  simp only [hh, hp, Bool.or_self, Bool.false_eq_true, if_false, htake]
  have hi : ((digitsValue (d :: t) : Nat) : Int) ≤ 2147483647 := by exact_mod_cast hr
  have hn : (0 : Int) ≤ (digitsValue (d :: t) : Nat) := Int.natCast_nonneg _
  rw [if_neg (by simp), if_neg (by omega)]

/-- The function `std::stoi` on `-` and a non-empty string of digits. -/
theorem stoi_neg_digits (ds tl : CppString) (hne : ds ≠ []) (hdig : ∀ c ∈ ds, c.isDigit = true)
    (htl : tl.head?.all (fun c => !c.isDigit) = true) (hr : digitsValue ds ≤ 2147483648) :
    stoi ('-' :: (ds ++ tl)) = Except.ok (-(digitsValue ds : Int)) := by
  have htake : List.takeWhile Char.isDigit (ds ++ tl) = ds := by
    have h1 : List.takeWhile Char.isDigit (ds ++ tl) = ds ++ List.takeWhile Char.isDigit tl :=
      List.takeWhile_append_of_pos hdig
    have h2 : List.takeWhile Char.isDigit tl = [] := by
      cases tl with
      | nil => rfl
      | cons c r =>
        have : c.isDigit = false := by simpa using htl
        simp [List.takeWhile, this]
    rw [h1, h2, List.append_nil]
  have hdrop : List.dropWhile isspace ('-' :: (ds ++ tl)) = '-' :: (ds ++ tl) := by
    have : isspace '-' = false := by decide
    simp [List.dropWhile, this]
  unfold stoi
  simp only [hdrop, List.head?_cons, List.tail_cons, beq_self_eq_true, Bool.true_or, if_true,
    htake]
  have hi : ((digitsValue ds : Nat) : Int) ≤ 2147483648 := by exact_mod_cast hr
  have hn : (0 : Int) ≤ (digitsValue ds : Nat) := Int.natCast_nonneg _
  have hemp : ds.isEmpty = false := by
    cases ds with
    | nil => exact absurd rfl hne
    | cons _ _ => rfl
  rw [if_neg (by simp [hemp]), if_neg (by omega)]

/-- Reading back with `std::stoi` the text that `operator<<` writes for an `int`. -/
theorem stoi_intToString (n : Int) (hlo : -2147483648 ≤ n) (hhi : n ≤ 2147483647) :
    stoi (intToString n) = Except.ok n := by
  obtain ⟨hne, hdig, hval⟩ := toDigits_spec n.natAbs
  unfold intToString
  by_cases hn : n < 0
  · rw [if_pos hn]
    have := stoi_neg_digits (Nat.toDigits 10 n.natAbs) [] hne hdig rfl (by rw [hval]; omega)
    rw [List.append_nil] at this
    rw [this, hval]
    congr 1
    omega
  · rw [if_neg hn]
    have := stoi_digits (Nat.toDigits 10 n.natAbs) [] hne hdig rfl (by rw [hval]; omega)
    rw [List.append_nil] at this
    rw [this, hval]
    congr 1
    omega

theorem intToString_no_newline (n : Int) : '\n' ∉ intToString n := by
  obtain ⟨-, hdig, -⟩ := toDigits_spec n.natAbs
  have h1 : '\n' ∉ Nat.toDigits 10 n.natAbs := fun h => absurd (hdig _ h) (by decide)
  unfold intToString
  split
  · simp [h1]
  · exact h1

end GameUtils
end CppCodeQuest
namespace CppCodeQuest
namespace GameUtils
namespace FileUtils

variable {D : Type}

/-! ## Lines of a progress file -/

theorem load_line_blank (dt : DoubleText D) (p : GameProgress D) :
    load_game_progress_line dt p [] = Except.ok p := by
  simp [load_game_progress_line]

theorem load_line_comment (dt : DoubleText D) (p : GameProgress D) (l : CppString)
    (h : l.head? = some '#') : load_game_progress_line dt p l = Except.ok p := by
  simp [load_game_progress_line, h]

theorem load_line_no_eq (dt : DoubleText D) (p : GameProgress D) (l : CppString)
    (h : '=' ∉ l) : load_game_progress_line dt p l = Except.ok p := by
  unfold load_game_progress_line findChar
  rw [if_neg h]
  split <;> rfl

/-- Every line that has a `=` splits at its first `=`. -/
theorem split_at_eq (l : CppString) (h : '=' ∈ l) :
    l = l.takeWhile (fun c => c != '=') ++ '=' :: (l.dropWhile (fun c => c != '=')).tail ∧
      '=' ∉ l.takeWhile (fun c => c != '=') := by
  induction l with
  | nil => simp at h
  | cons c t ih =>
    by_cases hc : c = '='
    · subst hc
      simp [List.takeWhile, List.dropWhile]
    · have ht : '=' ∈ t := by
        rcases List.mem_cons.1 h with h | h
        · exact absurd h.symm hc
        · exact h
      obtain ⟨h1, h2⟩ := ih ht
      have hb : (c != '=') = true := by simpa using hc
      simp only [List.takeWhile, List.dropWhile, hb]
      refine ⟨?_, ?_⟩
      · rw [List.cons_append, ← h1]
      · intro hm
        rcases List.mem_cons.1 hm with hm | hm
        · exact hc hm.symm
        · exact h2 hm

/-- The lines that `load_game_progress` skips: the empty line, a line that
starts with `#`, a line without `=`, and a line whose key, the text
before its first `=`, is none of the five recognized keys. -/
theorem load_line_ignored (dt : DoubleText D) (p : GameProgress D) (l : CppString)
    (h : l = [] ∨ l.head? = some '#' ∨ '=' ∉ l ∨
      l.takeWhile (fun c => c != '=') ∉ ["player_name".toList, "current_level".toList,
        "experience".toList, "completed_levels".toList, "inventory_item".toList]) :
    load_game_progress_line dt p l = Except.ok p := by
  rcases h with h | h | h | h
  · rw [h]; exact load_line_blank dt p
  · exact load_line_comment dt p l h
  · exact load_line_no_eq dt p l h
  · by_cases hc : l.head? = some '#'
    · exact load_line_comment dt p l hc
    by_cases he : '=' ∈ l
    swap
    · exact load_line_no_eq dt p l he
    obtain ⟨h1, h2⟩ := split_at_eq l he
    generalize l.takeWhile (fun c => c != '=') = k at h h1 h2
    generalize (l.dropWhile (fun c => c != '=')).tail = v at h1
    subst h1
    have hk : k.head? ≠ some '#' := by
      intro hk
      cases k with
      | nil => simp at hk
      | cons c t => exact hc (by simpa using hk)
    rw [load_line_key_value dt p k v h2 hk]
    simp only [List.mem_cons, List.mem_singleton, List.not_mem_nil, or_false, not_or] at h
    rw [if_neg h.1, if_neg h.2.1, if_neg h.2.2.1, if_neg h.2.2.2.1, if_neg h.2.2.2.2]

/-- The loop of `load_game_progress` on some whole lines followed by more
content: the lines are processed in order, then the rest. -/
theorem load_loop_lines (dt : DoubleText D) (ls : List CppString) (hls : ∀ l ∈ ls, '\n' ∉ l) :
    ∀ (p : GameProgress D) (rest : IStream),
      load_game_progress_loop dt p (joinLines ls ++ rest) =
        match ls.foldlM (load_game_progress_line dt) p with
        | Except.ok q => load_game_progress_loop dt q rest
        | Except.error e => Except.error e := by
  induction ls with
  | nil => intro p rest; rfl
  | cons l t ih =>
    intro p rest
    have hl : '\n' ∉ l := hls l (List.mem_cons_self _ _)
    have ht : ∀ x ∈ t, '\n' ∉ x := fun x hx => hls x (List.mem_cons_of_mem _ hx)
    have hj : joinLines (l :: t) ++ rest = l ++ '\n' :: (joinLines t ++ rest) := by
      simp [joinLines, List.flatMap_cons, List.append_assoc]
    rw [hj, load_loop_line dt p l _ hl, List.foldlM_cons]
    cases hline : load_game_progress_line dt p l with
    | error e => rfl
    | ok next => exact ih ht next rest

theorem load_loop_joinLines (dt : DoubleText D) (ls : List CppString)
    (hls : ∀ l ∈ ls, '\n' ∉ l) (p : GameProgress D) :
    load_game_progress_loop dt p (joinLines ls) = ls.foldlM (load_game_progress_line dt) p := by
  have h := load_loop_lines dt ls hls p []
  rw [List.append_nil] at h
  rw [h]
  cases ls.foldlM (load_game_progress_line dt) p with
  | error e => rfl
  | ok q => exact load_loop_nil dt q

end FileUtils
end GameUtils
end CppCodeQuest
namespace CppCodeQuest
namespace GameUtils
namespace FileUtils

variable {D : Type}

/-! ## The recognized keys -/

theorem load_line_player_name (dt : DoubleText D) (p : GameProgress D) (v : CppString) :
    load_game_progress_line dt p ("player_name=".toList ++ v) =
      Except.ok { p with player_name := v } := by
  have h : "player_name=".toList ++ v = "player_name".toList ++ '=' :: v := rfl
  rw [h, load_line_key_value dt p _ v (by decide) (by decide), if_pos rfl]

theorem load_line_current_level (dt : DoubleText D) (p : GameProgress D) (v : CppString) :
    load_game_progress_line dt p ("current_level=".toList ++ v) =
      match stoi v with
      | Except.ok n => Except.ok { p with current_level := n }
      | Except.error e => Except.error e := by
  have h : "current_level=".toList ++ v = "current_level".toList ++ '=' :: v := rfl
  rw [h, load_line_key_value dt p _ v (by decide) (by decide), if_neg (by decide), if_pos rfl]

theorem load_line_experience (dt : DoubleText D) (p : GameProgress D) (v : CppString) :
    load_game_progress_line dt p ("experience=".toList ++ v) =
      match dt.stod v with
      | Except.ok x => Except.ok { p with experience := x }
      | Except.error e => Except.error e := by
  have h : "experience=".toList ++ v = "experience".toList ++ '=' :: v := rfl
  rw [h, load_line_key_value dt p _ v (by decide) (by decide), if_neg (by decide),
    if_neg (by decide), if_pos rfl]

theorem load_line_completed_levels (dt : DoubleText D) (p : GameProgress D) (v : CppString) :
    load_game_progress_line dt p ("completed_levels=".toList ++ v) =
      match stoi v with
      | Except.ok n => Except.ok { p with completed_levels := n }
      | Except.error e => Except.error e := by
  have h : "completed_levels=".toList ++ v = "completed_levels".toList ++ '=' :: v := rfl
  rw [h, load_line_key_value dt p _ v (by decide) (by decide), if_neg (by decide),
    if_neg (by decide), if_neg (by decide), if_pos rfl]

theorem load_line_inventory_item (dt : DoubleText D) (p : GameProgress D) (v : CppString) :
    load_game_progress_line dt p ("inventory_item=".toList ++ v) =
      Except.ok { p with inventory := p.inventory ++ [v] } := by
  have h : "inventory_item=".toList ++ v = "inventory_item".toList ++ '=' :: v := rfl
  rw [h, load_line_key_value dt p _ v (by decide) (by decide), if_neg (by decide),
    if_neg (by decide), if_neg (by decide), if_neg (by decide), if_pos rfl]

/-- A line on which `load_game_progress_line` throws makes the whole parse
throw, whatever stands before and after it. -/
theorem load_error_line (dt : DoubleText D) (ls : List CppString) (l : CppString)
    (rest : IStream) (e : Exception) (hls : ∀ x ∈ ls, '\n' ∉ x) (hl : '\n' ∉ l) (hne : l ≠ [])
    (he : ∀ p : GameProgress D, load_game_progress_line dt p l = Except.error e) :
    (∃ e', load_game_progress dt (some (joinLines ls ++ l ++ '\n' :: rest)) = Except.error e') ∧
      ∃ e', load_game_progress dt (some (joinLines ls ++ l)) = Except.error e' := by
  unfold load_game_progress
  simp only [List.append_assoc]
  rw [load_loop_lines dt ls hls, load_loop_lines dt ls hls]
  cases List.foldlM (load_game_progress_line dt) (newProgress dt) ls with
  | error e1 => exact ⟨⟨e1, rfl⟩, ⟨e1, rfl⟩⟩
  | ok q =>
    simp only []
    rw [load_loop_line dt q l rest hl, load_loop_last dt q l hl hne, he q]
    exact ⟨⟨e, rfl⟩, ⟨e, rfl⟩⟩

/-- C19: a `current_level` or `completed_levels` line whose value `std::stoi`
rejects, such as `current_level=abc`, makes `load_game_progress` throw: the
result is an exception, neither a progress (with a default in the field) nor
the empty optional. This holds wherever the line stands in the content, with
or without a newline after it. -/
theorem load_non_numeric_fatal (dt : DoubleText D) (ls : List CppString) (v : CppString)
    (rest : IStream) (e : Exception) (hls : ∀ x ∈ ls, '\n' ∉ x) (hv : '\n' ∉ v)
    (he : stoi v = Except.error e) :
    stoi "abc".toList = Except.error Exception.invalid_argument ∧
    (∃ e', load_game_progress dt
      (some (joinLines ls ++ ("current_level=".toList ++ v) ++ '\n' :: rest)) =
        Except.error e') ∧
    (∃ e', load_game_progress dt (some (joinLines ls ++ ("current_level=".toList ++ v))) =
        Except.error e') ∧
    (∃ e', load_game_progress dt
      (some (joinLines ls ++ ("completed_levels=".toList ++ v) ++ '\n' :: rest)) =
        Except.error e') ∧
    (∃ e', load_game_progress dt (some (joinLines ls ++ ("completed_levels=".toList ++ v))) =
        Except.error e') := by
  have h1 := load_error_line dt ls ("current_level=".toList ++ v) rest e hls
    (by simp [hv]) (by simp)
    (fun p => by rw [load_line_current_level, he])
  have h2 := load_error_line dt ls ("completed_levels=".toList ++ v) rest e hls
    (by simp [hv]) (by simp)
    (fun p => by rw [load_line_completed_levels, he])
  exact ⟨rfl, h1.1, h1.2, h2.1, h2.2⟩

theorem load_non_numeric_fatal_witness :
    (∃ e', load_game_progress zeroText
      (some (joinLines ["# C++ Code Quest Save File".toList, "player_name=Al".toList] ++
        ("current_level=".toList ++ "abc".toList) ++ '\n' :: "experience=0\n".toList)) =
        Except.error e') :=
  (load_non_numeric_fatal zeroText
    ["# C++ Code Quest Save File".toList, "player_name=Al".toList] "abc".toList
    "experience=0\n".toList Exception.invalid_argument (by decide) (by decide) rfl).2.1

end FileUtils
end GameUtils
end CppCodeQuest
namespace CppCodeQuest
namespace GameUtils
namespace FileUtils

variable {D : Type}

/-! ## Saving, then loading -/

/-- The lines of the text that `save_game_progress` writes. -/
theorem save_eq_joinLines (dt : DoubleText D) (p : GameProgress D) :
    save_game_progress dt p =
      joinLines (["# C++ Code Quest Save File".toList,
        "player_name=".toList ++ p.player_name,
        "current_level=".toList ++ intToString p.current_level,
        "experience=".toList ++ dt.put p.experience,
        "completed_levels=".toList ++ intToString p.completed_levels,
        "# Inventory items".toList] ++
        p.inventory.map (fun item => "inventory_item=".toList ++ item)) := by
  have h0 : "# C++ Code Quest Save File\n".toList =
      "# C++ Code Quest Save File".toList ++ ['\n'] := rfl
  have h1 : "# Inventory items\n".toList = "# Inventory items".toList ++ ['\n'] := rfl
  have h2 : "\n".toList = ['\n'] := rfl
  unfold save_game_progress joinLines
  rw [h0, h1, h2, List.flatMap_append, List.flatMap_map]
  simp only [List.flatMap_cons, List.flatMap_nil, List.append_nil, List.append_assoc]

theorem load_inventory_lines (dt : DoubleText D) (items : List CppString) :
    ∀ q : GameProgress D,
      (items.map (fun item => "inventory_item=".toList ++ item)).foldlM
        (load_game_progress_line dt) q =
        Except.ok { q with inventory := q.inventory ++ items } := by
  induction items with
  | nil => intro q; simp [List.foldlM, pure, Except.pure]
  | cons i t ih =>
    intro q
    rw [List.map_cons, List.foldlM_cons, load_line_inventory_item]
    show (t.map (fun item => "inventory_item=".toList ++ item)).foldlM
      (load_game_progress_line dt) { q with inventory := q.inventory ++ [i] } = _
    rw [ih]
    simp [List.append_assoc]

/-- Loading the text saved for a progress whose strings have no newline,
whose integers are of type `int`, and whose experience is written as a text
without newline that `std::stod` reads as `x`: every field is as saved, the
experience is `x`. -/
theorem load_save (dt : DoubleText D) (p : GameProgress D) (x : D)
    (hname : '\n' ∉ p.player_name) (hinv : ∀ item ∈ p.inventory, '\n' ∉ item)
    (hcl : -2147483648 ≤ p.current_level ∧ p.current_level ≤ 2147483647)
    (hco : -2147483648 ≤ p.completed_levels ∧ p.completed_levels ≤ 2147483647)
    (hput : '\n' ∉ dt.put p.experience) (hstod : dt.stod (dt.put p.experience) = Except.ok x) :
    load_game_progress dt (some (save_game_progress dt p)) =
      Except.ok (some { p with experience := x }) := by
  have hls : ∀ l ∈ ["# C++ Code Quest Save File".toList,
        "player_name=".toList ++ p.player_name,
        "current_level=".toList ++ intToString p.current_level,
        "experience=".toList ++ dt.put p.experience,
        "completed_levels=".toList ++ intToString p.completed_levels,
        "# Inventory items".toList] ++
        p.inventory.map (fun item => "inventory_item=".toList ++ item), '\n' ∉ l := by
    intro l hl
    rcases List.mem_append.1 hl with hl | hl
    · simp only [List.mem_cons, List.mem_singleton, List.not_mem_nil, or_false] at hl
      rcases hl with rfl | rfl | rfl | rfl | rfl | rfl
      · decide
      · simp [hname]
      · simp [intToString_no_newline]
      · simp [hput]
      · simp [intToString_no_newline]
      · decide
    · obtain ⟨item, hi, rfl⟩ := List.mem_map.1 hl
      simp [hinv item hi]
  unfold load_game_progress
  simp only []
  rw [save_eq_joinLines, load_loop_joinLines dt _ hls, List.foldlM_append]
  have hfixed : List.foldlM (load_game_progress_line dt) (newProgress dt)
      ["# C++ Code Quest Save File".toList,
        "player_name=".toList ++ p.player_name,
        "current_level=".toList ++ intToString p.current_level,
        "experience=".toList ++ dt.put p.experience,
        "completed_levels=".toList ++ intToString p.completed_levels,
        "# Inventory items".toList] =
      Except.ok { p with experience := x, inventory := [] } := by
    rw [List.foldlM_cons, load_line_comment dt _ "# C++ Code Quest Save File".toList rfl]
    show List.foldlM (load_game_progress_line dt) (newProgress dt) _ = _
    rw [List.foldlM_cons, load_line_player_name]
    show List.foldlM (load_game_progress_line dt) _ _ = _
    rw [List.foldlM_cons, load_line_current_level, stoi_intToString _ hcl.1 hcl.2]
    show List.foldlM (load_game_progress_line dt) _ _ = _
    rw [List.foldlM_cons, load_line_experience, hstod]
    show List.foldlM (load_game_progress_line dt) _ _ = _
    rw [List.foldlM_cons, load_line_completed_levels, stoi_intToString _ hco.1 hco.2]
    show List.foldlM (load_game_progress_line dt) _ _ = _
    rw [List.foldlM_cons, load_line_comment dt _ "# Inventory items".toList rfl]
    rfl
  rw [hfixed]
  show (match List.foldlM (load_game_progress_line dt) _ _ with
    | Except.ok progress => Except.ok (some progress)
    | Except.error e => Except.error e) = _
  rw [load_inventory_lines]
  simp

end FileUtils
end GameUtils
end CppCodeQuest
namespace CppCodeQuest
namespace GameUtils
namespace FileUtils

variable {D : Type}

/-- C16 (as stated, refuted): the progress whose player name is
`Al`, a newline, `inventory_item=cheat` is saved as a text in which the second
half of the name is a line of its own; loading that text gives the name `Al`
and an inventory of one item `cheat`, not the progress that was saved. -/
theorem load_save_newline_name :
    load_game_progress zeroText (some (save_game_progress zeroText
      (GameProgress.mk "Al\ninventory_item=cheat".toList 1 () 0 []))) =
      Except.ok (some (GameProgress.mk "Al".toList 1 () 0 ["cheat".toList])) ∧
    load_game_progress zeroText (some (save_game_progress zeroText
      (GameProgress.mk "Al\ninventory_item=cheat".toList 1 () 0 []))) ≠
      Except.ok (some (GameProgress.mk "Al\ninventory_item=cheat".toList 1 () 0 [])) := by
  have hsave : save_game_progress zeroText
      (GameProgress.mk "Al\ninventory_item=cheat".toList 1 () 0 []) =
      joinLines ["# C++ Code Quest Save File".toList,
        "player_name=".toList ++ "Al".toList,
        "inventory_item=".toList ++ "cheat".toList,
        "current_level=".toList ++ "1".toList,
        "experience=".toList ++ "0".toList,
        "completed_levels=".toList ++ "0".toList,
        "# Inventory items".toList] := by
    rfl
  have hload : load_game_progress zeroText (some (save_game_progress zeroText
      (GameProgress.mk "Al\ninventory_item=cheat".toList 1 () 0 []))) =
      Except.ok (some (GameProgress.mk "Al".toList 1 () 0 ["cheat".toList])) := by
    have hfold : List.foldlM (load_game_progress_line zeroText) (newProgress zeroText)
        ["# C++ Code Quest Save File".toList,
          "player_name=".toList ++ "Al".toList,
          "inventory_item=".toList ++ "cheat".toList,
          "current_level=".toList ++ "1".toList,
          "experience=".toList ++ "0".toList,
          "completed_levels=".toList ++ "0".toList,
          "# Inventory items".toList] =
        Except.ok (GameProgress.mk "Al".toList 1 () 0 ["cheat".toList]) := by
      rw [List.foldlM_cons, load_line_comment zeroText _ "# C++ Code Quest Save File".toList rfl]
      show List.foldlM (load_game_progress_line zeroText) (newProgress zeroText) _ = _
      rw [List.foldlM_cons, load_line_player_name]
      show List.foldlM (load_game_progress_line zeroText) _ _ = _
      rw [List.foldlM_cons, load_line_inventory_item]
      show List.foldlM (load_game_progress_line zeroText) _ _ = _
      rw [List.foldlM_cons, load_line_current_level,
        show stoi "1".toList = Except.ok 1 from rfl]
      show List.foldlM (load_game_progress_line zeroText) _ _ = _
      rw [List.foldlM_cons, load_line_experience,
        show zeroText.stod "0".toList = Except.ok () from rfl]
      show List.foldlM (load_game_progress_line zeroText) _ _ = _
      rw [List.foldlM_cons, load_line_completed_levels,
        show stoi "0".toList = Except.ok 0 from rfl]
      show List.foldlM (load_game_progress_line zeroText) _ _ = _
      rw [List.foldlM_cons, load_line_comment zeroText _ "# Inventory items".toList rfl]
      rfl
    rw [hsave]
    unfold load_game_progress
    simp only []
    rw [load_loop_joinLines zeroText _ (by decide), hfold]
  refine ⟨hload, ?_⟩
  rw [hload]
  intro h
  have h1 := congrArg (fun r => match r with
    | Except.ok (some q) => q.inventory.length
    | _ => 0) h
  simp at h1

/-- C16 (amended): for a progress whose player name and inventory items contain
no newline, whose integer fields are of type `int`, and whose experience is
written as a text without newline that `std::stod` reads as `x`, loading the
saved text gives the progress with the same player name, current level,
completed levels and inventory, in the same order, and with experience `x`. -/
theorem load_save_roundtrip (dt : DoubleText D) (p : GameProgress D) (x : D)
    (hname : '\n' ∉ p.player_name) (hinv : ∀ item ∈ p.inventory, '\n' ∉ item)
    (hcl : -2147483648 ≤ p.current_level ∧ p.current_level ≤ 2147483647)
    (hco : -2147483648 ≤ p.completed_levels ∧ p.completed_levels ≤ 2147483647)
    (hput : '\n' ∉ dt.put p.experience) (hstod : dt.stod (dt.put p.experience) = Except.ok x) :
    load_game_progress dt (some (save_game_progress dt p)) =
      Except.ok (some { p with experience := x }) :=
  load_save dt p x hname hinv hcl hco hput hstod

theorem load_save_roundtrip_witness :
    load_game_progress zeroText (some (save_game_progress zeroText
      (GameProgress.mk "Ada".toList 3 () 2 ["Auto Sword".toList, "Lambda Shield".toList]))) =
      Except.ok (some
        (GameProgress.mk "Ada".toList 3 () 2 ["Auto Sword".toList, "Lambda Shield".toList])) :=
  load_save_roundtrip zeroText
    (GameProgress.mk "Ada".toList 3 () 2 ["Auto Sword".toList, "Lambda Shield".toList]) ()
    (by decide) (by decide) (by decide) (by decide) (by decide) rfl

theorem save_lines_no_newline (dt : DoubleText D) (p : GameProgress D)
    (hname : '\n' ∉ p.player_name) (hinv : ∀ item ∈ p.inventory, '\n' ∉ item)
    (hput : '\n' ∉ dt.put p.experience) :
    ∀ l ∈ ["# C++ Code Quest Save File".toList,
        "player_name=".toList ++ p.player_name,
        "current_level=".toList ++ intToString p.current_level,
        "experience=".toList ++ dt.put p.experience,
        "completed_levels=".toList ++ intToString p.completed_levels,
        "# Inventory items".toList] ++
        p.inventory.map (fun item => "inventory_item=".toList ++ item), '\n' ∉ l := by
  intro l hl
  rcases List.mem_append.1 hl with hl | hl
  · simp only [List.mem_cons, List.mem_singleton, List.not_mem_nil, or_false] at hl
    rcases hl with rfl | rfl | rfl | rfl | rfl | rfl
    · decide
    · simp [hname]
    · simp [intToString_no_newline]
    · simp [hput]
    · simp [intToString_no_newline]
    · decide
  · obtain ⟨item, hi, rfl⟩ := List.mem_map.1 hl
    simp [hinv item hi]

/-- Loading the text saved for a progress whose experience is written as a
text on which `std::stod` throws: the exception leaves `load_game_progress`. -/
theorem load_save_error (dt : DoubleText D) (p : GameProgress D) (e : Exception)
    (hname : '\n' ∉ p.player_name) (hinv : ∀ item ∈ p.inventory, '\n' ∉ item)
    (hcl : -2147483648 ≤ p.current_level ∧ p.current_level ≤ 2147483647)
    (hput : '\n' ∉ dt.put p.experience)
    (hstod : dt.stod (dt.put p.experience) = Except.error e) :
    load_game_progress dt (some (save_game_progress dt p)) = Except.error e := by
  unfold load_game_progress
  simp only []
  rw [save_eq_joinLines, load_loop_joinLines dt _ (save_lines_no_newline dt p hname hinv hput),
    List.foldlM_append]
  have hfixed : List.foldlM (load_game_progress_line dt) (newProgress dt)
      ["# C++ Code Quest Save File".toList,
        "player_name=".toList ++ p.player_name,
        "current_level=".toList ++ intToString p.current_level,
        "experience=".toList ++ dt.put p.experience,
        "completed_levels=".toList ++ intToString p.completed_levels,
        "# Inventory items".toList] = Except.error e := by
    rw [List.foldlM_cons, load_line_comment dt _ "# C++ Code Quest Save File".toList rfl]
    show List.foldlM (load_game_progress_line dt) (newProgress dt) _ = _
    rw [List.foldlM_cons, load_line_player_name]
    show List.foldlM (load_game_progress_line dt) _ _ = _
    rw [List.foldlM_cons, load_line_current_level, stoi_intToString _ hcl.1 hcl.2]
    show List.foldlM (load_game_progress_line dt) _ _ = _
    rw [List.foldlM_cons, load_line_experience, hstod]
    rfl
  rw [hfixed]
  rfl

/-- C27 (as stated, refuted): the progress with player name `Ada`, level 1,
experience `DBL_MIN` and one inventory item has no newline in its strings,
yet loading the text saved for it returns no progress: the experience is
written as `2.22507e-308`, on which `std::stod` throws `out_of_range`, and the
exception leaves `load_game_progress`. -/
theorem load_save_tiny_experience :
    '\n' ∉ "Ada".toList ∧ (∀ item ∈ ["Auto Sword".toList], '\n' ∉ item) ∧
    save_game_progress sampleText
      (GameProgress.mk "Ada".toList 1 SampleDouble.dblMin 0 ["Auto Sword".toList]) =
      ("# C++ Code Quest Save File\nplayer_name=Ada\ncurrent_level=1\n" ++
        "experience=2.22507e-308\ncompleted_levels=0\n# Inventory items\n" ++
        "inventory_item=Auto Sword\n").toList ∧
    load_game_progress sampleText (some (save_game_progress sampleText
      (GameProgress.mk "Ada".toList 1 SampleDouble.dblMin 0 ["Auto Sword".toList]))) =
      Except.error Exception.out_of_range :=
  ⟨by decide, by decide, by rfl,
    load_save_error sampleText
      (GameProgress.mk "Ada".toList 1 SampleDouble.dblMin 0 ["Auto Sword".toList])
      Exception.out_of_range (by decide) (by decide) (by decide) (by decide) rfl⟩

/-- C27 (amended): for a progress whose player name and inventory items contain
no newline (they may contain `=` and `#` and may be empty), with integer
fields of type `int`: when `std::stod` reads back the text written for the
experience, loading the saved text returns a progress with the same player
name, current level, completed levels and the same inventory in the same
order, and with the experience that was read; when `std::stod` throws on that
text, `load_game_progress` throws the same exception and returns nothing. -/
theorem load_save_fields (dt : DoubleText D) (p : GameProgress D)
    (hname : '\n' ∉ p.player_name) (hinv : ∀ item ∈ p.inventory, '\n' ∉ item)
    (hcl : -2147483648 ≤ p.current_level ∧ p.current_level ≤ 2147483647)
    (hco : -2147483648 ≤ p.completed_levels ∧ p.completed_levels ≤ 2147483647)
    (hput : '\n' ∉ dt.put p.experience) :
    (∀ x : D, dt.stod (dt.put p.experience) = Except.ok x →
      ∃ q : GameProgress D,
        load_game_progress dt (some (save_game_progress dt p)) = Except.ok (some q) ∧
        q.player_name = p.player_name ∧ q.current_level = p.current_level ∧
        q.completed_levels = p.completed_levels ∧ q.inventory = p.inventory ∧
        q.experience = x) ∧
    (∀ e : Exception, dt.stod (dt.put p.experience) = Except.error e →
      load_game_progress dt (some (save_game_progress dt p)) = Except.error e) :=
  ⟨fun x hstod => ⟨{ p with experience := x }, load_save dt p x hname hinv hcl hco hput hstod,
      rfl, rfl, rfl, rfl, rfl⟩,
    fun e hstod => load_save_error dt p e hname hinv hcl hput hstod⟩

theorem load_save_fields_witness :
    ∃ q : GameProgress Unit,
      load_game_progress zeroText (some (save_game_progress zeroText
        (GameProgress.mk "a=#b".toList (-7) () 2147483647
          ["".toList, "# x=y".toList, "=".toList]))) = Except.ok (some q) ∧
      q.player_name = "a=#b".toList ∧ q.current_level = -7 ∧
      q.completed_levels = 2147483647 ∧
      q.inventory = ["".toList, "# x=y".toList, "=".toList] ∧ q.experience = () :=
  (load_save_fields zeroText
    (GameProgress.mk "a=#b".toList (-7) () 2147483647 ["".toList, "# x=y".toList, "=".toList])
    (by decide) (by decide) (by decide) (by decide) (by decide)).1 () rfl

/-- C17 (as stated, refuted): loading the one-line content `player_name=a=b`
stores the player name `a=b`, not `a`; and the progress with player name `a=b`
and the inventory item `x=y` is restored in full by saving and loading. -/
theorem load_value_keeps_equals :
    load_game_progress zeroText (some "player_name=a=b\n".toList) =
      Except.ok (some { newProgress zeroText with player_name := "a=b".toList }) ∧
    "a=b".toList ≠ "a".toList ∧
    load_game_progress zeroText (some (save_game_progress zeroText
      (GameProgress.mk "a=b".toList 0 () 0 ["x=y".toList]))) =
      Except.ok (some (GameProgress.mk "a=b".toList 0 () 0 ["x=y".toList])) := by
  refine ⟨?_, by decide, ?_⟩
  · have h : "player_name=a=b\n".toList =
        joinLines ["player_name=".toList ++ "a=b".toList] := rfl
    rw [h]
    unfold load_game_progress
    simp only []
    have hfold : List.foldlM (load_game_progress_line zeroText) (newProgress zeroText)
        ["player_name=".toList ++ "a=b".toList] =
        Except.ok { newProgress zeroText with player_name := "a=b".toList } := by
      rw [List.foldlM_cons, load_line_player_name]
      rfl
    rw [load_loop_joinLines zeroText _ (by decide), hfold]
  · exact load_save zeroText (GameProgress.mk "a=b".toList 0 () 0 ["x=y".toList]) ()
      (by decide) (by decide) (by decide) (by decide) (by decide) rfl

/-- C17 (amended): on a line `key=value` the key is the text before the first
`=` of the line and the value is all that follows it, further `=` included:
a `player_name` line stores all of `v` and an `inventory_item` line appends
all of `v`, for every `v` without newline, and the loop goes on with the
rest of the content. So for every progress `q` whose player name and
inventory items contain no newline, with `=` in them or not, saving and then
loading gives back the player name and every inventory item in full,
provided `std::stod` reads back the text written for the experience. -/
theorem load_value_after_first_equals (dt : DoubleText D) (p : GameProgress D)
    (v : CppString) (rest : IStream) (hv : '\n' ∉ v) (q : GameProgress D) (x : D)
    (hname : '\n' ∉ q.player_name) (hinv : ∀ item ∈ q.inventory, '\n' ∉ item)
    (hcl : -2147483648 ≤ q.current_level ∧ q.current_level ≤ 2147483647)
    (hco : -2147483648 ≤ q.completed_levels ∧ q.completed_levels ≤ 2147483647)
    (hput : '\n' ∉ dt.put q.experience) (hstod : dt.stod (dt.put q.experience) = Except.ok x) :
    load_game_progress_loop dt p (("player_name=".toList ++ v) ++ '\n' :: rest) =
      load_game_progress_loop dt { p with player_name := v } rest ∧
    load_game_progress_loop dt p (("inventory_item=".toList ++ v) ++ '\n' :: rest) =
      load_game_progress_loop dt { p with inventory := p.inventory ++ [v] } rest ∧
    ∃ r : GameProgress D,
      load_game_progress dt (some (save_game_progress dt q)) = Except.ok (some r) ∧
      r.player_name = q.player_name ∧ r.inventory = q.inventory := by
  refine ⟨?_, ?_, ⟨{ q with experience := x },
    load_save dt q x hname hinv hcl hco hput hstod, rfl, rfl⟩⟩
  · rw [load_loop_line dt p _ rest (by simp [hv]), load_line_player_name]
  · rw [load_loop_line dt p _ rest (by simp [hv]), load_line_inventory_item]

theorem load_value_after_first_equals_witness :
    load_game_progress_loop zeroText (newProgress zeroText)
      (("player_name=".toList ++ "a=b=c".toList) ++ '\n' :: "current_level=2\n".toList) =
      load_game_progress_loop zeroText
        { newProgress zeroText with player_name := "a=b=c".toList } "current_level=2\n".toList ∧
    ∃ r : GameProgress Unit,
      load_game_progress zeroText (some (save_game_progress zeroText
        (GameProgress.mk "a=b".toList 2 () 1 ["x=y".toList, "==".toList]))) =
        Except.ok (some r) ∧
      r.player_name = "a=b".toList ∧ r.inventory = ["x=y".toList, "==".toList] :=
  have h := load_value_after_first_equals zeroText (newProgress zeroText) "a=b=c".toList
    "current_level=2\n".toList (by decide)
    (GameProgress.mk "a=b".toList 2 () 1 ["x=y".toList, "==".toList]) ()
    (by decide) (by decide) (by decide) (by decide) (by decide) rfl
  ⟨h.1, h.2.2⟩

end FileUtils
end GameUtils
end CppCodeQuest
namespace CppCodeQuest
namespace GameUtils
namespace FileUtils

variable {D : Type}

/-! ## Ignored lines and the loaded inventory -/

/-- The loop of `load_game_progress` on whole lines followed by a last line
without newline, which may be empty: all of them are processed in order. -/
theorem load_loop_lines_last (dt : DoubleText D) (ls : List CppString) (last : CppString)
    (hls : ∀ l ∈ ls, '\n' ∉ l) (hlast : '\n' ∉ last) (p : GameProgress D) :
    load_game_progress_loop dt p (joinLines ls ++ last) =
      (ls ++ [last]).foldlM (load_game_progress_line dt) p := by
  rw [load_loop_lines dt ls hls, List.foldlM_append]
  cases ls.foldlM (load_game_progress_line dt) p with
  | error e => rfl
  | ok q =>
    show load_game_progress_loop dt q last = List.foldlM (load_game_progress_line dt) q [last]
    rw [List.foldlM_cons]
    by_cases hne : last = []
    · subst hne
      rw [load_loop_nil, load_line_blank]
      rfl
    · rw [load_loop_last dt q last hlast hne]
      cases load_game_progress_line dt q last with
      | error e => rfl
      | ok r => rfl

theorem takeWhile_key (k v : CppString) (hk : '=' ∉ k) :
    (k ++ '=' :: v).takeWhile (fun c => c != '=') = k := by
  induction k with
  | nil => simp [List.takeWhile]
  | cons c t ih =>
    have hc : c ≠ '=' := fun h => hk (by simp [h])
    have ht : '=' ∉ t := fun h => hk (List.mem_cons_of_mem _ h)
    have hb : (c != '=') = true := by simpa using hc
    simp only [List.cons_append, List.takeWhile_cons, hb, if_true, ih ht]

/-- A line starts with `inventory_item=` exactly when its key is
`inventory_item`. -/
theorem isPrefixOf_inventory_item (k v : CppString) (hk : '=' ∉ k) :
    ("inventory_item=".toList.isPrefixOf (k ++ '=' :: v) = true) ↔
      k = "inventory_item".toList := by
  constructor
  · intro h
    obtain ⟨t, ht⟩ := List.isPrefixOf_iff_prefix.1 h
    have h1 : "inventory_item=".toList ++ t = "inventory_item".toList ++ '=' :: t := rfl
    rw [h1] at ht
    have h2 := congrArg (List.takeWhile (fun c => c != '=')) ht
    rw [takeWhile_key _ _ (by decide), takeWhile_key _ _ hk] at h2
    exact h2.symm
  · intro h
    subst h
    exact List.isPrefixOf_iff_prefix.2 ⟨v, rfl⟩

/-- The inventory after one line: the value of the line is appended when the
line starts with `inventory_item=`, nothing changes otherwise. -/
theorem load_line_inventory (dt : DoubleText D) (p q : GameProgress D) (l : CppString)
    (h : load_game_progress_line dt p l = Except.ok q) :
    q.inventory = p.inventory ++
      [l].filterMap (fun x =>
        if "inventory_item=".toList.isPrefixOf x then some (x.drop 15) else none) := by
  by_cases he : '=' ∈ l
  swap
  · rw [load_line_no_eq dt p l he] at h
    have hq : p = q := by injection h
    have hp : "inventory_item=".toList.isPrefixOf l = false := by
      rw [Bool.eq_false_iff]
      intro hp
      obtain ⟨t, ht⟩ := List.isPrefixOf_iff_prefix.1 hp
      exact he (by rw [← ht]; simp)
    simp only [List.filterMap_cons, List.filterMap_nil, hp, Bool.false_eq_true, if_false,
      List.append_nil]
    rw [hq]
  by_cases hc : l.head? = some '#'
  · rw [load_line_comment dt p l hc] at h
    have hq : p = q := by injection h
    have hp : "inventory_item=".toList.isPrefixOf l = false := by
      rw [Bool.eq_false_iff]
      intro hp
      obtain ⟨t, ht⟩ := List.isPrefixOf_iff_prefix.1 hp
      have hi : ("inventory_item=".toList ++ t).head? = some 'i' := rfl
      rw [← ht, hi] at hc
      exact absurd hc (by decide)
    simp only [List.filterMap_cons, List.filterMap_nil, hp, Bool.false_eq_true, if_false,
      List.append_nil]
    rw [hq]
  obtain ⟨h1, h2⟩ := split_at_eq l he
  generalize l.takeWhile (fun c => c != '=') = k at h1 h2
  generalize (l.dropWhile (fun c => c != '=')).tail = v at h1
  subst h1
  have hk : k.head? ≠ some '#' := by
    intro hk
    cases k with
    | nil => simp at hk
    | cons c t => exact hc (by simpa using hk)
  rw [load_line_key_value dt p k v h2 hk] at h
  by_cases hinv : k = "inventory_item".toList
  · have hp := (isPrefixOf_inventory_item k v h2).2 hinv
    subst hinv
    rw [if_neg (by decide), if_neg (by decide), if_neg (by decide), if_neg (by decide),
      if_pos rfl] at h
    have hq : GameProgress.mk p.player_name p.current_level p.experience p.completed_levels
        (p.inventory ++ [v]) = q := by injection h
    have hd : List.drop 15 ("inventory_item".toList ++ '=' :: v) = v := rfl
    simp only [List.filterMap_cons, List.filterMap_nil, hp, if_true, hd]
    rw [← hq]
  · have hp : "inventory_item=".toList.isPrefixOf (k ++ '=' :: v) = false := by
      rw [Bool.eq_false_iff]
      exact fun h => hinv ((isPrefixOf_inventory_item k v h2).1 h)
    simp only [List.filterMap_cons, List.filterMap_nil, hp, Bool.false_eq_true, if_false,
      List.append_nil]
    rw [if_neg hinv] at h
    split_ifs at h
    · injection h with h; rw [← h]
    · split at h
      · injection h with h; rw [← h]
      · exact absurd h (by simp)
    · split at h
      · injection h with h; rw [← h]
      · exact absurd h (by simp)
    · split at h
      · injection h with h; rw [← h]
      · exact absurd h (by simp)
    · injection h with h; rw [← h]

theorem load_lines_inventory (dt : DoubleText D) (ls : List CppString) :
    ∀ p q : GameProgress D, ls.foldlM (load_game_progress_line dt) p = Except.ok q →
      q.inventory = p.inventory ++
        ls.filterMap (fun x =>
          if "inventory_item=".toList.isPrefixOf x then some (x.drop 15) else none) := by
  induction ls with
  | nil =>
    intro p q h
    have : p = q := by injection h
    simp [this]
  | cons l t ih =>
    intro p q h
    rw [List.foldlM_cons] at h
    cases hl : load_game_progress_line dt p l with
    | error e => rw [hl] at h; exact absurd h (by intro h; cases h)
    | ok r =>
      rw [hl] at h
      have h1 := load_line_inventory dt p r l hl
      have h2 := ih r q h
      rw [h2, h1]
      have : (l :: t).filterMap (fun x =>
          if "inventory_item=".toList.isPrefixOf x then some (x.drop 15) else none) =
          [l].filterMap (fun x =>
            if "inventory_item=".toList.isPrefixOf x then some (x.drop 15) else none) ++
          t.filterMap (fun x =>
            if "inventory_item=".toList.isPrefixOf x then some (x.drop 15) else none) :=
        List.filterMap_append [l] t _
      rw [this, List.append_assoc]

end FileUtils
end GameUtils
end CppCodeQuest
namespace CppCodeQuest
namespace GameUtils
namespace FileUtils

variable {D : Type}

/-- The lines on which `load_game_progress` cannot throw: the value of a
`current_level` or `completed_levels` line is read by `std::stoi`, the value
of an `experience` line by `std::stod`. -/
theorem load_line_ok (dt : DoubleText D) (l : CppString)
    (hgood : ("current_level=".toList.isPrefixOf l = true →
        (stoi (l.drop 14)).isOk = true) ∧
      ("completed_levels=".toList.isPrefixOf l = true → (stoi (l.drop 17)).isOk = true) ∧
      ("experience=".toList.isPrefixOf l = true → (dt.stod (l.drop 11)).isOk = true))
    (p : GameProgress D) : ∃ q, load_game_progress_line dt p l = Except.ok q := by
  by_cases he : '=' ∈ l
  swap
  · exact ⟨p, load_line_no_eq dt p l he⟩
  by_cases hc : l.head? = some '#'
  · exact ⟨p, load_line_comment dt p l hc⟩
  obtain ⟨h1, h2⟩ := split_at_eq l he
  generalize l.takeWhile (fun c => c != '=') = k at h1 h2
  generalize (l.dropWhile (fun c => c != '=')).tail = v at h1
  subst h1
  have hk : k.head? ≠ some '#' := by
    intro hk
    cases k with
    | nil => simp at hk
    | cons c t => exact hc (by simpa using hk)
  rw [load_line_key_value dt p k v h2 hk]
  by_cases hk1 : k = "player_name".toList
  · rw [if_pos hk1]; exact ⟨_, rfl⟩
  rw [if_neg hk1]
  by_cases hk2 : k = "current_level".toList
  · rw [if_pos hk2]
    subst hk2
    have h := hgood.1 (List.isPrefixOf_iff_prefix.2 ⟨v, rfl⟩)
    have hd : List.drop 14 ("current_level".toList ++ '=' :: v) = v := rfl
    rw [hd] at h
    cases hs : stoi v with
    | error e => rw [hs] at h; exact absurd h (by simp [Except.isOk, Except.toBool])
    | ok n => exact ⟨_, rfl⟩
  rw [if_neg hk2]
  by_cases hk3 : k = "experience".toList
  · rw [if_pos hk3]
    subst hk3
    have h := hgood.2.2 (List.isPrefixOf_iff_prefix.2 ⟨v, rfl⟩)
    have hd : List.drop 11 ("experience".toList ++ '=' :: v) = v := rfl
    rw [hd] at h
    cases hs : dt.stod v with
    | error e => rw [hs] at h; exact absurd h (by simp [Except.isOk, Except.toBool])
    | ok n => exact ⟨_, rfl⟩
  rw [if_neg hk3]
  by_cases hk4 : k = "completed_levels".toList
  · rw [if_pos hk4]
    subst hk4
    have h := hgood.2.1 (List.isPrefixOf_iff_prefix.2 ⟨v, rfl⟩)
    have hd : List.drop 17 ("completed_levels".toList ++ '=' :: v) = v := rfl
    rw [hd] at h
    cases hs : stoi v with
    | error e => rw [hs] at h; exact absurd h (by simp [Except.isOk, Except.toBool])
    | ok n => exact ⟨_, rfl⟩
  rw [if_neg hk4]
  by_cases hk5 : k = "inventory_item".toList
  · rw [if_pos hk5]; exact ⟨_, rfl⟩
  · rw [if_neg hk5]; exact ⟨_, rfl⟩

theorem load_lines_ok (dt : DoubleText D) (ls : List CppString)
    (hgood : ∀ l ∈ ls, ("current_level=".toList.isPrefixOf l = true →
        (stoi (l.drop 14)).isOk = true) ∧
      ("completed_levels=".toList.isPrefixOf l = true → (stoi (l.drop 17)).isOk = true) ∧
      ("experience=".toList.isPrefixOf l = true → (dt.stod (l.drop 11)).isOk = true)) :
    ∀ p : GameProgress D, ∃ q, ls.foldlM (load_game_progress_line dt) p = Except.ok q := by
  induction ls with
  | nil => intro p; exact ⟨p, rfl⟩
  | cons l t ih =>
    intro p
    obtain ⟨r, hr⟩ := load_line_ok dt l (hgood l (List.mem_cons_self _ _)) p
    obtain ⟨q, hq⟩ := ih (fun x hx => hgood x (List.mem_cons_of_mem _ hx)) r
    refine ⟨q, ?_⟩
    rw [List.foldlM_cons, hr]
    exact hq

/-- C18: `load_game_progress` skips the empty line, a line that starts with `#`,
a line without `=` and a line whose key is not recognized: with such a line
`l` put after any whole lines `ls` and before any further content `rest`, or
put last without a newline, the result is the same as without it, and a
newline after the last line changes nothing. A content none of whose lines
makes `std::stoi` or `std::stod` throw is loaded, and the progress loaded has
as its inventory the values of the `inventory_item=` lines, in file order;
the same holds of the inventory whenever a progress is loaded. -/
theorem load_ignores_lines (dt : DoubleText D) (ls : List CppString) (l : CppString)
    (rest : IStream) (hls : ∀ x ∈ ls, '\n' ∉ x) (hl : '\n' ∉ l)
    (hign : l = [] ∨ l.head? = some '#' ∨ '=' ∉ l ∨
      l.takeWhile (fun c => c != '=') ∉ ["player_name".toList, "current_level".toList,
        "experience".toList, "completed_levels".toList, "inventory_item".toList]) :
    load_game_progress dt (some (joinLines ls ++ l ++ '\n' :: rest)) =
      load_game_progress dt (some (joinLines ls ++ rest)) ∧
    load_game_progress dt (some (joinLines ls ++ l)) =
      load_game_progress dt (some (joinLines ls)) ∧
    (∀ last : CppString, '\n' ∉ last →
      load_game_progress dt (some (joinLines ls ++ last ++ ['\n'])) =
        load_game_progress dt (some (joinLines ls ++ last))) ∧
    (∀ last : CppString, '\n' ∉ last →
      (∀ x ∈ ls ++ [last],
        ("current_level=".toList.isPrefixOf x = true → (stoi (x.drop 14)).isOk = true) ∧
        ("completed_levels=".toList.isPrefixOf x = true → (stoi (x.drop 17)).isOk = true) ∧
        ("experience=".toList.isPrefixOf x = true → (dt.stod (x.drop 11)).isOk = true)) →
      ∃ q : GameProgress D,
        load_game_progress dt (some (joinLines ls ++ last)) = Except.ok (some q) ∧
        load_game_progress dt (some (joinLines ls ++ l ++ '\n' :: last)) =
          Except.ok (some q) ∧
        q.inventory = (ls ++ [last]).filterMap (fun x =>
          if "inventory_item=".toList.isPrefixOf x then some (x.drop 15) else none)) ∧
    (∀ (last : CppString) (q : GameProgress D), '\n' ∉ last →
      load_game_progress dt (some (joinLines ls ++ last)) = Except.ok (some q) →
      q.inventory = (ls ++ [last]).filterMap (fun x =>
        if "inventory_item=".toList.isPrefixOf x then some (x.drop 15) else none)) := by
  have hinsert : ∀ rest : IStream,
      load_game_progress dt (some (joinLines ls ++ l ++ '\n' :: rest)) =
        load_game_progress dt (some (joinLines ls ++ rest)) := by
    intro rest
    unfold load_game_progress
    simp only [List.append_assoc]
    rw [load_loop_lines dt ls hls, load_loop_lines dt ls hls]
    cases List.foldlM (load_game_progress_line dt) (newProgress dt) ls with
    | error e => rfl
    | ok q =>
      simp only []
      rw [load_loop_line dt q l rest hl, load_line_ignored dt q l hign]
  have hinventory : ∀ (last : CppString) (q : GameProgress D), '\n' ∉ last →
      load_game_progress dt (some (joinLines ls ++ last)) = Except.ok (some q) →
      q.inventory = (ls ++ [last]).filterMap (fun x =>
        if "inventory_item=".toList.isPrefixOf x then some (x.drop 15) else none) := by
    intro last q hlast h
    unfold load_game_progress at h
    simp only [] at h
    rw [load_loop_lines_last dt ls last hls hlast] at h
    cases hf : List.foldlM (load_game_progress_line dt) (newProgress dt) (ls ++ [last]) with
    | error e => rw [hf] at h; exact absurd h (by intro h; cases h)
    | ok r =>
      rw [hf] at h
      have hq : r = q := by
        injection h with h
        injection h
      have := load_lines_inventory dt (ls ++ [last]) (newProgress dt) r hf
      rw [← hq, this]
      rfl
  refine ⟨hinsert rest, ?_, ?_, ?_, hinventory⟩
  · unfold load_game_progress
    simp only []
    rw [load_loop_lines_last dt ls l hls hl, load_loop_joinLines dt ls hls, List.foldlM_append]
    cases List.foldlM (load_game_progress_line dt) (newProgress dt) ls with
    | error e => rfl
    | ok q =>
      show (match List.foldlM (load_game_progress_line dt) q [l] with
        | Except.ok progress => Except.ok (some progress)
        | Except.error e => Except.error e) = _
      rw [List.foldlM_cons, load_line_ignored dt q l hign]
      rfl
  · intro last hlast
    have hj : joinLines ls ++ last ++ ['\n'] = joinLines (ls ++ [last]) := by
      simp [joinLines, List.flatMap_append]
    have hls2 : ∀ x ∈ ls ++ [last], '\n' ∉ x := by
      intro x hx
      rcases List.mem_append.1 hx with hx | hx
      · exact hls x hx
      · rw [List.mem_singleton.1 hx]; exact hlast
    unfold load_game_progress
    simp only []
    rw [hj, load_loop_joinLines dt _ hls2, load_loop_lines_last dt ls last hls hlast]
  · intro last hlast hgood
    obtain ⟨q, hq⟩ := load_lines_ok dt (ls ++ [last]) hgood (newProgress dt)
    have hload : load_game_progress dt (some (joinLines ls ++ last)) = Except.ok (some q) := by
      unfold load_game_progress
      simp only []
      rw [load_loop_lines_last dt ls last hls hlast, hq]
    exact ⟨q, hload, by rw [hinsert last, hload], hinventory last q hlast hload⟩

theorem load_ignores_lines_witness :
    ∃ q : GameProgress Unit,
      load_game_progress zeroText (some (joinLines ["# save".toList, "".toList,
        "player_name=Al".toList, "inventory_item=a".toList, "current_level=3".toList,
        "no equals sign".toList, "inventory_item=b=c".toList] ++ "experience=0".toList)) =
        Except.ok (some q) ∧
      load_game_progress zeroText (some (joinLines ["# save".toList, "".toList,
        "player_name=Al".toList, "inventory_item=a".toList, "current_level=3".toList,
        "no equals sign".toList, "inventory_item=b=c".toList] ++ "colour=red".toList ++
        '\n' :: "experience=0".toList)) = Except.ok (some q) ∧
      q.inventory = ["a".toList, "b=c".toList] :=
  (load_ignores_lines zeroText ["# save".toList, "".toList,
    "player_name=Al".toList, "inventory_item=a".toList, "current_level=3".toList,
    "no equals sign".toList, "inventory_item=b=c".toList] "colour=red".toList []
    (by decide) (by decide) (Or.inr (Or.inr (Or.inr (by decide))))).2.2.2.1
    "experience=0".toList (by decide) (by decide)

end FileUtils
end GameUtils
end CppCodeQuest
namespace CppCodeQuest
namespace GameUtils

/-! ## Integers with trailing text -/

end GameUtils
end CppCodeQuest
namespace CppCodeQuest
namespace GameEngine

/-! ## The validators of the curriculum -/

theorem contains_mono (s s2 n : CppString) (h : s <:+: s2)
    (hn : StringUtils.contains s n = true) : StringUtils.contains s2 n = true := by
  rw [StringUtils.contains_iff_occurs] at hn ⊢
  exact hn.trans h

theorem containsAll_mono (s s2 : CppString) (ns : List CppString) (h : s <:+: s2)
    (hn : StringUtils.containsAll s ns = true) : StringUtils.containsAll s2 ns = true := by
  rw [StringUtils.containsAll_iff_forall] at hn ⊢
  exact fun n hm => contains_mono s s2 n h (hn n hm)

/-- C21: when the operator types `DONE` at once, `getUserCode` returns the empty
text, and the empty submission fails the validator of each of the five
levels of the curriculum. -/
theorem empty_submission_fails (rest : IStream) :
    Level.getUserCode ("DONE\n".toList ++ rest) = ([], rest) ∧
    new.levels_.map (fun l =>
      (l.title_, l.validateSolution (Level.getUserCode ("DONE\n".toList ++ rest)).1)) =
      [("The Temple of Auto".toList, false), ("The Lambda Sanctuary".toList, false),
       ("The Smart Pointer Forge".toList, false),
       ("The Valley of Move Semantics".toList, false),
       ("The Citadel of Structured Bindings".toList, false)] := by
  have h : Level.getUserCode ("DONE\n".toList ++ rest) = ([], rest) := by
    rw [Level.getUserCode, Level.getUserCodeLoop]
    have hg : getline ("DONE\n".toList ++ rest) = (true, "DONE".toList, rest) :=
      getline_line "DONE".toList rest (by decide)
    rw [hg]
    simp
  refine ⟨h, ?_⟩
  rw [h]
  show new.levels_.map (fun l => (l.title_, l.validateSolution [])) = _
  decide

/-- C22: the validator of the first level returns `true` exactly on the
submissions that contain `auto` and contain `[`. Its first alternative, which
asks for `auto`, `lambda` and `[]`, implies the second, and the second names
`auto` twice. -/
theorem validator1_iff (s : CppString) :
    (new.levels_.head?).map (fun l => l.validateSolution s) = some (validator1 s) ∧
    (validator1 s = true ↔ "auto".toList <:+: s ∧ "[".toList <:+: s) ∧
    validator1 s = (StringUtils.contains s "auto".toList && StringUtils.contains s "[".toList) ∧
    (StringUtils.containsAll s ["auto".toList, "lambda".toList, "[]".toList] = true →
      StringUtils.containsAll s ["auto".toList, "[".toList, "auto".toList] = true) := by
  have hb : "[".toList <:+: "[]".toList := ⟨[], "]".toList, rfl⟩
  have himp : StringUtils.containsAll s ["auto".toList, "lambda".toList, "[]".toList] = true →
      StringUtils.containsAll s ["auto".toList, "[".toList, "auto".toList] = true := by
    simp only [StringUtils.containsAll_iff_forall, StringUtils.contains_iff_occurs,
      List.mem_cons, List.mem_singleton, List.not_mem_nil, or_false, forall_eq_or_imp,
      forall_eq]
    intro h
    exact ⟨h.1, hb.trans h.2.2, h.1⟩
  have hsecond : StringUtils.containsAll s ["auto".toList, "[".toList, "auto".toList] =
      (StringUtils.contains s "auto".toList && StringUtils.contains s "[".toList) := by
    rw [Bool.eq_iff_iff, Bool.and_eq_true, StringUtils.containsAll_iff_forall]
    simp only [List.mem_cons, List.mem_singleton, List.not_mem_nil, or_false, forall_eq_or_imp,
      forall_eq]
    tauto
  have hval : validator1 s =
      (StringUtils.contains s "auto".toList && StringUtils.contains s "[".toList) := by
    unfold validator1
    rw [← hsecond]
    cases h1 : StringUtils.containsAll s ["auto".toList, "lambda".toList, "[]".toList] with
    | false => rfl
    | true => rw [himp h1]; rfl
  refine ⟨rfl, ?_, hval, himp⟩
  rw [hval, Bool.and_eq_true, StringUtils.contains_iff_occurs, StringUtils.contains_iff_occurs]

/-- C30: each of the five validators of the curriculum is monotone: when a
submission `s` passes and `s` occurs in `s2` as a contiguous block, `s2`
passes too. -/
theorem validators_monotone (s s2 : CppString) (h : s <:+: s2) :
    ∀ l ∈ new.levels_, l.validateSolution s = true → l.validateSolution s2 = true := by
  have h1 : validator1 s = true → validator1 s2 = true := by
    unfold validator1
    simp only [Bool.or_eq_true]
    rintro (h1 | h1)
    · exact Or.inl (containsAll_mono s s2 _ h h1)
    · exact Or.inr (containsAll_mono s s2 _ h h1)
  have h2 : validator2 s = true → validator2 s2 = true := by
    unfold validator2
    simp only [Bool.or_eq_true]
    rintro (h1 | h1)
    · exact Or.inl (containsAll_mono s s2 _ h h1)
    · exact Or.inr (contains_mono s s2 _ h h1)
  have h3 : validator3 s = true → validator3 s2 = true := by
    unfold validator3
    simp only [Bool.or_eq_true]
    rintro (h1 | h1)
    · exact Or.inl (containsAll_mono s s2 _ h h1)
    · exact Or.inr (contains_mono s s2 _ h h1)
  have h4 : validator4 s = true → validator4 s2 = true := by
    unfold validator4
    simp only [Bool.or_eq_true]
    rintro (h1 | h1)
    · exact Or.inl (containsAll_mono s s2 _ h h1)
    · exact Or.inr (containsAll_mono s s2 _ h h1)
  have h5 : validator5 s = true → validator5 s2 = true := by
    unfold validator5
    simp only [Bool.or_eq_true]
    rintro (h1 | h1)
    · exact Or.inl (containsAll_mono s s2 _ h h1)
    · exact Or.inr (contains_mono s s2 _ h h1)
  intro l hl
  have hlev : new.levels_ = [level1, level2, level3, level4, level5] := rfl
  rw [hlev] at hl
  simp only [List.mem_cons, List.mem_singleton, List.not_mem_nil, or_false] at hl
  rcases hl with rfl | rfl | rfl | rfl | rfl
  · exact h1
  · exact h2
  · exact h3
  · exact h4
  · exact h5

theorem validators_monotone_witness :
    "if constexpr".toList <:+: "// note\nif constexpr (true) \x7b\x7d\n".toList ∧
    (new.levels_.get? 4).map (fun l =>
      l.validateSolution "// note\nif constexpr (true) \x7b\x7d\n".toList) = some true :=
  have h : "if constexpr".toList <:+: "// note\nif constexpr (true) \x7b\x7d\n".toList :=
    ⟨"// note\n".toList, " (true) \x7b\x7d\n".toList, rfl⟩
  ⟨h, congrArg some
    (validators_monotone "if constexpr".toList _ h level5
      (List.mem_of_mem_getLast? (by rfl)) (by decide))⟩

set_option maxRecDepth 100000

/-- C23: for each of the five levels of the curriculum, the reference solution
of the level passes the validator of the level. -/
theorem solutions_pass_validators :
    new.levels_.map (fun l => (l.title_, l.validateSolution l.getSolutionText)) =
      [("The Temple of Auto".toList, true), ("The Lambda Sanctuary".toList, true),
       ("The Smart Pointer Forge".toList, true),
       ("The Valley of Move Semantics".toList, true),
       ("The Citadel of Structured Bindings".toList, true)] := by
  decide

end GameEngine
end CppCodeQuest
namespace CppCodeQuest
namespace StringUtils

/-! ## `split`, `join` and `replaceAll` -/

theorem findAux_shift (sub : CppString) (t : CppString) :
    ∀ q : Nat, findAux sub t q = (findAux sub t 0).map (fun i => i + q) := by
  induction t with
  | nil =>
    intro q
    simp only [findAux]
    split <;> simp
  | cons c r ih =>
    intro q
    simp only [findAux]
    by_cases hp : sub.isPrefixOf (c :: r) = true
    · simp [hp]
    · rw [if_neg hp, if_neg hp, ih (q + 1), ih (0 + 1)]
      cases findAux sub r 0 with
      | none => rfl
      | some i => simp only [Option.map_some']; congr 1; omega

theorem findAux_zero_some (sub : CppString) (t : CppString) :
    ∀ i : Nat, findAux sub t 0 = some i →
      ∃ pre post : CppString, t = pre ++ (sub ++ post) ∧ pre.length = i := by
  induction t with
  | nil =>
    intro i h
    simp only [findAux] at h
    split at h
    · rename_i hp
      obtain ⟨post, hpost⟩ := List.isPrefixOf_iff_prefix.1 hp
      have : i = 0 := by injection h with h; exact h.symm
      exact ⟨[], post, by simpa using hpost.symm, by simp [this]⟩
    · exact absurd h (by simp)
  | cons c r ih =>
    intro i h
    simp only [findAux] at h
    by_cases hp : sub.isPrefixOf (c :: r) = true
    · rw [if_pos hp] at h
      obtain ⟨post, hpost⟩ := List.isPrefixOf_iff_prefix.1 hp
      have : i = 0 := by injection h with h; exact h.symm
      exact ⟨[], post, by simpa using hpost.symm, by simp [this]⟩
    · rw [if_neg hp, findAux_shift sub r (0 + 1)] at h
      cases hr : findAux sub r 0 with
      | none => rw [hr] at h; exact absurd h (by simp)
      | some j =>
        rw [hr] at h
        obtain ⟨pre, post, ht, hl⟩ := ih j hr
        have hi : j + 1 = i := by simpa using h
        exact ⟨c :: pre, post, by rw [ht]; rfl, by simp [hl, hi]⟩

theorem find_drop (str sub : CppString) (start : Nat) (h : start ≤ str.length) :
    find str sub start = (findAux sub (str.drop start) 0).map (fun i => i + start) := by
  unfold find
  rw [if_pos h, findAux_shift]

theorem join_foldl (delimiter : CppString) (rest : List CppString) :
    ∀ x y : CppString,
      rest.foldl (fun result s => result ++ (delimiter ++ s)) (x ++ y) =
        x ++ rest.foldl (fun result s => result ++ (delimiter ++ s)) y := by
  induction rest with
  | nil => intro x y; rfl
  | cons a r ih =>
    intro x y
    simp only [List.foldl_cons, List.append_assoc]
    exact ih x (y ++ (delimiter ++ a))

theorem join_cons (a : CppString) (r : List CppString) (delimiter : CppString)
    (hr : r ≠ []) : join (a :: r) delimiter = a ++ (delimiter ++ join r delimiter) := by
  obtain ⟨b, t, rfl⟩ := List.exists_cons_of_ne_nil hr
  simp only [join, List.foldl_cons]
  rw [join_foldl delimiter t a (delimiter ++ b), join_foldl delimiter t delimiter b]

theorem replaceAllLoop_none (from_ : CppString) (hfrom : from_ ≠ []) (to_ result : CppString)
    (pos : Nat) (h : find result from_ pos = none) :
    replaceAllLoop from_ hfrom to_ result pos = result := by
  rw [replaceAllLoop]
  simp [h]

theorem replaceAllLoop_some (from_ : CppString) (hfrom : from_ ≠ []) (to_ result : CppString)
    (pos p : Nat) (h : find result from_ pos = some p) :
    replaceAllLoop from_ hfrom to_ result pos =
      replaceAllLoop from_ hfrom to_
        (result.take p ++ to_ ++ result.drop (p + from_.length)) (p + to_.length) := by
  rw [replaceAllLoop]
  simp [h]

theorem splitLoop_mono (str delimiter : CppString) (r : List CppString) :
    ∀ (n : Nat) (st : SplitState), splitLoop str delimiter n st = some r →
      ∀ m, n ≤ m → splitLoop str delimiter m st = some r := by
  intro n
  induction n with
  | zero => intro st h; simp [splitLoop] at h
  | succ n ih =>
    intro st h m hm
    obtain ⟨k, rfl⟩ : ∃ k, m = k + 1 := ⟨m - 1, by omega⟩
    simp only [splitLoop] at h ⊢
    cases he : st.end_ with
    | none => rw [he] at h; exact h
    | some e =>
      rw [he] at h
      exact ih _ h k (by omega)

/-- The loop of `split` and the loop of `replaceAll`, from a position `start`
of the subject behind which `t` remains, for a non-empty delimiter. -/
theorem splitLoop_spec (str delimiter : CppString) (hd : delimiter ≠ []) :
    ∀ (n : Nat) (t : CppString) (start : Nat) (acc : List CppString),
      start ≤ str.length → str.drop start = t → t.length < n →
      ∃ r : List CppString,
        splitLoop str delimiter n
          { result := acc, start := start, end_ := find str delimiter start } =
          some (acc ++ r) ∧
        r ≠ [] ∧ join r delimiter = t ∧
        ∀ to_ done : CppString,
          replaceAllLoop delimiter hd to_ (done ++ t) done.length = done ++ join r to_ := by
  intro n
  induction n with
  | zero => intro t start acc _ _ h; omega
  | succ n ih =>
    intro t start acc hstart ht hlen
    have hdl : 0 < delimiter.length := List.length_pos.2 hd
    have hfind := find_drop str delimiter start hstart
    rw [ht] at hfind
    have hfind2 : ∀ done : CppString, find (done ++ t) delimiter done.length =
        (findAux delimiter t 0).map (fun i => i + done.length) := by
      intro done
      rw [find_drop _ _ _ (by simp), List.drop_left]
    cases hf : findAux delimiter t 0 with
    | none =>
      rw [hf] at hfind
      refine ⟨[t], ?_, by simp, rfl, ?_⟩
      · simp only [splitLoop, hfind, Option.map_none', ht]
      · intro to_ done
        have := hfind2 done
        rw [hf] at this
        rw [replaceAllLoop_none _ _ _ _ _ this]
        rfl
    | some i =>
      rw [hf] at hfind
      obtain ⟨pre, post, hsplit, hpre⟩ := findAux_zero_some delimiter t i hf
      have hlen2 : t.length = i + (delimiter.length + post.length) := by
        rw [hsplit]; simp [hpre]
      have hstr : str.length = start + t.length := by
        have := congrArg List.length ht
        simp only [List.length_drop] at this
        omega
      have hdrop : str.drop (i + start + delimiter.length) = post := by
        have h1 : str.drop (i + start + delimiter.length) =
            (str.drop start).drop (i + delimiter.length) := by
          rw [List.drop_drop]; congr 1; omega
        rw [h1, ht, hsplit, ← hpre, ← List.drop_drop, List.drop_left, List.drop_left]
      have htake : substr str start (i + start - start) = pre := by
        unfold substr
        rw [ht, hsplit, Nat.add_sub_cancel, ← hpre, List.take_left]
      obtain ⟨r, hr, hne, hjoin, hrep⟩ := ih post (i + start + delimiter.length)
        (acc ++ [pre]) (by omega) hdrop (by omega)
      refine ⟨pre :: r, ?_, by simp, ?_, ?_⟩
      · simp only [splitLoop, hfind, Option.map_some', splitBody, htake]
        rw [hr]
        simp
      · rw [join_cons pre r delimiter hne, hjoin, hsplit]
      · intro to_ done
        have h2 := hfind2 done
        rw [hf] at h2
        rw [replaceAllLoop_some _ _ _ _ _ _ h2]
        have hres : List.take (i + done.length) (done ++ t) ++ to_ ++
            List.drop (i + done.length + delimiter.length) (done ++ t) =
            (done ++ pre ++ to_) ++ post := by
          have e1 : List.take (i + done.length) (done ++ t) = done ++ pre := by
            rw [hsplit, ← List.append_assoc, ← hpre]
            have : pre.length + done.length = (done ++ pre).length := by simp; omega
            rw [this, List.take_left]
          have e2 : List.drop (i + done.length + delimiter.length) (done ++ t) = post := by
            rw [hsplit, ← hpre]
            have : done ++ (pre ++ (delimiter ++ post)) = (done ++ pre ++ delimiter) ++ post := by
              simp
            have hl : pre.length + done.length + delimiter.length =
                (done ++ pre ++ delimiter).length := by simp; omega
            rw [this, hl, List.drop_left]
          rw [e1, e2]
        have hpos : i + done.length + to_.length = (done ++ pre ++ to_).length := by
          simp [hpre]; omega
        rw [hres, hpos, hrep to_ (done ++ pre ++ to_), join_cons pre r to_ hne]
        simp

end StringUtils
end CppCodeQuest
namespace CppCodeQuest
namespace StringUtils

theorem split_spec (str delimiter : CppString) (hd : delimiter ≠ []) :
    ∃ r : List CppString,
      (∀ fuel, str.length + 1 ≤ fuel → split fuel str delimiter = some r) ∧
      r ≠ [] ∧ join r delimiter = str ∧
      ∀ to_ : CppString, replaceAll str delimiter to_ = join r to_ := by
  obtain ⟨r, hr, hne, hjoin, hrep⟩ := splitLoop_spec str delimiter hd (str.length + 1) str 0 []
    (Nat.zero_le _) rfl (Nat.lt_succ_self _)
  refine ⟨r, ?_, hne, hjoin, ?_⟩
  · intro fuel hfuel
    exact splitLoop_mono str delimiter r _ _ hr fuel hfuel
  · intro to_
    unfold replaceAll
    rw [dif_neg hd]
    exact hrep to_ []

theorem splitLoop_empty (str : CppString) :
    ∀ (fuel : Nat) (acc : List CppString),
      splitLoop str [] fuel { result := acc, start := 0, end_ := some 0 } = none := by
  intro fuel
  induction fuel with
  | zero => intro acc; rfl
  | succ n ih =>
    intro acc
    have hf : find str [] 0 = some 0 := by
      unfold find
      cases str <;> simp [findAux, List.isPrefixOf]
    simp only [splitLoop, splitBody, List.length_nil, Nat.add_zero, hf]
    exact ih _

/-- C24: for a non-empty delimiter `split` ends, within `str.length + 1` tests of
its loop condition, and returns a non-empty list whose `join` with the
delimiter is the string that was split. For the empty delimiter the loop
starts with `start` 0 and `end` 0, each run of its body leaves them so, and
the loop does not end within any number of tests. -/
theorem split_join (str delimiter : CppString) (hd : delimiter ≠ []) :
    (∃ r : List CppString,
      (∀ fuel, str.length + 1 ≤ fuel → split fuel str delimiter = some r) ∧
      r ≠ [] ∧ join r delimiter = str) ∧
    (splitInit str []).start = 0 ∧ (splitInit str []).end_ = some 0 ∧
    (∀ st : SplitState, st.start = 0 →
      (splitBody str [] st 0).start = 0 ∧ (splitBody str [] st 0).end_ = some 0 ∧
      (splitBody str [] st 0).result = st.result ++ [[]]) ∧
    ∀ fuel, split fuel str [] = none := by
  have hf : find str [] 0 = some 0 := by
    unfold find
    cases str <;> simp [findAux, List.isPrefixOf]
  obtain ⟨r, h1, h2, h3, -⟩ := split_spec str delimiter hd
  refine ⟨⟨r, h1, h2, h3⟩, rfl, hf, ?_, ?_⟩
  · intro st hst
    simp [splitBody, hf, hst, substr]
  · intro fuel
    unfold split splitInit
    rw [hf]
    exact splitLoop_empty str fuel []

theorem split_join_witness :
    (∃ r : List CppString,
      (∀ fuel, "a, b,, c".toList.length + 1 ≤ fuel →
        split fuel "a, b,, c".toList ", ".toList = some r) ∧
      r ≠ [] ∧ join r ", ".toList = "a, b,, c".toList) :=
  (split_join "a, b,, c".toList ", ".toList (by decide)).1

/-- C25: for a non-empty `from`, `replaceAll(str, from, to)`, a total function, is
`join(split(str, from), to)`, whatever `to` is; for the empty `from` it
returns `str`. -/
theorem replaceAll_eq_join_split (str from_ to_ : CppString) (hfrom : from_ ≠ []) :
    (∃ r : List CppString,
      (∀ fuel, str.length + 1 ≤ fuel → split fuel str from_ = some r) ∧
      replaceAll str from_ to_ = join r to_) ∧
    replaceAll str [] to_ = str := by
  obtain ⟨r, h1, -, -, h4⟩ := split_spec str from_ hfrom
  exact ⟨⟨r, h1, h4 to_⟩, rfl⟩

theorem replaceAll_eq_join_split_witness :
    (∃ r : List CppString,
      (∀ fuel, "aXbXXc".toList.length + 1 ≤ fuel →
        split fuel "aXbXXc".toList "X".toList = some r) ∧
      replaceAll "aXbXXc".toList "X".toList "XX".toList = join r "XX".toList) :=
  (replaceAll_eq_join_split "aXbXXc".toList "X".toList "XX".toList (by decide)).1

end StringUtils
end CppCodeQuest
namespace CppCodeQuest
namespace StringUtils

/-! ## Balanced brackets -/

/-- One kind of bracket, counted from `n`: the condition on a text with first
character `x` in terms of the condition on the rest. -/
theorem balanced_cons (o c x : Char) (hoc : o ≠ c) (n : Int) (t : CppString) :
    ((∀ pre : CppString, pre <+: x :: t → 0 ≤ n + (pre.count o : Int) - (pre.count c : Int)) ∧
      n + ((x :: t).count o : Int) - ((x :: t).count c : Int) = 0) ↔
    (0 ≤ n ∧
      (∀ pre : CppString, pre <+: t →
        0 ≤ (if x = o then n + 1 else if x = c then n - 1 else n) +
          (pre.count o : Int) - (pre.count c : Int)) ∧
      (if x = o then n + 1 else if x = c then n - 1 else n) +
        (t.count o : Int) - (t.count c : Int) = 0) := by
  have hcount : ∀ l : CppString,
      n + ((x :: l).count o : Int) - ((x :: l).count c : Int) =
        (if x = o then n + 1 else if x = c then n - 1 else n) +
          (l.count o : Int) - (l.count c : Int) := by
    intro l
    by_cases h1 : x = o
    · have h2 : x ≠ c := fun h => hoc (h1 ▸ h)
      rw [if_pos h1, List.count_cons, List.count_cons]
      simp [h1, hoc]
      omega
    · by_cases h2 : x = c
      · rw [if_neg h1, if_pos h2, List.count_cons, List.count_cons]
        simp [h2, Ne.symm hoc]
        omega
      · rw [if_neg h1, if_neg h2, List.count_cons, List.count_cons]
        simp [h1, h2]
  constructor
  · rintro ⟨hpre, htot⟩
    refine ⟨?_, ?_, ?_⟩
    · have := hpre [] (List.nil_prefix)
      simpa using this
    · intro pre hp
      have := hpre (x :: pre) ((List.prefix_cons_inj x).2 hp)
      rw [hcount pre] at this
      exact this
    · rw [← hcount t]; exact htot
  · rintro ⟨hn, hpre, htot⟩
    refine ⟨?_, ?_⟩
    · intro pre hp
      cases pre with
      | nil => simpa using hn
      | cons y pre2 =>
        obtain ⟨rfl, hp2⟩ := List.cons_prefix_cons.1 hp
        rw [hcount pre2]
        exact hpre pre2 hp2
    · rw [hcount t]; exact htot

theorem balanced_nil (o c : Char) (n : Int) :
    ((∀ pre : CppString, pre <+: [] → 0 ≤ n + (pre.count o : Int) - (pre.count c : Int)) ∧
      n + (([] : CppString).count o : Int) - (([] : CppString).count c : Int) = 0) ↔ n = 0 := by
  constructor
  · rintro ⟨-, h⟩
    simpa using h
  · rintro rfl
    refine ⟨?_, by simp⟩
    intro pre hp
    rw [List.prefix_nil.1 hp]
    simp

/-- The loop of `hasBalancedBraces` from counters that are not negative and
cannot overflow on the rest of the text. -/
theorem hasBalancedBracesLoop_spec (rest : CppString) :
    ∀ b p k : Int, 0 ≤ b → 0 ≤ p → 0 ≤ k → b + rest.length ≤ 2147483647 →
      p + rest.length ≤ 2147483647 → k + rest.length ≤ 2147483647 →
      ∃ r : Bool, hasBalancedBracesLoop b p k rest = some r ∧
        (r = true ↔
          ((∀ pre : CppString, pre <+: rest →
              0 ≤ b + (pre.count '\x7b' : Int) - (pre.count '\x7d' : Int)) ∧
            b + (rest.count '\x7b' : Int) - (rest.count '\x7d' : Int) = 0) ∧
          ((∀ pre : CppString, pre <+: rest →
              0 ≤ p + (pre.count '(' : Int) - (pre.count ')' : Int)) ∧
            p + (rest.count '(' : Int) - (rest.count ')' : Int) = 0) ∧
          ((∀ pre : CppString, pre <+: rest →
              0 ≤ k + (pre.count '[' : Int) - (pre.count ']' : Int)) ∧
            k + (rest.count '[' : Int) - (rest.count ']' : Int) = 0)) := by
  induction rest with
  | nil =>
    intro b p k _ _ _ _ _ _
    refine ⟨_, rfl, ?_⟩
    rw [balanced_nil, balanced_nil, balanced_nil]
    simp [Bool.and_eq_true, and_assoc]
  | cons x t ih =>
    intro b p k hb hp hk hbl hpl hkl
    rw [balanced_cons '\x7b' '\x7d' x (by decide), balanced_cons '(' ')' x (by decide),
      balanced_cons '[' ']' x (by decide)]
    simp only [List.length_cons, Nat.cast_add, Nat.cast_one] at hbl hpl hkl
    simp only [hasBalancedBracesLoop]
    generalize hb1 : (if x = '\x7b' then b + 1 else if x = '\x7d' then b - 1 else b) = b1
    generalize hp1 : (if x = '(' then p + 1 else if x = ')' then p - 1 else p) = p1
    generalize hk1 : (if x = '[' then k + 1 else if x = ']' then k - 1 else k) = k1
    have hbr : b - 1 ≤ b1 ∧ b1 ≤ b + 1 := by
      rw [← hb1]; split_ifs <;> omega
    have hpr : p - 1 ≤ p1 ∧ p1 ≤ p + 1 := by
      rw [← hp1]; split_ifs <;> omega
    have hkr : k - 1 ≤ k1 ∧ k1 ≤ k + 1 := by
      rw [← hk1]; split_ifs <;> omega
    have hin : (inInt b1 && inInt p1 && inInt k1) = true := by
      simp only [inInt, Bool.and_eq_true, decide_eq_true_eq]
      omega
    rw [hin]
    simp only [Bool.not_true, Bool.false_eq_true, if_false]
    by_cases hneg : b1 < 0 ∨ p1 < 0 ∨ k1 < 0
    · rw [if_pos hneg]
      refine ⟨false, rfl, ?_⟩
      constructor
      · intro h; exact absurd h (by simp)
      · rintro ⟨⟨-, h1, -⟩, ⟨-, h2, -⟩, ⟨-, h3, -⟩⟩
        have e1 := h1 [] List.nil_prefix
        have e2 := h2 [] List.nil_prefix
        have e3 := h3 [] List.nil_prefix
        simp only [List.count_nil, Nat.cast_zero, add_zero, sub_zero] at e1 e2 e3
        rcases hneg with h | h | h <;> omega
    · rw [if_neg hneg]
      have hn : 0 ≤ b1 ∧ 0 ≤ p1 ∧ 0 ≤ k1 := by omega
      obtain ⟨r, hr, hiff⟩ := ih b1 p1 k1 hn.1 hn.2.1 hn.2.2 (by omega) (by omega) (by omega)
      refine ⟨r, hr, ?_⟩
      rw [hiff]
      constructor
      · rintro ⟨h1, h2, h3⟩
        exact ⟨⟨hb, h1⟩, ⟨hp, h2⟩, ⟨hk, h3⟩⟩
      · rintro ⟨⟨-, h1⟩, ⟨-, h2⟩, ⟨-, h3⟩⟩
        exact ⟨h1, h2, h3⟩

/-- C26: on a text of at most `INT_MAX` characters `hasBalancedBraces` returns
`true` exactly when, for each of the three kinds of bracket by itself, no
initial part of the text has more closers than openers and the whole text
has as many openers as closers. The kinds do not interact: `([)]` is
accepted. -/
theorem hasBalancedBraces_spec (code : CppString) (hlen : code.length ≤ 2147483647) :
    (∃ r : Bool, hasBalancedBraces code = some r ∧
      (r = true ↔
        ∀ kind ∈ [('\x7b', '\x7d'), ('(', ')'), ('[', ']')],
          (∀ pre : CppString, pre <+: code → pre.count kind.2 ≤ pre.count kind.1) ∧
          code.count kind.1 = code.count kind.2)) ∧
    hasBalancedBraces "([)]".toList = some true := by
  refine ⟨?_, by decide⟩
  have hl : (0 : Int) + code.length ≤ 2147483647 := by
    have : (code.length : Int) ≤ 2147483647 := by exact_mod_cast hlen
    omega
  obtain ⟨r, hr, hiff⟩ := hasBalancedBracesLoop_spec code 0 0 0 (le_refl _) (le_refl _)
    (le_refl _) hl hl hl
  refine ⟨r, hr, ?_⟩
  rw [hiff]
  simp only [List.mem_cons, List.mem_singleton, List.not_mem_nil, or_false, forall_eq_or_imp,
    forall_eq, zero_add]
  have key : ∀ (o c : Char),
      ((∀ pre : CppString, pre <+: code → 0 ≤ (pre.count o : Int) - (pre.count c : Int)) ∧
        (code.count o : Int) - (code.count c : Int) = 0) ↔
      ((∀ pre : CppString, pre <+: code → pre.count c ≤ pre.count o) ∧
        code.count o = code.count c) := by
    intro o c
    constructor
    · rintro ⟨h1, h2⟩
      refine ⟨fun pre hp => ?_, ?_⟩
      · have := h1 pre hp
        omega
      · omega
    · rintro ⟨h1, h2⟩
      refine ⟨fun pre hp => ?_, ?_⟩
      · have := h1 pre hp
        omega
      · omega
  rw [key, key, key]

theorem hasBalancedBraces_spec_witness :
    ∃ r : Bool, hasBalancedBraces "f(a[1]) \x7b g(); \x7d".toList = some r ∧
      (r = true ↔
        ∀ kind ∈ [('\x7b', '\x7d'), ('(', ')'), ('[', ']')],
          (∀ pre : CppString, pre <+: "f(a[1]) \x7b g(); \x7d".toList →
            pre.count kind.2 ≤ pre.count kind.1) ∧
          "f(a[1]) \x7b g(); \x7d".toList.count kind.1 =
            "f(a[1]) \x7b g(); \x7d".toList.count kind.2) :=
  (hasBalancedBraces_spec "f(a[1]) \x7b g(); \x7d".toList (by decide)).1

end StringUtils
end CppCodeQuest
namespace CppCodeQuest
namespace GameEngine

/-! ## The inventory and the rewards -/

theorem playLevel_rewards (g : GameEngine) (inp : IStream)
    (h : g.currentLevel_ < g.levels_.length) :
    (playLevel g g.currentLevel_ inp).engine.levels_.map Level.reward_ =
      g.levels_.map Level.reward_ := by
  rw [playLevel_eq g _ inp h]
  apply List.ext_getElem
  · simp
  · intro n h1 h2
    simp only [List.getElem_map, List.getElem_set]
    split
    · rename_i heq
      subst heq
      rfl
    · rfl

theorem take_succ_rewards (g : GameEngine) (h : g.currentLevel_ < g.levels_.length) :
    (g.levels_.map Level.reward_).take (g.currentLevel_ + 1) =
      (g.levels_.map Level.reward_).take g.currentLevel_ ++
        [(g.levels_.get ⟨g.currentLevel_, h⟩).reward_] := by
  rw [List.take_succ]
  congr 1
  simp [List.getElem?_map, List.getElem?_eq_getElem h]

/-- The inventory along the loop of `run`, when the loop is entered with the
rewards of the levels below `currentLevel_`. -/
theorem runLoop_rewards (g : GameEngine) (inp : IStream)
    (hinv : g.inventory_ = (g.levels_.map Level.reward_).take g.currentLevel_) :
    (∀ s, EngineEvent.state Point.loopTest s ∈ (runLoop g inp).trace →
      s.inventory_ = (g.levels_.map Level.reward_).take s.currentLevel_) ∧
    (runLoop g inp).engine.levels_.map Level.reward_ = g.levels_.map Level.reward_ ∧
    ((runLoop g inp).returned = true →
      (runLoop g inp).engine.inventory_ =
        (g.levels_.map Level.reward_).take ((runLoop g inp).engine.currentLevel_ + 1)) ∧
    ((runLoop g inp).returned = false →
      (runLoop g inp).engine.inventory_ =
        (g.levels_.map Level.reward_).take (runLoop g inp).engine.currentLevel_) := by
  induction g, inp using runLoop_induction with
  | done g inp h =>
    rw [runLoop_done g inp h]
    refine ⟨?_, rfl, fun hr => by simp at hr, fun _ => hinv⟩
    intro s hmem
    simp only [List.mem_singleton, EngineEvent.state.injEq, true_and] at hmem
    rw [hmem]
    exact hinv
  | no g inp h hn =>
    obtain ⟨hlen, hcur, hinvr, -, -, hst⟩ := playLevel_engine g inp h
    rw [runLoop_no g inp h hn]
    refine ⟨?_, playLevel_rewards g inp h, fun _ => ?_, fun hr => by simp at hr⟩
    · intro s hmem
      simp only [List.mem_append, List.mem_singleton, EngineEvent.state.injEq, reduceCtorEq,
        or_false, hst, state_not_mem_showInventory, false_or, true_and, false_and] at hmem
      rw [hmem]
      exact hinv
    · show (playLevel g g.currentLevel_ inp).engine.inventory_ =
        (g.levels_.map Level.reward_).take
          ((playLevel g g.currentLevel_ inp).engine.currentLevel_ + 1)
      rw [hinvr, hcur, take_succ_rewards g h, hinv]
  | yes g inp h hy ih =>
    obtain ⟨hlen, hcur, hinvr, -, -, hst⟩ := playLevel_engine g inp h
    have hrew := playLevel_rewards g inp h
    have hnext : (playLevel g g.currentLevel_ inp).engine.inventory_ =
        ((playLevel g g.currentLevel_ inp).engine.levels_.map Level.reward_).take
          ((playLevel g g.currentLevel_ inp).engine.currentLevel_ + 1) := by
      rw [hrew, hinvr, hcur, take_succ_rewards g h, hinv]
    obtain ⟨ih1, ih2, ih3, ih4⟩ := ih hnext
    rw [runLoop_yes g inp h hy]
    refine ⟨?_, ih2.trans hrew, fun hr => ?_, fun hr => ?_⟩
    · intro s hmem
      simp only [List.mem_append, List.mem_singleton, EngineEvent.state.injEq, reduceCtorEq,
        or_false, hst, state_not_mem_showInventory, false_or, true_and, false_and] at hmem
      rcases hmem with rfl | hrec
      · exact hinv
      · have := ih1 s hrec
        rw [this]
        show List.take s.currentLevel_
          ((playLevel g g.currentLevel_ inp).engine.levels_.map Level.reward_) = _
        rw [hrew]
    · have := ih3 hr
      rw [← hrew]
      exact this
    · have := ih4 hr
      rw [← hrew]
      exact this

/-- The level at which the loop of `run` is left by a refusal: one level up
for every answer that was given before. -/
theorem runLoop_declined_level (g : GameEngine) (inp : IStream) (resp : CppString)
    (pre post : List EngineEvent)
    (h : (runLoop g inp).trace = pre ++ EngineEvent.askYesNo resp false :: post) :
    (runLoop g inp).engine.currentLevel_ = g.currentLevel_ + (answers pre).length := by
  induction g, inp using runLoop_induction generalizing pre with
  | done g inp hd =>
    rw [runLoop_done g inp hd] at h
    have hmem : EngineEvent.askYesNo resp false ∈
        pre ++ EngineEvent.askYesNo resp false :: post := by simp
    rw [← h] at hmem
    simp at hmem
  | no g inp hlt hn =>
    obtain ⟨hlen, hcur, -, -, hans, -⟩ := playLevel_engine g inp hlt
    rw [runLoop_no g inp hlt hn] at h ⊢
    simp only [List.append_assoc] at h
    rw [← List.append_assoc, ← List.append_assoc, ← List.append_assoc,
      ← List.append_assoc] at h
    obtain ⟨mid, hpre, hmid⟩ := Level.split_after_head _ (askYesNo_not_mem_shown g inp resp false) h
    cases mid with
    | nil =>
      show (playLevel g g.currentLevel_ inp).engine.currentLevel_ = _
      rw [hpre, hcur]
      simp [answers_append, answers, hans, answers_showInventory]
    | cons x mid =>
      simp only [List.singleton_append, List.cons_append, List.cons.injEq] at hmid
      have hmem : EngineEvent.askYesNo resp false ∈ [] ++ [EngineEvent.saved] := by
        rw [hmid.2]; simp
      simp at hmem
  | yes g inp hlt hy ih =>
    obtain ⟨hlen, hcur, -, -, hans, -⟩ := playLevel_engine g inp hlt
    rw [runLoop_yes g inp hlt hy] at h ⊢
    have hne : EngineEvent.askYesNo resp false ∉
        [EngineEvent.state Point.loopTest g] ++ (playLevel g g.currentLevel_ inp).trace ++
        [EngineEvent.state Point.afterPlayLevel (playLevel g g.currentLevel_ inp).engine] ++
        [EngineEvent.showProgress (playLevel g g.currentLevel_ inp).engine.getProgressPercentage] ++
        (playLevel g g.currentLevel_ inp).engine.showInventory ++
        [EngineEvent.askYesNo (getline (playLevel g g.currentLevel_ inp).input).2.1 true] ++
        [EngineEvent.clearScreen] := by
      intro hmem
      rw [List.mem_append, List.mem_append] at hmem
      rcases hmem with (hmem | hmem) | hmem
      · exact askYesNo_not_mem_shown g inp resp false hmem
      · simp at hmem
      · simp at hmem
    have hanshd : answers ([EngineEvent.state Point.loopTest g] ++
        (playLevel g g.currentLevel_ inp).trace ++
        [EngineEvent.state Point.afterPlayLevel (playLevel g g.currentLevel_ inp).engine] ++
        [EngineEvent.showProgress (playLevel g g.currentLevel_ inp).engine.getProgressPercentage] ++
        (playLevel g g.currentLevel_ inp).engine.showInventory ++
        [EngineEvent.askYesNo (getline (playLevel g g.currentLevel_ inp).input).2.1 true] ++
        [EngineEvent.clearScreen]) = [true] := by
      simp [answers_append, answers, hans, answers_showInventory]
    dsimp only at h ⊢
    generalize [EngineEvent.state Point.loopTest g] ++ (playLevel g g.currentLevel_ inp).trace ++
        [EngineEvent.state Point.afterPlayLevel (playLevel g g.currentLevel_ inp).engine] ++
        [EngineEvent.showProgress (playLevel g g.currentLevel_ inp).engine.getProgressPercentage] ++
        (playLevel g g.currentLevel_ inp).engine.showInventory ++
        [EngineEvent.askYesNo (getline (playLevel g g.currentLevel_ inp).input).2.1 true] ++
        [EngineEvent.clearScreen] = hd at h hne hanshd
    obtain ⟨mid, hpre, hmid⟩ := Level.split_after_head hd hne h
    have := ih mid hmid
    rw [this, hpre, answers_append, hanshd]
    show (playLevel g g.currentLevel_ inp).engine.currentLevel_ + 1 + _ = _
    rw [hcur]
    simp only [List.length_append, List.length_singleton]
    omega

end GameEngine
end CppCodeQuest
namespace CppCodeQuest
namespace GameEngine

/-- The trace of the run in which the operator fails the first challenge, asks
for the solution and declines to go on. -/
theorem run_declined_first_trace :
    (run new "\nDONE\n3\nn\n".toList).trace =
      ([EngineEvent.showWelcome] ++ ([EngineEvent.state Point.loopTest new] ++
        (playLevel new new.currentLevel_ (waitForInput "\nDONE\n3\nn\n".toList)).trace ++
        [EngineEvent.state Point.afterPlayLevel
          (playLevel new new.currentLevel_ (waitForInput "\nDONE\n3\nn\n".toList)).engine] ++
        [EngineEvent.showProgress (playLevel new new.currentLevel_
          (waitForInput "\nDONE\n3\nn\n".toList)).engine.getProgressPercentage] ++
        (playLevel new new.currentLevel_
          (waitForInput "\nDONE\n3\nn\n".toList)).engine.showInventory)) ++
      EngineEvent.askYesNo "n".toList false ::
        [EngineEvent.saved,
          EngineEvent.state Point.exit (run new "\nDONE\n3\nn\n".toList).engine] := by
  have hlt : new.currentLevel_ < new.levels_.length := by decide
  have hloop := runLoop_no new (waitForInput "\nDONE\n3\nn\n".toList) hlt playLevel_declined_input
  have hret : (runLoop new (waitForInput "\nDONE\n3\nn\n".toList)).returned = true := by
    rw [hloop]
  have hin : (getline (playLevel new new.currentLevel_
      (waitForInput "\nDONE\n3\nn\n".toList)).input).2.1 = "n".toList := by
    have hv : validator1 [] = false := by decide
    rw [playLevel_eq new _ _ hlt]
    simp [waitForInput, Level.play, Level.playLoop, Level.getUserCode_done, getline,
      Level.maxAttempts, Level.validateSolution, hv, new, initializeLevels, level1, Level.new]
  rw [run_engine, run_of_returned new _ hret, hloop, hin]
  simp only [List.append_assoc, List.cons_append, List.nil_append]

/-- No answer is given before the first prompt. -/
theorem answers_shown_nil (g s : GameEngine) (T inv : List EngineEvent) (p : ℚ)
    (hT : answers T = []) (hinv : answers inv = []) :
    answers ([EngineEvent.showWelcome] ++ ([EngineEvent.state Point.loopTest g] ++ T ++
      [EngineEvent.state Point.afterPlayLevel s] ++ [EngineEvent.showProgress p] ++ inv)) = [] := by
  simp [answers_append, answers, hT, hinv]

/-- C28: in `run`, whenever the loop condition is tested `inventory_` is the list
of the reward labels of the levels below `currentLevel_`, in order; and when
an answer to the continue prompt is a no, after `k` earlier answers, `run`
returns with `currentLevel_ == k` and with `inventory_` the reward labels of
the levels 0 to `k`, which are `k + 1` items. -/
theorem run_inventory_rewards (inp : IStream) :
    (∀ g, EngineEvent.state Point.loopTest g ∈ (run new inp).trace →
      g.inventory_ = (new.levels_.map Level.reward_).take g.currentLevel_) ∧
    (∀ (resp : CppString) (pre post : List EngineEvent),
      (run new inp).trace = pre ++ EngineEvent.askYesNo resp false :: post →
      (run new inp).engine.currentLevel_ = (answers pre).length ∧
      (run new inp).engine.inventory_ =
        (new.levels_.map Level.reward_).take ((answers pre).length + 1) ∧
      (run new inp).engine.inventory_.length = (answers pre).length + 1 ∧
      ∃ before, pre = before ++
        [EngineEvent.state Point.afterPlayLevel (run new inp).engine,
          EngineEvent.showProgress (run new inp).engine.getProgressPercentage] ++
        (run new inp).engine.showInventory) := by
  obtain ⟨hst, -, hret, -⟩ := runLoop_rewards new (waitForInput inp) rfl
  refine ⟨?_, ?_⟩
  · intro g hmem
    rcases run_trace_mem new inp _ hmem with h | h | h | h
    · simp at h
    · exact hst g h
    · simp at h
    · simp at h
  · intro resp pre post h
    have key : ∃ mid post2, (runLoop new (waitForInput inp)).trace =
        mid ++ EngineEvent.askYesNo resp false :: post2 ∧
        pre = [EngineEvent.showWelcome] ++ mid := by
      cases hr : (runLoop new (waitForInput inp)).returned with
      | false =>
        rw [run_of_finished new inp hr] at h
        simp only [List.append_assoc] at h
        obtain ⟨mid, hpre, hmid⟩ := Level.split_after_head [EngineEvent.showWelcome] (by simp) h
        obtain ⟨mid2, -, hloop⟩ := split_before_tail _ (by simp) hmid
        exact ⟨mid, mid2, hloop, hpre⟩
      | true =>
        rw [run_of_returned new inp hr] at h
        simp only [List.append_assoc] at h
        obtain ⟨mid, hpre, hmid⟩ := Level.split_after_head [EngineEvent.showWelcome] (by simp) h
        obtain ⟨mid2, -, hloop⟩ := split_before_tail _ (by simp) hmid
        exact ⟨mid, mid2, hloop, hpre⟩
    obtain ⟨mid, post2, hloop, hpre⟩ := key
    obtain ⟨-, hreturned, ⟨before, hbefore⟩, hlt⟩ :=
      runLoop_declined new (waitForInput inp) resp mid post2 hloop
    have hlevel := runLoop_declined_level new (waitForInput inp) resp mid post2 hloop
    have hk : (answers pre).length = (answers mid).length := by
      rw [hpre, answers_append]
      rfl
    have hcur : (run new inp).engine.currentLevel_ = (answers pre).length := by
      rw [run_engine, hlevel, hk]
      show 0 + _ = _
      omega
    have hinv : (run new inp).engine.inventory_ =
        (new.levels_.map Level.reward_).take ((answers pre).length + 1) := by
      rw [← hcur, run_engine]
      exact hret hreturned
    refine ⟨hcur, hinv, ?_, ⟨[EngineEvent.showWelcome] ++ before, ?_⟩⟩
    · have hlen : (answers pre).length + 1 ≤ (new.levels_.map Level.reward_).length := by
        obtain ⟨-, hl, -, -⟩ := runLoop_states new (waitForInput inp) rfl (by decide)
        rw [← hcur, run_engine, List.length_map, ← hl]
        exact hlt
      rw [hinv, List.length_take]
      omega
    · rw [hpre, hbefore, run_engine]
      simp only [List.append_assoc]

theorem run_inventory_rewards_witness :
    (run new "\nDONE\n3\nn\n".toList).engine.currentLevel_ = 0 ∧
    (run new "\nDONE\n3\nn\n".toList).engine.inventory_ =
      ["📜 Auto Deduction Scroll".toList] := by
  have hans := (playLevel_engine new (waitForInput "\nDONE\n3\nn\n".toList)
    (by decide)).2.2.2.2.1
  have h := (run_inventory_rewards "\nDONE\n3\nn\n".toList).2 "n".toList _ _
    run_declined_first_trace
  rw [answers_shown_nil new _ _ _ _ hans (answers_showInventory _)] at h
  exact ⟨h.1, h.2.1.trans rfl⟩

end GameEngine
end CppCodeQuest
